import Mathlib

/-!
# Gradient fill engine and palettes of the FastLED RGBW fork

Shallow embedding of `fill_gradient` and its 2-, 3- and 4-stop overloads, of the palette
classes (comparison, indexing, loading of compact gradient descriptions) and of
`map_data_into_colors_through_palette` from `src/include/colorutils.h`, together with the
pixel types `CHSV` and `CRGBW` of `src/include/pixeltypes.h`.

Conventions of the embedding.

* A `uint8_t` / `uint16_t` value is a natural number; every C conversion to a
  narrower type is an explicit reduction (`toUInt8`, `toUInt16`, `toInt16`).
  Arithmetic in between is C `int` arithmetic (32 bits on the ESP32 target of
  this repository), which never overflows on the values that occur here, so it
  is arithmetic on `Int`.
* `fill_gradient` never reads `targetArray`; it only stores into it.  Its
  meaning is therefore the sequence of stores `targetArray[i] = c` it performs,
  together with the information whether the write loop was left (`Run`).  The
  array after the call is obtained with `Run.result`.
* The write loop `for (uint16_t i = startpos; i <= endpos; i++)` is run with
  fuel: one unit of fuel per evaluation of the loop test.  So are the other loops
  whose counter is a machine integer.
* A compact gradient description is the list of the entries that lie in its memory.
  A loader that reads an entry after the last one of the list stops with
  `Outcome.outOfBounds`; a loop that moves a pointer through the description is a
  recursion on the list.
* Functions of lib8tion and of colorutils.cpp, which are not among the sources, are
  either parameters or definitions whose comment starts with "Modelled from the spec".
-/

namespace FastLED

/-! ## Machine integers -/

/-- Conversion of a C integer to `uint8_t`. -/
def toUInt8 (x : Int) : Nat := (x % 256).toNat

/-- Conversion of a C integer to `uint16_t`. -/
def toUInt16 (x : Int) : Nat := (x % 65536).toNat

/-- Conversion of a C integer to `int16_t` (two-complement wrap-around);
`saccum87` is `#define`d as `int16_t` in colorutils.h. -/
def toInt16 (x : Int) : Int := (x + 32768) % 65536 - 32768

/-- Modelled from the spec: the type `accum88` is declared in lib8tion.h, which is
not among the sources.  The spec describes the accumulators as "16-bit-scaled
fixed-point accumulators (8 bits of value, 8 bits of fraction)", so storing a
value into an `accum88` reduces it modulo 2^16. -/
def accum88 (x : Int) : Nat := toUInt16 x

/-! ## Data model -/

/-- The struct `CHSV`: hue, saturation and value, each a `uint8_t`. -/
structure CHSV where
  hue : Nat
  sat : Nat
  val : Nat
deriving DecidableEq

/-- Every field of the pixel is in the range of `uint8_t`. -/
def CHSV.wf (c : CHSV) : Prop := c.hue < 256 ∧ c.sat < 256 ∧ c.val < 256

instance (c : CHSV) : Decidable c.wf := by
  unfold CHSV.wf
  infer_instance

/-- The enum `TGradientDirectionCode`. -/
inductive TGradientDirectionCode where
  | FORWARD_HUES
  | BACKWARD_HUES
  | SHORTEST_HUES
  | LONGEST_HUES
deriving DecidableEq

open TGradientDirectionCode

/-- What a call does to `targetArray`: the stores `targetArray[i] = c` in the
order in which they are performed, and whether the call returned (`exited`)
or ran out of fuel inside its write loop. -/
structure Run where
  writes : List (Nat × CHSV)
  exited : Bool
deriving DecidableEq

/-- Performs a list of stores on an array, first store first. -/
def store (targetArray : Nat → CHSV) (ws : List (Nat × CHSV)) : Nat → CHSV :=
  ws.foldl (fun a w => Function.update a w.1 w.2) targetArray

/-- The array after a call, when the call returned. -/
def Run.result (r : Run) (targetArray : Nat → CHSV) : Option (Nat → CHSV) :=
  if r.exited then some (store targetArray r.writes) else none

/-- Sequencing of two calls: the second one runs only when the first returned. -/
def Run.andThen (r₁ r₂ : Run) : Run :=
  if r₁.exited then ⟨r₁.writes ++ r₂.writes, r₂.exited⟩ else r₁

/-- The indices stored to by a call. -/
def Run.indices (r : Run) : List Nat := r.writes.map Prod.fst

/-! ## `fill_gradient` -/

/-- The end colour after
`if( endcolor.value == 0 || endcolor.saturation == 0) endcolor.hue = startcolor.hue;` -/
def forceEndHue (startcolor endcolor : CHSV) : CHSV :=
  if endcolor.val = 0 ∨ endcolor.sat = 0 then { endcolor with hue := startcolor.hue }
  else endcolor

/-- The start colour after
`if( startcolor.value == 0 || startcolor.saturation == 0) startcolor.hue = endcolor.hue;`
(`endcolor` is the end colour as already modified by `forceEndHue`). -/
def forceStartHue (startcolor endcolor : CHSV) : CHSV :=
  if startcolor.val = 0 ∨ startcolor.sat = 0 then { startcolor with hue := endcolor.hue }
  else startcolor

/-- The direction code after the two blocks that resolve `SHORTEST_HUES` and
`LONGEST_HUES` into `FORWARD_HUES` or `BACKWARD_HUES`. -/
def resolveDirection (directionCode : TGradientDirectionCode) (huedelta8 : Nat) :
    TGradientDirectionCode :=
  let directionCode :=
    if directionCode = SHORTEST_HUES then
      (if huedelta8 > 127 then BACKWARD_HUES else FORWARD_HUES)
    else directionCode
  let directionCode :=
    if directionCode = LONGEST_HUES then
      (if huedelta8 < 128 then BACKWARD_HUES else FORWARD_HUES)
    else directionCode
  directionCode

/-- The variable `huedistance87` of `fill_gradient` as a function of the
direction code and of `huedelta8`:
`huedelta8 << 7` forwards, `-((uint8_t)(256 - huedelta8) << 7)` backwards. -/
def huedistance87 (directionCode : TGradientDirectionCode) (huedelta8 : Nat) : Int :=
  if resolveDirection directionCode huedelta8 = FORWARD_HUES then
    toInt16 ((huedelta8 : Int) * 128)
  else
    toInt16 (-(toInt16 ((toUInt8 (256 - (huedelta8 : Int)) : Int) * 128)))

/-- The variable `huedelta8` of `fill_gradient`:
`uint8_t huedelta8 = endcolor.hue - startcolor.hue;` -/
def huedelta8 (startcolor endcolor : CHSV) : Nat :=
  toUInt8 ((endcolor.hue : Int) - (startcolor.hue : Int))

/-- The variable `divisor` of `fill_gradient`:
`uint16_t pixeldistance = endpos - startpos;`
`int16_t divisor = pixeldistance ? pixeldistance : 1;` -/
def divisor (startpos endpos : Nat) : Int :=
  let pixeldistance := toUInt16 ((endpos : Int) - (startpos : Int))
  toInt16 (if pixeldistance ≠ 0 then (pixeldistance : Int) else 1)

/-- A per-pixel delta: `d = distance87 / divisor; d *= 2;` on `saccum87`.
C division truncates toward zero. -/
def delta87 (distance87 divisor : Int) : Int :=
  toInt16 (toInt16 (Int.tdiv distance87 divisor) * 2)

/-- The write loop
`for( uint16_t i = startpos; i <= endpos; i++) { targetArray[i] = CHSV(hue88 >> 8, sat88 >> 8, val88 >> 8); hue88 += huedelta87; sat88 += satdelta87; val88 += valdelta87; }`
started at loop counter `i` with the three accumulators.  The first argument
is the fuel. -/
def fill_gradient_loop (endpos : Nat) (huedelta87 satdelta87 valdelta87 : Int) :
    Nat → Nat → Nat → Nat → Nat → Run
  | 0, _, _, _, _ => ⟨[], false⟩
  | fuel + 1, i, hue88, sat88, val88 =>
    if i ≤ endpos then
      let rest := fill_gradient_loop endpos huedelta87 satdelta87 valdelta87 fuel
        (toUInt16 ((i : Int) + 1))
        (accum88 ((hue88 : Int) + huedelta87))
        (accum88 ((sat88 : Int) + satdelta87))
        (accum88 ((val88 : Int) + valdelta87))
      ⟨(i, CHSV.mk (toUInt8 ((hue88 / 256 : Nat) : Int)) (toUInt8 ((sat88 / 256 : Nat) : Int))
            (toUInt8 ((val88 / 256 : Nat) : Int))) :: rest.writes, rest.exited⟩
    else ⟨[], true⟩

/-- The body of `fill_gradient` after the points have been put in order.  A shift
`x << 7` of an `int` is the multiplication by 128, also for the negative saturation and
value differences. -/
def fill_gradient_ordered (fuel : Nat) (startpos : Nat) (startcolor : CHSV)
    (endpos : Nat) (endcolor : CHSV) (directionCode : TGradientDirectionCode) : Run :=
  let endcolor := forceEndHue startcolor endcolor
  let startcolor := forceStartHue startcolor endcolor
  let satdistance87 := toInt16 (((endcolor.sat : Int) - (startcolor.sat : Int)) * 128)
  let valdistance87 := toInt16 (((endcolor.val : Int) - (startcolor.val : Int)) * 128)
  let huedistance87 := huedistance87 directionCode (huedelta8 startcolor endcolor)
  let divisor := divisor startpos endpos
  let huedelta87 := delta87 huedistance87 divisor
  let satdelta87 := delta87 satdistance87 divisor
  let valdelta87 := delta87 valdistance87 divisor
  fill_gradient_loop endpos huedelta87 satdelta87 valdelta87 fuel startpos
    (accum88 ((startcolor.hue : Int) * 256))
    (accum88 ((startcolor.sat : Int) * 256))
    (accum88 ((startcolor.val : Int) * 256))

/-- The function template `fill_gradient(targetArray, startpos, startcolor, endpos,
endcolor, directionCode)`, instantiated at an array of `CHSV`. -/
def fill_gradient (fuel : Nat) (startpos : Nat) (startcolor : CHSV)
    (endpos : Nat) (endcolor : CHSV) (directionCode : TGradientDirectionCode) : Run :=
  if endpos < startpos then
    fill_gradient_ordered fuel endpos endcolor startpos startcolor directionCode
  else
    fill_gradient_ordered fuel startpos startcolor endpos endcolor directionCode

/-- The two-stop overload `fill_gradient(targetArray, numLeds, c1, c2, directionCode)`. -/
def fill_gradient2 (fuel : Nat) (numLeds : Nat) (c1 c2 : CHSV)
    (directionCode : TGradientDirectionCode) : Run :=
  let last := toUInt16 ((numLeds : Int) - 1)
  fill_gradient fuel 0 c1 last c2 directionCode

/-- The three-stop overload `fill_gradient(targetArray, numLeds, c1, c2, c3, directionCode)`. -/
def fill_gradient3 (fuel : Nat) (numLeds : Nat) (c1 c2 c3 : CHSV)
    (directionCode : TGradientDirectionCode) : Run :=
  let half := toUInt16 ((numLeds / 2 : Nat) : Int)
  let last := toUInt16 ((numLeds : Int) - 1)
  (fill_gradient fuel 0 c1 half c2 directionCode).andThen
    (fill_gradient fuel half c2 last c3 directionCode)

/-- The four-stop overload
`fill_gradient(targetArray, numLeds, c1, c2, c3, c4, directionCode)`. -/
def fill_gradient4 (fuel : Nat) (numLeds : Nat) (c1 c2 c3 c4 : CHSV)
    (directionCode : TGradientDirectionCode) : Run :=
  let onethird := toUInt16 ((numLeds / 3 : Nat) : Int)
  let twothirds := toUInt16 (((numLeds * 2) / 3 : Nat) : Int)
  let last := toUInt16 ((numLeds : Int) - 1)
  ((fill_gradient fuel 0 c1 onethird c2 directionCode).andThen
    (fill_gradient fuel onethird c2 twothirds c3 directionCode)).andThen
    (fill_gradient fuel twothirds c3 last c4 directionCode)

/-! ## Closed forms used in the statements -/

/-- The pixel stored in iteration `k` of the write loop, counted from a state
with accumulators `hue88`, `sat88`, `val88`. -/
def loopEntry (huedelta87 satdelta87 valdelta87 : Int) (hue88 sat88 val88 : Int) (k : Nat) :
    CHSV :=
  CHSV.mk (toUInt8 ((accum88 (hue88 + (k : Int) * huedelta87) / 256 : Nat) : Int))
    (toUInt8 ((accum88 (sat88 + (k : Int) * satdelta87) / 256 : Nat) : Int))
    (toUInt8 ((accum88 (val88 + (k : Int) * valdelta87) / 256 : Nat) : Int))

/-- The pixel stored in iteration `k` of the write loop of `fill_gradient`, for
points that are in order. -/
def orderedEntry (startpos : Nat) (startcolor : CHSV) (endpos : Nat) (endcolor : CHSV)
    (directionCode : TGradientDirectionCode) (k : Nat) : CHSV :=
  let e := forceEndHue startcolor endcolor
  let s := forceStartHue startcolor e
  loopEntry (delta87 (huedistance87 directionCode (huedelta8 s e)) (divisor startpos endpos))
    (delta87 (toInt16 (((e.sat : Int) - (s.sat : Int)) * 128)) (divisor startpos endpos))
    (delta87 (toInt16 (((e.val : Int) - (s.val : Int)) * 128)) (divisor startpos endpos))
    ((s.hue : Int) * 256) ((s.sat : Int) * 256) ((s.val : Int) * 256) k

/-- The saturation (or value) that the specification gives for position `i` of a
gradient over `N` steps from `c0` to `c1`:
`floor((256*c0 + i*2*trunc(128*(c1-c0)/N)) / 256)`, with `trunc` rounding toward zero. -/
def specChannel (c0 c1 N i : Nat) : Int :=
  (256 * (c0 : Int) + (i : Int) * 2 * Int.tdiv (128 * ((c1 : Int) - (c0 : Int))) (N : Int)) / 256

/-- The hue that the specification gives for position `i` of a gradient over `N` steps
starting at hue `h0` with signed 128-scaled hue distance `D`:
`floor(((256*h0 + i*2*trunc(D/N)) mod 65536) / 256)`. -/
def specHue (h0 : Nat) (D : Int) (N i : Nat) : Int :=
  ((256 * (h0 : Int) + (i : Int) * 2 * Int.tdiv D (N : Int)) % 65536) / 256

/-- The variable `huedelta8` of `fill_gradient` as a function of the arguments of the
call: the points are put in order, the two hue-forcing rules are applied, and
`huedelta8 = endcolor.hue - startcolor.hue` is computed on the result. -/
def fill_gradient_huedelta8 (startpos : Nat) (startcolor : CHSV) (endpos : Nat)
    (endcolor : CHSV) : Nat :=
  if endpos < startpos then
    huedelta8 (forceStartHue endcolor (forceEndHue endcolor startcolor))
      (forceEndHue endcolor startcolor)
  else
    huedelta8 (forceStartHue startcolor (forceEndHue startcolor endcolor))
      (forceEndHue startcolor endcolor)

/-! ## The pixel type `CRGBW` -/

/-- Conversion of a C integer to `int8_t` (two-complement wrap-around). -/
def toInt8 (x : Int) : Int := (x + 128) % 256 - 128

/-- The struct `CRGBW`: red, green, blue and white, each a `uint8_t`. -/
structure CRGBW where
  r : Nat
  g : Nat
  b : Nat
  w : Nat
deriving DecidableEq

/-- Every channel of the pixel is in the range of `uint8_t`. -/
def CRGBW.wf (c : CRGBW) : Prop := c.r < 256 ∧ c.g < 256 ∧ c.b < 256 ∧ c.w < 256

instance (c : CRGBW) : Decidable c.wf := by
  unfold CRGBW.wf
  infer_instance

/-- The member `raw[4]` of `CRGBW`: the four channels as bytes, in the order of the
struct. -/
def CRGBW.raw (c : CRGBW) (x : Nat) : Nat :=
  match x with
  | 0 => c.r
  | 1 => c.g
  | 2 => c.b
  | _ => c.w

/-- The member `raw[3]` of `CHSV`. -/
def CHSV.raw (c : CHSV) (x : Nat) : Nat :=
  match x with
  | 0 => c.hue
  | 1 => c.sat
  | _ => c.val

/-- The constructor `CRGBW( uint32_t colorcode)`:
`r((colorcode >> 24) & 0xFF), g((colorcode >> 16) & 0xFF), b((colorcode >> 8) & 0xFF),
w((colorcode >> 0) & 0xFF)`. -/
def CRGBW.CRGBW_colorcode (colorcode : Nat) : CRGBW :=
  ⟨(colorcode >>> 24) &&& 0xFF, (colorcode >>> 16) &&& 0xFF, (colorcode >>> 8) &&& 0xFF,
    (colorcode >>> 0) &&& 0xFF⟩

/-- The assignment `CRGBW::operator= (const uint32_t colorcode)`, as the new value of the
pixel. -/
def CRGBW.operator_assign_colorcode (_self : CRGBW) (colorcode : Nat) : CRGBW :=
  ⟨(colorcode >>> 24) &&& 0xFF, (colorcode >>> 16) &&& 0xFF, (colorcode >>> 8) &&& 0xFF,
    (colorcode >>> 0) &&& 0xFF⟩

/-- The method `CRGBW::setColorCode (uint32_t colorcode)`, as the new value of the pixel. -/
def CRGBW.setColorCode (_self : CRGBW) (colorcode : Nat) : CRGBW :=
  ⟨(colorcode >>> 24) &&& 0xFF, (colorcode >>> 16) &&& 0xFF, (colorcode >>> 8) &&& 0xFF,
    (colorcode >>> 0) &&& 0xFF⟩

/-- The constant `Red=0xFF0000` of the enum `CRGBW::HTMLColorCode`. -/
def HTMLColorCode.Red : Nat := 0xFF0000

/-- The constant `Blue=0x0000FF` of the enum `CRGBW::HTMLColorCode`. -/
def HTMLColorCode.Blue : Nat := 0x0000FF

/-- The constant `AliceBlue=0xF0F8FF` of the enum `CRGBW::HTMLColorCode`. -/
def HTMLColorCode.AliceBlue : Nat := 0xF0F8FF

/-- The method `CRGBW::getParity`: `uint8_t sum = r + g + b + w; return (sum & 0x01);` -/
def CRGBW.getParity (c : CRGBW) : Nat :=
  let sum := toUInt8 ((c.r : Int) + c.g + c.b + c.w)
  sum &&& 0x01

/-- The method `CRGBW::setParity( uint8_t parity)`, as the new value of the pixel.
`x++` and `x--` on a `uint8_t` channel wrap modulo 256. -/
def CRGBW.setParity (c : CRGBW) (parity : Nat) : CRGBW :=
  let curparity := c.getParity
  if parity = curparity then c
  else if parity ≠ 0 then
    -- going up
    if c.b > 0 ∧ c.b < 255 then
      let c1 : CRGBW :=
        if c.r = c.g ∧ c.g = c.b then
          { c with r := toUInt8 ((c.r : Int) + 1), g := toUInt8 ((c.g : Int) + 1) }
        else c
      { c1 with b := toUInt8 ((c1.b : Int) + 1) }
    else if c.r > 0 ∧ c.r < 255 then
      { c with r := toUInt8 ((c.r : Int) + 1) }
    else if c.g > 0 ∧ c.g < 255 then
      { c with g := toUInt8 ((c.g : Int) + 1) }
    else
      let c1 : CRGBW :=
        if c.r = c.g ∧ c.g = c.b then { c with r := c.r ^^^ 0x01, g := c.g ^^^ 0x01 }
        else c
      { c1 with b := c1.b ^^^ 0x01 }
  else
    -- going down
    if c.b > 1 then
      let c1 : CRGBW :=
        if c.r = c.g ∧ c.g = c.b then
          { c with r := toUInt8 ((c.r : Int) - 1), g := toUInt8 ((c.g : Int) - 1) }
        else c
      { c1 with b := toUInt8 ((c1.b : Int) - 1) }
    else if c.g > 1 then
      { c with g := toUInt8 ((c.g : Int) - 1) }
    else if c.r > 1 then
      { c with r := toUInt8 ((c.r : Int) - 1) }
    else
      let c1 : CRGBW :=
        if c.r = c.g ∧ c.g = c.b then { c with r := c.r ^^^ 0x01, g := c.g ^^^ 0x01 }
        else c
      { c1 with b := c1.b ^^^ 0x01 }

/-! ## Scaling primitives of lib8tion -/

/-- Modelled from the spec: `scale8` is a function of lib8tion.h, which is not among the
sources.  The spec gives its contract as "`scale8(a,s)` = floor(a*s/256)". -/
def scale8 (a s : Nat) : Nat := a * s / 256

/-- Modelled from the spec: `scale8_video` (the spec's `scale8Video`) is a function of
lib8tion.h, which is not among the sources.  The spec gives its contract as "same but
result is forced to at least 1 when `a>0` and `s>0` (never dims a lit channel fully to
zero unless `s==0`)". -/
def scale8_video (a s : Nat) : Nat :=
  if 0 < a ∧ 0 < s then max 1 (a * s / 256) else a * s / 256

/-- Modelled from the spec: `qadd8` (the spec's `satAdd8`) is a function of lib8tion.h,
which is not among the sources.  The spec gives its contract as "saturating unsigned
8-bit add ..., clamp to [0,255]". -/
def qadd8 (a b : Nat) : Nat := min 255 (a + b)

/-- Modelled from the spec: `nscale8x3( r, g, b, w, scale)` is a function of lib8tion.h,
which is not among the sources; it is passed the four channels by reference.  The spec
describes brightness scaling as a "channelwise scale-by-fraction" under the "may reach
zero" rule, so each channel `c` becomes `scale8(c, scale)`. -/
def nscale8x3 (c : CRGBW) (scale : Nat) : CRGBW :=
  ⟨scale8 c.r scale, scale8 c.g scale, scale8 c.b scale, scale8 c.w scale⟩

/-- Modelled from the spec: `nscale8x3_video( r, g, b, w, scale)` is a function of
lib8tion.h, which is not among the sources; it is passed the four channels by reference.
It is the "video scaling" variant of the spec, "guaranteed not to reduce a non-zero
channel to exactly zero unless the scale factor itself is zero", so each channel `c`
becomes `scale8_video(c, scale)`. -/
def nscale8x3_video (c : CRGBW) (scale : Nat) : CRGBW :=
  ⟨scale8_video c.r scale, scale8_video c.g scale, scale8_video c.b scale,
    scale8_video c.w scale⟩

/-- The method `CRGBW::nscale8_video (uint8_t scaledown)`. -/
def CRGBW.nscale8_video (c : CRGBW) (scaledown : Nat) : CRGBW := nscale8x3_video c scaledown

/-- The method `CRGBW::fadeLightBy (uint8_t fadefactor)`:
`nscale8x3_video( r, g, b, w, 255 - fadefactor)`; the last argument is converted to
`uint8_t`. -/
def CRGBW.fadeLightBy (c : CRGBW) (fadefactor : Nat) : CRGBW :=
  nscale8x3_video c (toUInt8 (255 - (fadefactor : Int)))

/-- The method `CRGBW::nscale8 (uint8_t scaledown)`. -/
def CRGBW.nscale8 (c : CRGBW) (scaledown : Nat) : CRGBW := nscale8x3 c scaledown

/-- The operator `CRGBW::operator+= (const CRGBW& rhs)`: `qadd8` on each channel. -/
def CRGBW.operator_add_assign (c rhs : CRGBW) : CRGBW :=
  ⟨qadd8 c.r rhs.r, qadd8 c.g rhs.g, qadd8 c.b rhs.b, qadd8 c.w rhs.w⟩

/-! ## Palettes

A palette is its array `entries`, a function from indices to pixels of which the first
16, 32 or 256 values are the palette. -/

/-- The bytes of a `CRGBW entries[]` array, as seen through the `const uint8_t*` of
`operator==`: four bytes per entry. -/
def bytesCRGBW (entries : Nat → CRGBW) (n : Nat) : Nat := (entries (n / 4)).raw (n % 4)

/-- The bytes of a `CHSV entries[]` array: three bytes per entry. -/
def bytesCHSV (entries : Nat → CHSV) (n : Nat) : Nat := (entries (n / 3)).raw (n % 3)

/-- The loop of the palette `operator==`,
`for( i = 0; i < (sizeof( entries)); i++) { if( *p != *q) return false; p++; q++; } return true;`
with `p` and `q` the two byte arrays, `size` the value of `sizeof( entries)` and `wrap`
the modulus of the type of the counter `i` (2^8 for `uint8_t`, 2^16 for `uint16_t`).  The
first argument is the fuel, one unit per evaluation of the loop test. -/
def palette_compare (wrap size : Nat) (p q : Nat → Nat) : Nat → Nat → Option Bool
  | 0, _ => none
  | fuel + 1, i =>
    if i < size then
      if p i ≠ q i then some false
      else palette_compare wrap size p q fuel ((i + 1) % wrap)
    else some true

/-- The operator `CRGBWPalette16::operator==`: 64 bytes, counter `uint8_t`.  The argument
`rhs` is passed by value, so the two arrays are different objects and the test
`if( p == q) return true;` fails. -/
def CRGBWPalette16.operator_eq (fuel : Nat) (entries rhs : Nat → CRGBW) : Option Bool :=
  palette_compare 256 64 (bytesCRGBW entries) (bytesCRGBW rhs) fuel 0

/-- The operator `CRGBWPalette16::operator!=`: `return !( *this == rhs);` -/
def CRGBWPalette16.operator_ne (fuel : Nat) (entries rhs : Nat → CRGBW) : Option Bool :=
  (CRGBWPalette16.operator_eq fuel entries rhs).map (fun b => !b)

/-- The operator `CRGBWPalette32::operator==`: 128 bytes, counter `uint8_t`. -/
def CRGBWPalette32.operator_eq (fuel : Nat) (entries rhs : Nat → CRGBW) : Option Bool :=
  palette_compare 256 128 (bytesCRGBW entries) (bytesCRGBW rhs) fuel 0

/-- The operator `CRGBWPalette32::operator!=`. -/
def CRGBWPalette32.operator_ne (fuel : Nat) (entries rhs : Nat → CRGBW) : Option Bool :=
  (CRGBWPalette32.operator_eq fuel entries rhs).map (fun b => !b)

/-- The operator `CRGBWPalette256::operator==`: 1024 bytes, counter `uint16_t`. -/
def CRGBWPalette256.operator_eq (fuel : Nat) (entries rhs : Nat → CRGBW) : Option Bool :=
  palette_compare 65536 1024 (bytesCRGBW entries) (bytesCRGBW rhs) fuel 0

/-- The operator `CRGBWPalette256::operator!=`. -/
def CRGBWPalette256.operator_ne (fuel : Nat) (entries rhs : Nat → CRGBW) : Option Bool :=
  (CRGBWPalette256.operator_eq fuel entries rhs).map (fun b => !b)

/-- The operator `CHSVPalette16::operator==`: 48 bytes, counter `uint8_t`. -/
def CHSVPalette16.operator_eq (fuel : Nat) (entries rhs : Nat → CHSV) : Option Bool :=
  palette_compare 256 48 (bytesCHSV entries) (bytesCHSV rhs) fuel 0

/-- The operator `CHSVPalette16::operator!=`. -/
def CHSVPalette16.operator_ne (fuel : Nat) (entries rhs : Nat → CHSV) : Option Bool :=
  (CHSVPalette16.operator_eq fuel entries rhs).map (fun b => !b)

/-- The operator `CHSVPalette32::operator==`: 96 bytes, counter `uint8_t`. -/
def CHSVPalette32.operator_eq (fuel : Nat) (entries rhs : Nat → CHSV) : Option Bool :=
  palette_compare 256 96 (bytesCHSV entries) (bytesCHSV rhs) fuel 0

/-- The operator `CHSVPalette32::operator!=`. -/
def CHSVPalette32.operator_ne (fuel : Nat) (entries rhs : Nat → CHSV) : Option Bool :=
  (CHSVPalette32.operator_eq fuel entries rhs).map (fun b => !b)

/-- The operator `CHSVPalette256::operator==`: 768 bytes, counter `uint16_t`. -/
def CHSVPalette256.operator_eq (fuel : Nat) (entries rhs : Nat → CHSV) : Option Bool :=
  palette_compare 65536 768 (bytesCHSV entries) (bytesCHSV rhs) fuel 0

/-- The operator `CHSVPalette256::operator!=`. -/
def CHSVPalette256.operator_ne (fuel : Nat) (entries rhs : Nat → CHSV) : Option Bool :=
  (CHSVPalette256.operator_eq fuel entries rhs).map (fun b => !b)

/-- The index used by `CRGBWPalette256::operator[] (int x)`: `entries[(uint8_t)x]`. -/
def CRGBWPalette256.index_int (x : Int) : Nat := toUInt8 x

/-- The operator `CRGBWPalette256::operator[] (int x)`: the entry `entries[(uint8_t)x]`,
or nothing when the index is outside `entries[256]`. -/
def CRGBWPalette256.operator_index_int (entries : Nat → CRGBW) (x : Int) : Option CRGBW :=
  if CRGBWPalette256.index_int x < 256 then some (entries (CRGBWPalette256.index_int x))
  else none

/-- The operator `CRGBWPalette256::operator[] (uint8_t x)`: the entry `entries[x]`; the
argument is converted to `uint8_t` by the call. -/
def CRGBWPalette256.operator_index_uint8 (entries : Nat → CRGBW) (x : Int) : Option CRGBW :=
  if toUInt8 x < 256 then some (entries (toUInt8 x)) else none

/-- The index used by `CHSVPalette256::operator[] (int x)`: `entries[(uint8_t)x]`. -/
def CHSVPalette256.index_int (x : Int) : Nat := toUInt8 x

/-- The operator `CHSVPalette256::operator[] (int x)`: the entry `entries[(uint8_t)x]`, or
nothing when the index is outside `entries[256]`. -/
def CHSVPalette256.operator_index_int (entries : Nat → CHSV) (x : Int) : Option CHSV :=
  if CHSVPalette256.index_int x < 256 then some (entries (CHSVPalette256.index_int x))
  else none

/-- The operator `CHSVPalette256::operator[] (uint8_t x)`. -/
def CHSVPalette256.operator_index_uint8 (entries : Nat → CHSV) (x : Int) : Option CHSV :=
  if toUInt8 x < 256 then some (entries (toUInt8 x)) else none

/-! ## `map_data_into_colors_through_palette` -/

/-- The enum `TBlendType`. -/
inductive TBlendType where
  | NOBLEND
  | LINEARBLEND
deriving DecidableEq

/-- The body of the loop of `map_data_into_colors_through_palette` for one entry: the new
value of `targetColorArray[i]`, given its old value `old` and the looked-up colour `rgb`.
The argument `256 - opacity` of `nscale8` is converted to `uint8_t`. -/
def map_data_entry (old rgb : CRGBW) (opacity : Nat) : CRGBW :=
  if opacity = 255 then rgb
  else
    let t := old.nscale8 (toUInt8 (256 - (opacity : Int)))
    let rgb := rgb.nscale8_video opacity
    t.operator_add_assign rgb

/-- The loop `for( uint16_t i = 0; i < dataCount; i++)` of
`map_data_into_colors_through_palette`, from counter `i` on.  `ColorFromPalette` is
declared in colorutils.h but defined outside the sources; it is a parameter.  The first
argument after `blendType` is the fuel, one unit per evaluation of the loop test. -/
def map_data_loop {PALETTE : Type} (ColorFromPalette : PALETTE → Nat → Nat → TBlendType → CRGBW)
    (dataArray : Nat → Nat) (dataCount : Nat) (pal : PALETTE) (brightness opacity : Nat)
    (blendType : TBlendType) : Nat → Nat → (Nat → CRGBW) → Option (Nat → CRGBW)
  | 0, _, _ => none
  | fuel + 1, i, targetColorArray =>
    if i < dataCount then
      let d := dataArray i
      let rgb := ColorFromPalette pal d brightness blendType
      map_data_loop ColorFromPalette dataArray dataCount pal brightness opacity blendType fuel
        (toUInt16 ((i : Int) + 1))
        (Function.update targetColorArray i (map_data_entry (targetColorArray i) rgb opacity))
    else some targetColorArray

/-- The function template `map_data_into_colors_through_palette`. -/
def map_data_into_colors_through_palette {PALETTE : Type}
    (ColorFromPalette : PALETTE → Nat → Nat → TBlendType → CRGBW) (fuel : Nat)
    (dataArray : Nat → Nat) (dataCount : Nat) (targetColorArray : Nat → CRGBW)
    (pal : PALETTE) (brightness opacity : Nat) (blendType : TBlendType) :
    Option (Nat → CRGBW) :=
  map_data_loop ColorFromPalette dataArray dataCount pal brightness opacity blendType fuel 0
    targetColorArray

/-! ## Compact gradient descriptions and their loaders -/

/-- Modelled from the spec: `fill_gradient_RGB` is declared in colorutils.h and defined in
colorutils.cpp, which is not among the sources.  The spec describes it as the
channel-space variant that "performs the same per-channel linear ramp without any
direction logic": 16-bit accumulators (8 bits of value, 8 bits of fraction) started at the
start colour, stepped by `2 * (distance_scaled / divisor)` with `divisor = max(1, end-start)`
and emitted by truncating back to 8 bits.  This is the value of one channel at step `i` of
a ramp of `N` steps from `c0` to `c1`. -/
def fill_gradient_RGB_channel (c0 c1 N i : Nat) : Nat :=
  toUInt8 ((accum88 (256 * (c0 : Int)
    + (i : Int) * (2 * Int.tdiv (128 * ((c1 : Int) - (c0 : Int))) (N : Int))) / 256 : Nat) : Int)

/-- Modelled from the spec: `fill_gradient_RGB` (see `fill_gradient_RGB_channel`) for points
that are in order: every entry from `startpos` to `endpos` inclusive receives the ramp,
the other entries are left as they are. -/
def fill_gradient_RGB_ordered (leds : Nat → CRGBW) (startpos : Nat) (startcolor : CRGBW)
    (endpos : Nat) (endcolor : CRGBW) : Nat → CRGBW :=
  fun j =>
    if startpos ≤ j ∧ j ≤ endpos then
      ⟨fill_gradient_RGB_channel startcolor.r endcolor.r (max 1 (endpos - startpos)) (j - startpos),
        fill_gradient_RGB_channel startcolor.g endcolor.g (max 1 (endpos - startpos)) (j - startpos),
        fill_gradient_RGB_channel startcolor.b endcolor.b (max 1 (endpos - startpos)) (j - startpos),
        fill_gradient_RGB_channel startcolor.w endcolor.w (max 1 (endpos - startpos)) (j - startpos)⟩
    else leds j

/-- Modelled from the spec: `fill_gradient_RGB( leds, startpos, startcolor, endpos, endcolor)`
(see `fill_gradient_RGB_channel`); as in the hue-space engine, points given in reverse are
swapped first. -/
def fill_gradient_RGB (leds : Nat → CRGBW) (startpos : Nat) (startcolor : CRGBW)
    (endpos : Nat) (endcolor : CRGBW) : Nat → CRGBW :=
  if endpos < startpos then fill_gradient_RGB_ordered leds endpos endcolor startpos startcolor
  else fill_gradient_RGB_ordered leds startpos startcolor endpos endcolor

/-- The union `TRGBGradientPaletteEntryUnion`, seen through its struct member: one entry
`(index, r, g, b, w)` of a compact gradient description.  A description is the list of
the entries that lie in its memory; `ent + k` is entry number `k` of the list. -/
structure TRGBGradientPaletteEntryUnion where
  index : Nat
  r : Nat
  g : Nat
  b : Nat
  w : Nat
deriving DecidableEq

/-- Every field of the entry is in the range of `uint8_t`. -/
def TRGBGradientPaletteEntryUnion.wf (u : TRGBGradientPaletteEntryUnion) : Prop :=
  u.index < 256 ∧ u.r < 256 ∧ u.g < 256 ∧ u.b < 256 ∧ u.w < 256

instance (u : TRGBGradientPaletteEntryUnion) : Decidable u.wf := by
  unfold TRGBGradientPaletteEntryUnion.wf
  infer_instance

/-- The colour `CRGBW( u.r, u.g, u.b, u.w)` of an entry. -/
def TRGBGradientPaletteEntryUnion.rgbw (u : TRGBGradientPaletteEntryUnion) : CRGBW :=
  ⟨u.r, u.g, u.b, u.w⟩

/-- How a run of a loader ends: it does not end within the fuel, it reads an entry that
is not part of the description, or it returns. -/
inductive Outcome (α : Type) where
  | timeout
  | outOfBounds
  | done (a : α)
deriving DecidableEq

/-- One call `fill_gradient_RGB( &(entries[0]), istart8, rgbstart, iend8, rgbend)` made by
a loader. -/
structure GradientSpan where
  istart8 : Nat
  rgbstart : CRGBW
  iend8 : Nat
  rgbend : CRGBW
deriving DecidableEq

/-- The palette after the calls of `fill_gradient_RGB` recorded in `spans`, first call
first. -/
def applySpans (entries : Nat → CRGBW) (spans : List GradientSpan) : Nat → CRGBW :=
  spans.foldl (fun e s => fill_gradient_RGB e s.istart8 s.rgbstart s.iend8 s.rgbend) entries

/-- The loop `do { u = *(ent + count); count++; } while ( u.index != 255);` that counts the
entries, with `count` a `uint16_t`.  The first argument after the description is the fuel,
one unit per iteration. -/
def countEntries (gpal : List TRGBGradientPaletteEntryUnion) : Nat → Nat → Outcome Nat
  | 0, _ => Outcome.timeout
  | fuel + 1, count =>
    match gpal[count]? with
    | none => Outcome.outOfBounds
    | some u =>
      if u.index ≠ 255 then countEntries gpal fuel (toUInt16 ((count : Int) + 1))
      else Outcome.done (toUInt16 ((count : Int) + 1))

/-- The block
`if( count < 16) { if( (istart8 <= lastSlotUsed) && (lastSlotUsed < 15)) { istart8 = lastSlotUsed + 1; if( iend8 < istart8) { iend8 = istart8; } } lastSlotUsed = iend8; }`
of the 16- and 32-entry loaders, with `lastSlot` the constant 15 (resp. 31): the new values
of `istart8`, `iend8` (both `uint8_t`) and `lastSlotUsed` (an `int8_t`). -/
def adjustSlots (lastSlot count istart8 iend8 : Nat) (lastSlotUsed : Int) : Nat × Nat × Int :=
  if count < 16 then
    if (istart8 : Int) ≤ lastSlotUsed ∧ lastSlotUsed < (lastSlot : Int) then
      let istart8 := toUInt8 (lastSlotUsed + 1)
      let iend8 := if iend8 < istart8 then istart8 else iend8
      (istart8, iend8, toInt8 (iend8 : Int))
    else (istart8, iend8, toInt8 (iend8 : Int))
  else (istart8, iend8, lastSlotUsed)

/-- The loop `while( indexstart < 255) { ent++; u = *ent; ... }` of the 16-entry loader
(`step = 16`, `lastSlot = 15`) and of the 32-entry loader (`step = 8`, `lastSlot = 31`).
The list is the part of the description after the entry `ent` points to; reading past its
end gives no result.  The result is the list of the calls of `fill_gradient_RGB`. -/
def loadLoop (step lastSlot count : Nat) :
    List TRGBGradientPaletteEntryUnion → Nat → CRGBW → Int → Option (List GradientSpan)
  | [], indexstart, _, _ => if indexstart < 255 then none else some []
  | u :: ent, indexstart, rgbstart, lastSlotUsed =>
    if indexstart < 255 then
      let indexend := u.index
      let rgbend := u.rgbw
      let istart8 := toUInt8 ((indexstart / step : Nat) : Int)
      let iend8 := toUInt8 ((indexend / step : Nat) : Int)
      let slots := adjustSlots lastSlot count istart8 iend8 lastSlotUsed
      (loadLoop step lastSlot count ent indexend rgbend slots.2.2).map
        (fun rest => ⟨slots.1, rgbstart, slots.2.1, rgbend⟩ :: rest)
    else some []

/-- The calls of `fill_gradient_RGB` made by a 16- or 32-entry loader: the entries are
counted, the first entry is read for the start colour, and the main loop is run from
`indexstart = 0` and `lastSlotUsed = -1`. -/
def loadSpans (step lastSlot fuel : Nat) (gpal : List TRGBGradientPaletteEntryUnion) :
    Outcome (List GradientSpan) :=
  match countEntries gpal fuel 0 with
  | Outcome.timeout => Outcome.timeout
  | Outcome.outOfBounds => Outcome.outOfBounds
  | Outcome.done count =>
    match gpal with
    | [] => Outcome.outOfBounds
    | u :: ent =>
      match loadLoop step lastSlot count ent 0 u.rgbw (-1) with
      | none => Outcome.outOfBounds
      | some spans => Outcome.done spans

/-- The calls of `fill_gradient_RGB` made by `CRGBWPalette16::loadDynamicGradientPalette`. -/
def CRGBWPalette16.loadDynamicGradientPalette_spans (fuel : Nat)
    (gpal : List TRGBGradientPaletteEntryUnion) : Outcome (List GradientSpan) :=
  loadSpans 16 15 fuel gpal

/-- The method `CRGBWPalette16::loadDynamicGradientPalette( gpal)`: the array `entries`
after the call. -/
def CRGBWPalette16.loadDynamicGradientPalette (fuel : Nat) (entries : Nat → CRGBW)
    (gpal : List TRGBGradientPaletteEntryUnion) : Outcome (Nat → CRGBW) :=
  match CRGBWPalette16.loadDynamicGradientPalette_spans fuel gpal with
  | Outcome.timeout => Outcome.timeout
  | Outcome.outOfBounds => Outcome.outOfBounds
  | Outcome.done spans => Outcome.done (applySpans entries spans)

/-- The calls of `fill_gradient_RGB` made by `CRGBWPalette32::loadDynamicGradientPalette`
(slots of 8 positions, last slot 31, and the same test `count < 16`). -/
def CRGBWPalette32.loadDynamicGradientPalette_spans (fuel : Nat)
    (gpal : List TRGBGradientPaletteEntryUnion) : Outcome (List GradientSpan) :=
  loadSpans 8 31 fuel gpal

/-- The method `CRGBWPalette32::loadDynamicGradientPalette( gpal)`. -/
def CRGBWPalette32.loadDynamicGradientPalette (fuel : Nat) (entries : Nat → CRGBW)
    (gpal : List TRGBGradientPaletteEntryUnion) : Outcome (Nat → CRGBW) :=
  match CRGBWPalette32.loadDynamicGradientPalette_spans fuel gpal with
  | Outcome.timeout => Outcome.timeout
  | Outcome.outOfBounds => Outcome.outOfBounds
  | Outcome.done spans => Outcome.done (applySpans entries spans)

/-- The loop `while( indexstart < 255) { ent++; u = *ent; ... fill_gradient_RGB( &(entries[0]), indexstart, rgbstart, indexend, rgbend); ... }`
of the 256-entry loader. -/
def loadLoop256 :
    List TRGBGradientPaletteEntryUnion → Nat → CRGBW → Option (List GradientSpan)
  | [], indexstart, _ => if indexstart < 255 then none else some []
  | u :: ent, indexstart, rgbstart =>
    if indexstart < 255 then
      let indexend := u.index
      let rgbend := u.rgbw
      (loadLoop256 ent indexend rgbend).map
        (fun rest => ⟨toUInt16 (indexstart : Int), rgbstart, toUInt16 (indexend : Int), rgbend⟩
          :: rest)
    else some []

/-- The calls of `fill_gradient_RGB` made by `CRGBWPalette256::loadDynamicGradientPalette`:
the first entry is read for the start colour and the loop is run from `indexstart = 0`.
This loader has no loop that counts the entries. -/
def CRGBWPalette256.loadDynamicGradientPalette_spans
    (gpal : List TRGBGradientPaletteEntryUnion) : Outcome (List GradientSpan) :=
  match gpal with
  | [] => Outcome.outOfBounds
  | u :: ent =>
    match loadLoop256 ent 0 u.rgbw with
    | none => Outcome.outOfBounds
    | some spans => Outcome.done spans

/-- The method `CRGBWPalette256::loadDynamicGradientPalette( gpal)`. -/
def CRGBWPalette256.loadDynamicGradientPalette (entries : Nat → CRGBW)
    (gpal : List TRGBGradientPaletteEntryUnion) : Outcome (Nat → CRGBW) :=
  match CRGBWPalette256.loadDynamicGradientPalette_spans gpal with
  | Outcome.timeout => Outcome.timeout
  | Outcome.outOfBounds => Outcome.outOfBounds
  | Outcome.done spans => Outcome.done (applySpans entries spans)

/-! ## The raw fade and the accumulators of `fill_gradient` -/

/-- The method `CRGBW::fadeToBlackBy (uint8_t fadefactor)`:
`nscale8x3( r, g, b, w, 255 - fadefactor)`; the last argument is converted to
`uint8_t`. -/
def CRGBW.fadeToBlackBy (c : CRGBW) (fadefactor : Nat) : CRGBW :=
  nscale8x3 c (toUInt8 (255 - (fadefactor : Int)))

/-- The accumulator `sat88` of `fill_gradient` when iteration `k` of the write loop
stores its pixel, for points that are in order: the start value `startcolor.sat << 8`
after `k` additions of `satdelta87`, each addition reduced to 16 bits. -/
def fill_gradient_sat88 (startpos : Nat) (startcolor : CHSV) (endpos : Nat) (endcolor : CHSV)
    (k : Nat) : Nat :=
  let e := forceEndHue startcolor endcolor
  let s := forceStartHue startcolor e
  accum88 ((s.sat : Int) * 256
    + (k : Int) * delta87 (toInt16 (((e.sat : Int) - (s.sat : Int)) * 128)) (divisor startpos endpos))

/-- The accumulator `val88` of `fill_gradient` when iteration `k` of the write loop
stores its pixel, for points that are in order. -/
def fill_gradient_val88 (startpos : Nat) (startcolor : CHSV) (endpos : Nat) (endcolor : CHSV)
    (k : Nat) : Nat :=
  let e := forceEndHue startcolor endcolor
  let s := forceStartHue startcolor e
  accum88 ((s.val : Int) * 256
    + (k : Int) * delta87 (toInt16 (((e.val : Int) - (s.val : Int)) * 128)) (divisor startpos endpos))

/-- The outcome of a run with `f` applied to what it returns. -/
def Outcome.map {α β : Type} (f : α → β) : Outcome α → Outcome β
  | Outcome.timeout => Outcome.timeout
  | Outcome.outOfBounds => Outcome.outOfBounds
  | Outcome.done a => Outcome.done (f a)

/-- The spans of a list lie within the slots `0..lastSlot`, each with its start slot not
after its end slot, and every slot `0..lastSlot` lies in one of them. -/
def SpansCover (lastSlot : Nat) (spans : List GradientSpan) : Prop :=
  (∀ s ∈ spans, s.istart8 ≤ s.iend8 ∧ s.iend8 ≤ lastSlot) ∧
  (∀ j, j ≤ lastSlot → ∃ s ∈ spans, s.istart8 ≤ j ∧ j ≤ s.iend8)

/-! ## The ordering comparisons of `CRGBW` -/

/-- The operator `operator< (const CRGBW& lhs, const CRGBW& rhs)`:
`uint16_t sl, sr; sl = lhs.r + lhs.g + lhs.b + lhs.w; sr = rhs.r + rhs.g + rhs.b + lhs.w; return sl < sr;`
(the second sum, too, adds `lhs.w`). -/
def CRGBW.operator_lt (lhs rhs : CRGBW) : Bool :=
  let sl := toUInt16 ((lhs.r + lhs.g + lhs.b + lhs.w : Nat) : Int)
  let sr := toUInt16 ((rhs.r + rhs.g + rhs.b + lhs.w : Nat) : Int)
  decide (sl < sr)

/-- The operator `operator> (const CRGBW& lhs, const CRGBW& rhs)`: the same two sums,
`return sl > sr;`. -/
def CRGBW.operator_gt (lhs rhs : CRGBW) : Bool :=
  let sl := toUInt16 ((lhs.r + lhs.g + lhs.b + lhs.w : Nat) : Int)
  let sr := toUInt16 ((rhs.r + rhs.g + rhs.b + lhs.w : Nat) : Int)
  decide (sl > sr)

/-- The operator `operator>= (const CRGBW& lhs, const CRGBW& rhs)`: the same two sums,
`return sl >= sr;`. -/
def CRGBW.operator_ge (lhs rhs : CRGBW) : Bool :=
  let sl := toUInt16 ((lhs.r + lhs.g + lhs.b + lhs.w : Nat) : Int)
  let sr := toUInt16 ((rhs.r + rhs.g + rhs.b + lhs.w : Nat) : Int)
  decide (sl ≥ sr)

/-- The operator `operator<= (const CRGBW& lhs, const CRGBW& rhs)`: the same two sums,
`return sl <= sr;`. -/
def CRGBW.operator_le (lhs rhs : CRGBW) : Bool :=
  let sl := toUInt16 ((lhs.r + lhs.g + lhs.b + lhs.w : Nat) : Int)
  let sr := toUInt16 ((rhs.r + rhs.g + rhs.b + lhs.w : Nat) : Int)
  decide (sl ≤ sr)

/-! ## Loading a gradient description from read-only storage into a 256-entry palette -/

/-- Modelled from the spec: `FL_PGM_READ_DWORD_NEAR` is a macro that is not defined in the
sources.  The spec describes it as the "external read-only-storage accessor", "a function
to read a 32-bit or 8-bit value from a possibly non-uniformly-addressable constant store",
"functionally identical to ordinary memory read".  This is the local union `u` after
`u.dword = FL_PGM_READ_DWORD_NEAR( progent)`, with `src` the union object that `progent`
points to: the four bytes of `dword` lie over `index`, `r`, `g` and `b`; the fifth byte `w`
of `u` is not written. -/
def TRGBGradientPaletteEntryUnion.read_dword (u src : TRGBGradientPaletteEntryUnion) :
    TRGBGradientPaletteEntryUnion :=
  ⟨src.index, src.r, src.g, src.b, u.w⟩

/-- The loop
`while( indexstart < 255) { progent++; u.dword = FL_PGM_READ_DWORD_NEAR( progent); int indexend = u.index; CRGBW rgbend( u.r, u.g, u.b, u.w); fill_gradient_RGB( &(entries[0]), indexstart, rgbstart, indexend, rgbend); indexstart = indexend; rgbstart = rgbend; }`
of `CRGBWPalette256::operator=( TProgmemRGBGradientPalette_bytes progpal )`.  The list is the
part of the description after the entry `progent` points to, and `u` is the local union. -/
def assignLoop256 :
    List TRGBGradientPaletteEntryUnion → TRGBGradientPaletteEntryUnion → Nat → CRGBW →
      Option (List GradientSpan)
  | [], _, indexstart, _ => if indexstart < 255 then none else some []
  | e :: ent, u, indexstart, rgbstart =>
    if indexstart < 255 then
      let u := u.read_dword e
      let indexend := u.index
      let rgbend := u.rgbw
      (assignLoop256 ent u indexend rgbend).map
        (fun rest => ⟨toUInt16 (indexstart : Int), rgbstart, toUInt16 (indexend : Int), rgbend⟩
          :: rest)
    else some []

/-- The calls of `fill_gradient_RGB` made by
`CRGBWPalette256::operator=( TProgmemRGBGradientPalette_bytes progpal )`.  The local
`TRGBGradientPaletteEntryUnion u;` is declared without an initialiser: the argument `u` is
what it holds then.  The first entry is read with
`u.dword = FL_PGM_READ_DWORD_NEAR( progent); CRGBW rgbstart( u.r, u.g, u.b, u.w);` and the
loop is run from `indexstart = 0`. -/
def CRGBWPalette256.operator_assign_gradient_spans (u : TRGBGradientPaletteEntryUnion)
    (progpal : List TRGBGradientPaletteEntryUnion) : Outcome (List GradientSpan) :=
  match progpal with
  | [] => Outcome.outOfBounds
  | e :: ent =>
    match assignLoop256 ent (u.read_dword e) 0 (u.read_dword e).rgbw with
    | none => Outcome.outOfBounds
    | some spans => Outcome.done spans

/-- The operator `CRGBWPalette256::operator=( TProgmemRGBGradientPalette_bytes progpal )`:
the array `entries` after the assignment. -/
def CRGBWPalette256.operator_assign_gradient (u : TRGBGradientPaletteEntryUnion)
    (entries : Nat → CRGBW) (progpal : List TRGBGradientPaletteEntryUnion) :
    Outcome (Nat → CRGBW) :=
  match CRGBWPalette256.operator_assign_gradient_spans u progpal with
  | Outcome.timeout => Outcome.timeout
  | Outcome.outOfBounds => Outcome.outOfBounds
  | Outcome.done spans => Outcome.done (applySpans entries spans)

/-! ## Machine-integer lemmas -/

theorem toUInt16_lt (x : Int) : toUInt16 x < 65536 := by
  unfold toUInt16; omega

theorem toUInt16_of_nat (n : Nat) (h : n < 65536) : toUInt16 (n : Int) = n := by
  unfold toUInt16; omega

theorem accum88_lt (x : Int) : accum88 x < 65536 := toUInt16_lt x

theorem accum88_add_accum88 (a d : Int) :
    accum88 ((accum88 a : Int) + d) = accum88 (a + d) := by
  unfold accum88 toUInt16; omega

theorem accum88_step (a d : Int) (k : Nat) :
    accum88 ((accum88 (a + d) : Int) + (k : Int) * d) = accum88 (a + ((k + 1 : Nat) : Int) * d) := by
  rw [accum88_add_accum88]
  congr 1
  push_cast
  ring

theorem loop_nth (endpos : Nat) (dh ds dv : Int) (hend : endpos < 65536) :
    ∀ (k fuel i : Nat) (h s v : Int), i + k ≤ endpos → k < fuel →
      (fill_gradient_loop endpos dh ds dv fuel i (accum88 h) (accum88 s) (accum88 v)).writes[k]?
        = some (i + k, loopEntry dh ds dv h s v k) := by
  intro k
  induction k with
  | zero =>
    intro fuel i h s v hi hf
    obtain ⟨f, rfl⟩ : ∃ f, fuel = f + 1 := ⟨fuel - 1, by omega⟩
    have hi' : i ≤ endpos := by omega
    simp [fill_gradient_loop, hi', loopEntry]
  | succ k ih =>
    intro fuel i h s v hi hf
    obtain ⟨f, rfl⟩ : ∃ f, fuel = f + 1 := ⟨fuel - 1, by omega⟩
    have hi' : i ≤ endpos := by omega
    have hi1 : toUInt16 ((i : Int) + 1) = i + 1 := by
      have := toUInt16_of_nat (i + 1) (by omega)
      simpa using this
    simp only [fill_gradient_loop, hi', if_true, List.getElem?_cons_succ, hi1,
      accum88_add_accum88]
    rw [ih f (i + 1) (h + dh) (s + ds) (v + dv) (by omega) (by omega)]
    simp only [loopEntry, accum88_step, accum88_add_accum88]
    have e : ∀ (a d : Int), a + d + (k : Int) * d = a + ((k + 1 : Nat) : Int) * d := by
      intro a d; push_cast; ring
    simp only [e]
    congr 2
    omega

theorem loop_exit (endpos : Nat) (dh ds dv : Int) (hend : endpos < 65535) :
    ∀ (n fuel i h s v : Nat), i + n = endpos + 1 → n < fuel →
      (fill_gradient_loop endpos dh ds dv fuel i h s v).exited = true ∧
      (fill_gradient_loop endpos dh ds dv fuel i h s v).writes.length = n := by
  intro n
  induction n with
  | zero =>
    intro fuel i h s v hi hf
    obtain ⟨f, rfl⟩ : ∃ f, fuel = f + 1 := ⟨fuel - 1, by omega⟩
    have hi' : ¬ i ≤ endpos := by omega
    simp [fill_gradient_loop, hi']
  | succ n ih =>
    intro fuel i h s v hi hf
    obtain ⟨f, rfl⟩ : ∃ f, fuel = f + 1 := ⟨fuel - 1, by omega⟩
    have hi' : i ≤ endpos := by omega
    have hi1 : toUInt16 ((i : Int) + 1) = i + 1 := by
      have := toUInt16_of_nat (i + 1) (by omega)
      simpa using this
    simp only [fill_gradient_loop, hi', if_true, hi1, List.length_cons]
    have := ih f (i + 1) (accum88 (↑h + dh)) (accum88 (↑s + ds)) (accum88 (↑v + dv))
      (by omega) (by omega)
    exact ⟨this.1, by rw [this.2]⟩

theorem ordered_nth (fuel startpos endpos k : Nat) (startcolor endcolor : CHSV)
    (dir : TGradientDirectionCode) (hend : endpos < 65536) (hk : startpos + k ≤ endpos)
    (hf : k < fuel) :
    (fill_gradient_ordered fuel startpos startcolor endpos endcolor dir).writes[k]?
      = some (startpos + k, orderedEntry startpos startcolor endpos endcolor dir k) := by
  unfold fill_gradient_ordered orderedEntry
  exact loop_nth endpos _ _ _ hend k fuel startpos _ _ _ hk hf

theorem ordered_exit (fuel startpos endpos : Nat) (startcolor endcolor : CHSV)
    (dir : TGradientDirectionCode) (hend : endpos < 65535) (hle : startpos ≤ endpos)
    (hf : endpos - startpos + 1 < fuel) :
    (fill_gradient_ordered fuel startpos startcolor endpos endcolor dir).exited = true ∧
    (fill_gradient_ordered fuel startpos startcolor endpos endcolor dir).writes.length
      = endpos - startpos + 1 := by
  unfold fill_gradient_ordered
  exact loop_exit endpos _ _ _ hend (endpos - startpos + 1) fuel startpos _ _ _ (by omega) hf

theorem ordered_writes (fuel startpos endpos : Nat) (startcolor endcolor : CHSV)
    (dir : TGradientDirectionCode) (hend : endpos < 65535) (hle : startpos ≤ endpos)
    (hf : endpos - startpos + 1 < fuel) :
    (fill_gradient_ordered fuel startpos startcolor endpos endcolor dir).writes
      = (List.range (endpos - startpos + 1)).map
          (fun k => (startpos + k, orderedEntry startpos startcolor endpos endcolor dir k)) := by
  obtain ⟨-, hlen⟩ := ordered_exit fuel startpos endpos startcolor endcolor dir hend hle hf
  apply List.ext_getElem?
  intro k
  by_cases hk : k < endpos - startpos + 1
  · rw [ordered_nth fuel startpos endpos k startcolor endcolor dir (by omega) (by omega)
      (by omega)]
    simp [List.getElem?_map, List.getElem?_range hk]
  · rw [List.getElem?_eq_none (by omega), List.getElem?_eq_none (by simp; omega)]

theorem store_range (targetArray : Nat → CHSV) (i : Nat) (e : Nat → CHSV) :
    ∀ (n j : Nat), store targetArray ((List.range n).map (fun k => (i + k, e k))) j
      = if i ≤ j ∧ j < i + n then e (j - i) else targetArray j := by
  intro n
  induction n with
  | zero =>
    intro j
    have h : ¬ (i ≤ j ∧ j < i + 0) := by omega
    rw [if_neg h]
    rfl
  | succ n ih =>
    intro j
    have hst : store targetArray ((List.range (n + 1)).map (fun k => (i + k, e k)))
        = Function.update (store targetArray ((List.range n).map (fun k => (i + k, e k))))
            (i + n) (e n) := by
      simp [store, List.range_succ, List.foldl_append]
    rw [hst]
    by_cases hj : j = i + n
    · subst hj
      simp
    · rw [Function.update_noteq hj, ih j]
      by_cases h1 : i ≤ j ∧ j < i + n
      · have h2 : i ≤ j ∧ j < i + (n + 1) := by omega
        simp [h1, h2]
      · have h2 : ¬ (i ≤ j ∧ j < i + (n + 1)) := by omega
        simp [h1, h2]

theorem ordered_result (fuel startpos endpos : Nat) (startcolor endcolor : CHSV)
    (dir : TGradientDirectionCode) (hend : endpos < 65535) (hle : startpos ≤ endpos)
    (hf : endpos - startpos + 1 < fuel) (targetArray : Nat → CHSV) :
    (fill_gradient_ordered fuel startpos startcolor endpos endcolor dir).result targetArray
      = some (fun j => if startpos ≤ j ∧ j ≤ endpos then
          orderedEntry startpos startcolor endpos endcolor dir (j - startpos)
        else targetArray j) := by
  unfold Run.result
  rw [(ordered_exit fuel startpos endpos startcolor endcolor dir hend hle hf).1,
    ordered_writes fuel startpos endpos startcolor endcolor dir hend hle hf]
  simp only [if_true, Option.some.injEq]
  funext j
  rw [store_range]
  by_cases h1 : startpos ≤ j ∧ j ≤ endpos
  · have h2 : startpos ≤ j ∧ j < startpos + (endpos - startpos + 1) := by omega
    simp [h1, h2]
  · have h2 : ¬ (startpos ≤ j ∧ j < startpos + (endpos - startpos + 1)) := by omega
    simp [h1, h2]

theorem toInt16_of_range (x : Int) (h1 : -32768 ≤ x) (h2 : x < 32768) : toInt16 x = x := by
  unfold toInt16; omega

theorem divisor_eq (startpos endpos : Nat) (hle : startpos ≤ endpos)
    (hN : endpos - startpos ≤ 32767) :
    divisor startpos endpos = ((max 1 (endpos - startpos) : Nat) : Int) := by
  unfold divisor toUInt16
  simp only
  split
  · rename_i h
    rw [toInt16_of_range _ (by omega) (by omega)]
    omega
  · rename_i h
    rw [toInt16_of_range _ (by omega) (by omega)]
    omega

theorem tdiv_nonneg_facts (a : Int) (N : Nat) (hN : 0 < N) (ha : 0 ≤ a) :
    0 ≤ Int.tdiv a N ∧ Int.tdiv a N * N ≤ a ∧ a < (Int.tdiv a N + 1) * N := by
  have hN0 : (0 : Int) < N := by exact_mod_cast hN
  rw [Int.tdiv_eq_ediv ha (le_of_lt hN0)]
  refine ⟨Int.ediv_nonneg ha (le_of_lt hN0), Int.ediv_mul_le a (ne_of_gt hN0), ?_⟩
  exact Int.lt_ediv_add_one_mul_self a hN0

theorem tdiv_nonpos_facts (a : Int) (N : Nat) (hN : 0 < N) (ha : a ≤ 0) :
    Int.tdiv a N ≤ 0 ∧ a ≤ Int.tdiv a N * N ∧ (Int.tdiv a N - 1) * N < a := by
  have h := tdiv_nonneg_facts (-a) N hN (by omega)
  rw [Int.neg_tdiv] at h
  obtain ⟨h1, h2, h3⟩ := h
  refine ⟨by omega, by linarith, by linarith⟩

theorem accum88_delta87 (a d n : Int) (k : Nat) :
    accum88 (a + (k : Int) * delta87 d n) = accum88 (a + (k : Int) * (2 * Int.tdiv d n)) := by
  obtain ⟨t, ht⟩ : ∃ t : Int, delta87 d n = 2 * Int.tdiv d n + 65536 * t := by
    refine ⟨(delta87 d n - 2 * Int.tdiv d n) / 65536, ?_⟩
    unfold delta87 toInt16
    generalize Int.tdiv d n = q
    omega
  rw [ht]
  have e : a + (k : Int) * (2 * Int.tdiv d n + 65536 * t)
      = a + (k : Int) * (2 * Int.tdiv d n) + 65536 * ((k : Int) * t) := by ring
  rw [e]
  unfold accum88 toUInt16
  rw [Int.add_mul_emod_self_left]

theorem toUInt8_accum88_of_range (x : Int) (h0 : 0 ≤ x) (h1 : x < 65536) :
    ((toUInt8 ((accum88 x / 256 : Nat) : Int) : Nat) : Int) = x / 256 := by
  unfold toUInt8 accum88 toUInt16
  omega

theorem toUInt8_accum88 (x : Int) :
    ((toUInt8 ((accum88 x / 256 : Nat) : Int) : Nat) : Int) = (x % 65536) / 256 := by
  unfold toUInt8 accum88 toUInt16
  omega

/-- The 16-bit ramp of a saturation or value channel stays between the two
end points, scaled by 256. -/
theorem ramp_range (c0 c1 N k : Nat) (hN : 0 < N) (hk : k ≤ N) :
    256 * (min c0 c1 : Nat) ≤
      256 * (c0 : Int) + (k : Int) * 2 * Int.tdiv (128 * ((c1 : Int) - (c0 : Int))) (N : Int) ∧
    256 * (c0 : Int) + (k : Int) * 2 * Int.tdiv (128 * ((c1 : Int) - (c0 : Int))) (N : Int)
      ≤ 256 * (max c0 c1 : Nat) := by
  have hk' : (k : Int) ≤ N := by exact_mod_cast hk
  have hk0 : (0 : Int) ≤ k := by positivity
  rcases le_total c0 c1 with h | h
  · have hc : (c0 : Int) ≤ c1 := by exact_mod_cast h
    obtain ⟨q0, q1, -⟩ := tdiv_nonneg_facts (128 * ((c1 : Int) - (c0 : Int))) N hN (by omega)
    generalize Int.tdiv (128 * ((c1 : Int) - (c0 : Int))) (N : Int) = q at *
    have h1 : (k : Int) * q ≤ N * q := mul_le_mul_of_nonneg_right hk' q0
    have h2 : 0 ≤ (k : Int) * q := mul_nonneg hk0 q0
    rw [min_eq_left h, max_eq_right h]
    constructor <;> nlinarith
  · have hc : (c1 : Int) ≤ c0 := by exact_mod_cast h
    obtain ⟨q0, q1, -⟩ := tdiv_nonpos_facts (128 * ((c1 : Int) - (c0 : Int))) N hN (by omega)
    generalize Int.tdiv (128 * ((c1 : Int) - (c0 : Int))) (N : Int) = q at *
    have h1 : (N : Int) * q ≤ k * q := mul_le_mul_of_nonpos_right hk' q0
    have h2 : (k : Int) * q ≤ 0 := mul_nonpos_of_nonneg_of_nonpos hk0 q0
    rw [min_eq_right h, max_eq_left h]
    constructor <;> nlinarith

theorem forceEndHue_sat (s e : CHSV) : (forceEndHue s e).sat = e.sat := by
  unfold forceEndHue; split <;> rfl

theorem forceEndHue_val (s e : CHSV) : (forceEndHue s e).val = e.val := by
  unfold forceEndHue; split <;> rfl

theorem forceStartHue_sat (s e : CHSV) : (forceStartHue s e).sat = s.sat := by
  unfold forceStartHue; split <;> rfl

theorem forceStartHue_val (s e : CHSV) : (forceStartHue s e).val = s.val := by
  unfold forceStartHue; split <;> rfl

/-- Closed form of one saturation or value channel of the write loop. -/
theorem channel_closed (c0 c1 N k : Nat) (h0 : c0 < 256) (h1 : c1 < 256) (hN : 0 < N)
    (hk : k ≤ N) :
    ((toUInt8 ((accum88 ((c0 : Int) * 256 + (k : Int) *
        delta87 (toInt16 (((c1 : Int) - (c0 : Int)) * 128)) (N : Int)) / 256 : Nat) : Int) : Nat) : Int)
      = specChannel c0 c1 N k := by
  rw [toInt16_of_range _ (by omega) (by omega), accum88_delta87]
  have e : (c0 : Int) * 256 + (k : Int) * (2 * Int.tdiv (((c1 : Int) - (c0 : Int)) * 128) (N : Int))
      = 256 * (c0 : Int) + (k : Int) * 2 * Int.tdiv (128 * ((c1 : Int) - (c0 : Int))) (N : Int) := by
    rw [mul_comm ((c1 : Int) - (c0 : Int)) 128]
    ring
  rw [e]
  obtain ⟨r0, r1⟩ := ramp_range c0 c1 N k hN hk
  have hmax : (max c0 c1 : Nat) < 256 := max_lt h0 h1
  rw [toUInt8_accum88_of_range _ (by omega) (by omega)]
  rfl

theorem orderedEntry_sat (startpos endpos k : Nat) (startcolor endcolor : CHSV)
    (dir : TGradientDirectionCode) (hs : startcolor.wf) (he : endcolor.wf)
    (hle : startpos ≤ endpos) (hN : endpos - startpos ≤ 32767) (hk : k ≤ endpos - startpos) :
    ((orderedEntry startpos startcolor endpos endcolor dir k).sat : Int)
      = specChannel startcolor.sat endcolor.sat (max 1 (endpos - startpos)) k := by
  unfold orderedEntry loopEntry
  simp only [forceEndHue_sat, forceStartHue_sat, divisor_eq startpos endpos hle hN]
  exact channel_closed _ _ _ _ hs.2.1 he.2.1 (by omega) (by omega)

theorem orderedEntry_val (startpos endpos k : Nat) (startcolor endcolor : CHSV)
    (dir : TGradientDirectionCode) (hs : startcolor.wf) (he : endcolor.wf)
    (hle : startpos ≤ endpos) (hN : endpos - startpos ≤ 32767) (hk : k ≤ endpos - startpos) :
    ((orderedEntry startpos startcolor endpos endcolor dir k).val : Int)
      = specChannel startcolor.val endcolor.val (max 1 (endpos - startpos)) k := by
  unfold orderedEntry loopEntry
  simp only [forceEndHue_val, forceStartHue_val, divisor_eq startpos endpos hle hN]
  exact channel_closed _ _ _ _ hs.2.2 he.2.2 (by omega) (by omega)

theorem orderedEntry_hue (startpos endpos k : Nat) (startcolor endcolor : CHSV)
    (dir : TGradientDirectionCode)
    (hle : startpos ≤ endpos) (hN : endpos - startpos ≤ 32767) :
    ((orderedEntry startpos startcolor endpos endcolor dir k).hue : Int)
      = specHue (forceStartHue startcolor (forceEndHue startcolor endcolor)).hue
          (huedistance87 dir (huedelta8 (forceStartHue startcolor (forceEndHue startcolor endcolor))
            (forceEndHue startcolor endcolor)))
          (max 1 (endpos - startpos)) k := by
  unfold orderedEntry loopEntry
  simp only [divisor_eq startpos endpos hle hN]
  rw [accum88_delta87, toUInt8_accum88]
  unfold specHue
  congr 2
  ring

theorem fill_gradient_of_le (fuel startpos endpos : Nat) (startcolor endcolor : CHSV)
    (dir : TGradientDirectionCode) (hle : startpos ≤ endpos) :
    fill_gradient fuel startpos startcolor endpos endcolor dir
      = fill_gradient_ordered fuel startpos startcolor endpos endcolor dir := by
  unfold fill_gradient
  rw [if_neg (by omega)]

theorem fill_gradient_of_lt (fuel startpos endpos : Nat) (startcolor endcolor : CHSV)
    (dir : TGradientDirectionCode) (hlt : endpos < startpos) :
    fill_gradient fuel startpos startcolor endpos endcolor dir
      = fill_gradient_ordered fuel endpos endcolor startpos startcolor dir := by
  unfold fill_gradient
  rw [if_pos hlt]

theorem specChannel_antitone (c0 c1 N i j : Nat) (hN : 0 < N) (hc : c1 ≤ c0) (hij : i ≤ j) :
    specChannel c0 c1 N j ≤ specChannel c0 c1 N i := by
  unfold specChannel
  have hc' : (c1 : Int) ≤ c0 := by exact_mod_cast hc
  obtain ⟨q0, -, -⟩ := tdiv_nonpos_facts (128 * ((c1 : Int) - (c0 : Int))) N hN (by omega)
  generalize Int.tdiv (128 * ((c1 : Int) - (c0 : Int))) (N : Int) = q at *
  have hij' : (i : Int) ≤ j := by exact_mod_cast hij
  have h1 : (j : Int) * q ≤ i * q := mul_le_mul_of_nonpos_right hij' q0
  apply Int.ediv_le_ediv (by norm_num)
  nlinarith

theorem specChannel_monotone (c0 c1 N i j : Nat) (hN : 0 < N) (hc : c0 ≤ c1) (hij : i ≤ j) :
    specChannel c0 c1 N i ≤ specChannel c0 c1 N j := by
  unfold specChannel
  have hc' : (c0 : Int) ≤ c1 := by exact_mod_cast hc
  obtain ⟨q0, -, -⟩ := tdiv_nonneg_facts (128 * ((c1 : Int) - (c0 : Int))) N hN (by omega)
  generalize Int.tdiv (128 * ((c1 : Int) - (c0 : Int))) (N : Int) = q at *
  have hij' : (i : Int) ≤ j := by exact_mod_cast hij
  have h1 : (i : Int) * q ≤ j * q := mul_le_mul_of_nonneg_right hij' q0
  apply Int.ediv_le_ediv (by norm_num)
  nlinarith

theorem specChannel_zero (c0 c1 N : Nat) : specChannel c0 c1 N 0 = c0 := by
  unfold specChannel
  simp

theorem specHue_zero (h0 : Nat) (D : Int) (N : Nat) (h : h0 < 256) : specHue h0 D N 0 = h0 := by
  unfold specHue
  simp only [Nat.cast_zero, zero_mul, add_zero]
  omega

/-- When the scaled distance is a multiple of the span, the last step lands on
the end point exactly. -/
theorem specChannel_exact (c0 c1 N : Nat) (hN : 0 < N)
    (hd : (N : Int) ∣ 128 * ((c1 : Int) - (c0 : Int))) : specChannel c0 c1 N N = c1 := by
  unfold specChannel
  have hN0 : (N : Int) ≠ 0 := by exact_mod_cast (Nat.pos_iff_ne_zero.mp hN)
  have e : (N : Int) * 2 * Int.tdiv (128 * ((c1 : Int) - (c0 : Int))) (N : Int)
      = 2 * (128 * ((c1 : Int) - (c0 : Int))) := by
    rw [Int.tdiv_eq_ediv_of_dvd hd]
    have := Int.mul_ediv_cancel' hd
    linarith
  rw [e]
  omega

theorem huedistance87_eq (dir : TGradientDirectionCode) (d : Nat) (hd : d < 256) :
    huedistance87 dir d = if resolveDirection dir d = FORWARD_HUES then (d : Int) * 128
      else -(((256 - (d : Int)) % 256) * 128) := by
  unfold huedistance87 toUInt8
  split
  · rw [toInt16_of_range _ (by omega) (by omega)]
  · have e : (((256 - (d : Int)) % 256).toNat : Int) = (256 - (d : Int)) % 256 := by omega
    rw [e, toInt16_of_range (((256 - (d : Int)) % 256) * 128) (by omega) (by omega),
      toInt16_of_range _ (by omega) (by omega)]

theorem huedelta8_lt (s e : CHSV) : huedelta8 s e < 256 := by
  unfold huedelta8 toUInt8; omega

theorem specHue_exact (s e : CHSV) (dir : TGradientDirectionCode) (N : Nat)
    (he : e.hue < 256)
    (hd : (N : Int) ∣ huedistance87 dir (huedelta8 s e)) :
    specHue s.hue (huedistance87 dir (huedelta8 s e)) N N = e.hue := by
  unfold specHue
  have e1 : (N : Int) * 2 * Int.tdiv (huedistance87 dir (huedelta8 s e)) (N : Int)
      = 2 * huedistance87 dir (huedelta8 s e) := by
    rw [Int.tdiv_eq_ediv_of_dvd hd]
    have := Int.mul_ediv_cancel' hd
    linarith
  rw [e1, huedistance87_eq dir _ (huedelta8_lt s e)]
  unfold huedelta8 toUInt8
  split <;> omega

/-- C6: for `startpos <= endpos` with `N = max(1, endpos - startpos) <= 32767` and every
`i` in `0..endpos-startpos`, the store number `i` of `fill_gradient` goes to index
`startpos + i` and stores the pixel whose saturation is
`floor((256*s0 + i*2*trunc(128*(s1-s0)/N)) / 256)`, whose value is the same formula on
`v0`, `v1`, and whose hue is `floor(((256*h0 + i*2*trunc(D/N)) mod 65536) / 256)`, where
`D` is the `huedistance87` chosen by the direction code and `h0`, `h1` are the hues after
the black/white hue forcing.  When moreover `endpos < 65535` the call returns, and the
array it leaves holds that pixel at `startpos + i`. -/
theorem fill_gradient_closed_form (fuel startpos endpos i : Nat) (startcolor endcolor : CHSV)
    (dir : TGradientDirectionCode) (hs : startcolor.wf) (he : endcolor.wf)
    (hle : startpos ≤ endpos) (hend : endpos < 65536)
    (hN : max 1 (endpos - startpos) ≤ 32767) (hi : i ≤ endpos - startpos) (hf : i < fuel) :
    ∃ c : CHSV,
      (fill_gradient fuel startpos startcolor endpos endcolor dir).writes[i]?
        = some (startpos + i, c) ∧
      (c.sat : Int) = specChannel startcolor.sat endcolor.sat (max 1 (endpos - startpos)) i ∧
      (c.val : Int) = specChannel startcolor.val endcolor.val (max 1 (endpos - startpos)) i ∧
      (c.hue : Int) = specHue (forceStartHue startcolor (forceEndHue startcolor endcolor)).hue
        (huedistance87 dir (huedelta8 (forceStartHue startcolor (forceEndHue startcolor endcolor))
          (forceEndHue startcolor endcolor))) (max 1 (endpos - startpos)) i ∧
      (endpos < 65535 → endpos - startpos + 1 < fuel → ∀ targetArray : Nat → CHSV,
        ∃ a, (fill_gradient fuel startpos startcolor endpos endcolor dir).result targetArray
          = some a ∧ a (startpos + i) = c) := by
  have hN' : endpos - startpos ≤ 32767 := le_trans (le_max_right _ _) hN
  refine ⟨orderedEntry startpos startcolor endpos endcolor dir i, ?_, ?_, ?_, ?_, ?_⟩
  · rw [fill_gradient_of_le _ _ _ _ _ _ hle]
    exact ordered_nth fuel startpos endpos i startcolor endcolor dir hend (by omega) hf
  · exact orderedEntry_sat startpos endpos i startcolor endcolor dir hs he hle hN' hi
  · exact orderedEntry_val startpos endpos i startcolor endcolor dir hs he hle hN' hi
  · exact orderedEntry_hue startpos endpos i startcolor endcolor dir hle hN'
  · intro h5 hfuel targetArray
    rw [fill_gradient_of_le _ _ _ _ _ _ hle,
      ordered_result fuel startpos endpos startcolor endcolor dir h5 hle hfuel targetArray]
    refine ⟨_, rfl, ?_⟩
    have h1 : startpos ≤ startpos + i ∧ startpos + i ≤ endpos := by omega
    simp only [h1, and_self, if_true, Nat.add_sub_cancel_left]

theorem fill_gradient_closed_form_witness :
    ∃ c : CHSV,
      (fill_gradient 9 0 ⟨0, 0, 0⟩ 7 ⟨10, 255, 255⟩ SHORTEST_HUES).writes[7]? = some (0 + 7, c) ∧
      (c.sat : Int) = specChannel 0 255 (max 1 (7 - 0)) 7 ∧
      (c.val : Int) = specChannel 0 255 (max 1 (7 - 0)) 7 ∧
      (c.hue : Int) = specHue (forceStartHue ⟨0, 0, 0⟩ (forceEndHue ⟨0, 0, 0⟩ ⟨10, 255, 255⟩)).hue
        (huedistance87 SHORTEST_HUES (huedelta8
          (forceStartHue ⟨0, 0, 0⟩ (forceEndHue ⟨0, 0, 0⟩ ⟨10, 255, 255⟩))
          (forceEndHue ⟨0, 0, 0⟩ ⟨10, 255, 255⟩))) (max 1 (7 - 0)) 7 ∧
      (7 < 65535 → 7 - 0 + 1 < 9 → ∀ targetArray : Nat → CHSV,
        ∃ a, (fill_gradient 9 0 ⟨0, 0, 0⟩ 7 ⟨10, 255, 255⟩ SHORTEST_HUES).result targetArray
          = some a ∧ a (0 + 7) = c) :=
  fill_gradient_closed_form 9 0 7 7 ⟨0, 0, 0⟩ ⟨10, 255, 255⟩ SHORTEST_HUES
    (by decide) (by decide) (by decide) (by decide) (by decide) (by decide) (by decide)

theorem forceEndHue_hue_lt (s e : CHSV) (hs : s.wf) (he : e.wf) : (forceEndHue s e).hue < 256 := by
  unfold forceEndHue
  split
  · exact hs.1
  · exact he.1

theorem forceStartHue_hue_lt (s e : CHSV) (hs : s.wf) (he : e.hue < 256) :
    (forceStartHue s e).hue < 256 := by
  unfold forceStartHue
  split
  · exact he
  · exact hs.1

theorem orderedEntry_zero (startpos endpos : Nat) (startcolor endcolor : CHSV)
    (dir : TGradientDirectionCode) (hs : startcolor.wf) (he : endcolor.wf) :
    orderedEntry startpos startcolor endpos endcolor dir 0
      = forceStartHue startcolor (forceEndHue startcolor endcolor) := by
  have hfe := forceEndHue_hue_lt startcolor endcolor hs he
  have hfs := forceStartHue_hue_lt startcolor (forceEndHue startcolor endcolor) hs hfe
  have key : ∀ (c : Nat) (x : Int), c < 256 →
      toUInt8 ((accum88 ((c : Int) * 256 + ((0 : Nat) : Int) * x) / 256 : Nat) : Int) = c := by
    intro c x hc
    unfold toUInt8 accum88 toUInt16
    simp only [Nat.cast_zero, zero_mul, add_zero]
    omega
  unfold orderedEntry loopEntry
  simp only [forceEndHue_sat, forceEndHue_val, forceStartHue_sat, forceStartHue_val]
  rw [key _ _ hfs, key _ _ hs.2.1, key _ _ hs.2.2]
  cases hc : forceStartHue startcolor (forceEndHue startcolor endcolor) with
  | mk a2 b2 c2 =>
    have k1 := forceStartHue_sat startcolor (forceEndHue startcolor endcolor)
    have k2 := forceStartHue_val startcolor (forceEndHue startcolor endcolor)
    rw [hc] at k1 k2
    simp only at k1 k2
    simp only [CHSV.mk.injEq, true_and]
    exact ⟨k1.symm, k2.symm⟩

/-- C1 (as stated, refuted): the gradient from the black pixel `(0, 0, 0)` at index 0 to
`(10, 255, 255)` at index 7 returns, but it stores `(10, 0, 0)` at index 0, which is not
the start colour, and `(10, 254, 254)` at index 7, which is not the end colour. -/
theorem endpoint_drift_counterexample :
    (fill_gradient 9 0 ⟨0, 0, 0⟩ 7 ⟨10, 255, 255⟩ SHORTEST_HUES).exited = true ∧
    (fill_gradient 9 0 ⟨0, 0, 0⟩ 7 ⟨10, 255, 255⟩ SHORTEST_HUES).writes[0]?
      = some (0, ⟨10, 0, 0⟩) ∧
    (fill_gradient 9 0 ⟨0, 0, 0⟩ 7 ⟨10, 255, 255⟩ SHORTEST_HUES).writes[7]?
      = some (7, ⟨10, 254, 254⟩) ∧
    (fill_gradient 9 0 ⟨0, 0, 0⟩ 7 ⟨10, 255, 255⟩ SHORTEST_HUES).writes.length = 8 ∧
    (⟨10, 0, 0⟩ : CHSV) ≠ ⟨0, 0, 0⟩ ∧ (⟨10, 254, 254⟩ : CHSV) ≠ ⟨10, 255, 255⟩ := by
  decide

/-- C1 (amended): for every pair of HSV colours, every direction code and every
`startpos < endpos` (span at most 32767), the first store of `fill_gradient` goes to index
`startpos` and stores the start colour after the black/white hue forcing: exactly its
saturation and value, and its own hue whenever its saturation and value are both
non-zero.  The store number `endpos - startpos` goes to index `endpos`; the saturation
(value, hue) stored there is exactly that of the end colour after hue forcing whenever
the span divides the 128-scaled saturation (value, hue) distance. -/
theorem fill_gradient_endpoints (fuel startpos endpos : Nat) (startcolor endcolor : CHSV)
    (dir : TGradientDirectionCode) (hs : startcolor.wf) (he : endcolor.wf)
    (hlt : startpos < endpos) (hend : endpos < 65536)
    (hN : endpos - startpos ≤ 32767) (hf : endpos - startpos < fuel) :
    (fill_gradient fuel startpos startcolor endpos endcolor dir).writes[0]?
      = some (startpos, forceStartHue startcolor (forceEndHue startcolor endcolor)) ∧
    (forceStartHue startcolor (forceEndHue startcolor endcolor)).sat = startcolor.sat ∧
    (forceStartHue startcolor (forceEndHue startcolor endcolor)).val = startcolor.val ∧
    (startcolor.sat ≠ 0 → startcolor.val ≠ 0 →
      forceStartHue startcolor (forceEndHue startcolor endcolor) = startcolor) ∧
    ∃ c : CHSV,
      (fill_gradient fuel startpos startcolor endpos endcolor dir).writes[endpos - startpos]?
        = some (endpos, c) ∧
      (((endpos - startpos : Nat) : Int) ∣ 128 * ((endcolor.sat : Int) - (startcolor.sat : Int)) →
        c.sat = endcolor.sat) ∧
      (((endpos - startpos : Nat) : Int) ∣ 128 * ((endcolor.val : Int) - (startcolor.val : Int)) →
        c.val = endcolor.val) ∧
      (((endpos - startpos : Nat) : Int) ∣ huedistance87 dir
          (huedelta8 (forceStartHue startcolor (forceEndHue startcolor endcolor))
            (forceEndHue startcolor endcolor)) →
        c.hue = (forceEndHue startcolor endcolor).hue) ∧
      (endpos < 65535 → endpos - startpos + 1 < fuel → ∀ targetArray : Nat → CHSV,
        ∃ a, (fill_gradient fuel startpos startcolor endpos endcolor dir).result targetArray
            = some a ∧
          a startpos = forceStartHue startcolor (forceEndHue startcolor endcolor) ∧
          a endpos = c) := by
  have hle : startpos ≤ endpos := le_of_lt hlt
  have hmax : max 1 (endpos - startpos) = endpos - startpos := max_eq_right (by omega)
  have hfe := forceEndHue_hue_lt startcolor endcolor hs he
  rw [fill_gradient_of_le _ _ _ _ _ _ hle]
  refine ⟨?_, forceStartHue_sat _ _, forceStartHue_val _ _, ?_,
    orderedEntry startpos startcolor endpos endcolor dir (endpos - startpos), ?_, ?_, ?_, ?_, ?_⟩
  · rw [ordered_nth fuel startpos endpos 0 startcolor endcolor dir hend (by omega) (by omega),
      orderedEntry_zero startpos endpos startcolor endcolor dir hs he]
    rfl
  · intro h1 h2
    unfold forceStartHue
    rw [if_neg (by omega)]
  · rw [ordered_nth fuel startpos endpos (endpos - startpos) startcolor endcolor dir hend
      (by omega) hf]
    congr 2
    omega
  · intro hd
    have h1 := orderedEntry_sat startpos endpos (endpos - startpos) startcolor endcolor dir
      hs he hle hN (le_refl _)
    rw [hmax, specChannel_exact _ _ _ (by omega) hd] at h1
    exact_mod_cast h1
  · intro hd
    have h1 := orderedEntry_val startpos endpos (endpos - startpos) startcolor endcolor dir
      hs he hle hN (le_refl _)
    rw [hmax, specChannel_exact _ _ _ (by omega) hd] at h1
    exact_mod_cast h1
  · intro hd
    have h1 := orderedEntry_hue startpos endpos (endpos - startpos) startcolor endcolor dir
      hle hN
    rw [hmax, specHue_exact _ _ _ _ hfe hd] at h1
    exact_mod_cast h1
  · intro h5 hfuel targetArray
    rw [ordered_result fuel startpos endpos startcolor endcolor dir h5 hle hfuel targetArray]
    refine ⟨_, rfl, ?_, ?_⟩
    · have c1 : startpos ≤ startpos ∧ startpos ≤ endpos := ⟨le_refl _, hle⟩
      simp only [c1, and_self, if_true, Nat.sub_self]
      exact orderedEntry_zero startpos endpos startcolor endcolor dir hs he
    · have c2 : startpos ≤ endpos ∧ endpos ≤ endpos := ⟨hle, le_refl _⟩
      simp only [c2, and_self, if_true]

theorem fill_gradient_endpoints_witness :
    (fill_gradient 6 0 ⟨0, 255, 255⟩ 4 ⟨64, 3, 131⟩ FORWARD_HUES).writes[0]?
      = some (0, forceStartHue ⟨0, 255, 255⟩ (forceEndHue ⟨0, 255, 255⟩ ⟨64, 3, 131⟩)) ∧
    (forceStartHue ⟨0, 255, 255⟩ (forceEndHue ⟨0, 255, 255⟩ ⟨64, 3, 131⟩)).sat
      = (⟨0, 255, 255⟩ : CHSV).sat ∧
    (forceStartHue ⟨0, 255, 255⟩ (forceEndHue ⟨0, 255, 255⟩ ⟨64, 3, 131⟩)).val
      = (⟨0, 255, 255⟩ : CHSV).val ∧
    ((⟨0, 255, 255⟩ : CHSV).sat ≠ 0 → (⟨0, 255, 255⟩ : CHSV).val ≠ 0 →
      forceStartHue ⟨0, 255, 255⟩ (forceEndHue ⟨0, 255, 255⟩ ⟨64, 3, 131⟩) = ⟨0, 255, 255⟩) ∧
    ∃ c : CHSV,
      (fill_gradient 6 0 ⟨0, 255, 255⟩ 4 ⟨64, 3, 131⟩ FORWARD_HUES).writes[4 - 0]?
        = some (4, c) ∧
      (((4 - 0 : Nat) : Int) ∣ 128 * (((⟨64, 3, 131⟩ : CHSV).sat : Int)
          - ((⟨0, 255, 255⟩ : CHSV).sat : Int)) → c.sat = (⟨64, 3, 131⟩ : CHSV).sat) ∧
      (((4 - 0 : Nat) : Int) ∣ 128 * (((⟨64, 3, 131⟩ : CHSV).val : Int)
          - ((⟨0, 255, 255⟩ : CHSV).val : Int)) → c.val = (⟨64, 3, 131⟩ : CHSV).val) ∧
      (((4 - 0 : Nat) : Int) ∣ huedistance87 FORWARD_HUES
          (huedelta8 (forceStartHue ⟨0, 255, 255⟩ (forceEndHue ⟨0, 255, 255⟩ ⟨64, 3, 131⟩))
            (forceEndHue ⟨0, 255, 255⟩ ⟨64, 3, 131⟩)) →
        c.hue = (forceEndHue ⟨0, 255, 255⟩ ⟨64, 3, 131⟩).hue) ∧
      (4 < 65535 → 4 - 0 + 1 < 6 → ∀ targetArray : Nat → CHSV,
        ∃ a, (fill_gradient 6 0 ⟨0, 255, 255⟩ 4 ⟨64, 3, 131⟩ FORWARD_HUES).result targetArray
            = some a ∧
          a 0 = forceStartHue ⟨0, 255, 255⟩ (forceEndHue ⟨0, 255, 255⟩ ⟨64, 3, 131⟩) ∧
          a 4 = c) :=
  fill_gradient_endpoints 6 0 4 ⟨0, 255, 255⟩ ⟨64, 3, 131⟩ FORWARD_HUES
    (by decide) (by decide) (by decide) (by decide) (by decide) (by decide)

theorem huedistance87_zero (dir : TGradientDirectionCode) : huedistance87 dir 0 = 0 := by
  cases dir <;> decide

theorem specHue_const (h0 N k : Nat) (h : h0 < 256) : specHue h0 0 N k = h0 := by
  unfold specHue
  simp only [Int.zero_tdiv, mul_zero, add_zero]
  omega

/-- C2: for every start colour, every direction code and every `startpos <= endpos` (span
at most 32767), a `fill_gradient` whose end colour has saturation 0 and value 0 (any hue)
stores, for `i <= j <= endpos - startpos`, pixels at `startpos + i` and `startpos + j`
that both have the hue of the start colour, the later one with saturation and value not
above those of the earlier one.  When moreover `endpos < 65535` the call returns and the
array it leaves has the start hue everywhere on `startpos..endpos`, with saturation and
value non-increasing along it. -/
theorem fill_gradient_fade_to_black (fuel startpos endpos : Nat) (startcolor endcolor : CHSV)
    (dir : TGradientDirectionCode) (hs : startcolor.wf) (he : endcolor.wf)
    (hsat : endcolor.sat = 0) (hval : endcolor.val = 0)
    (hle : startpos ≤ endpos) (hend : endpos < 65536) (hN : endpos - startpos ≤ 32767) :
    (∀ i j : Nat, i ≤ j → j ≤ endpos - startpos → j < fuel →
      ∃ ci cj : CHSV,
        (fill_gradient fuel startpos startcolor endpos endcolor dir).writes[i]?
          = some (startpos + i, ci) ∧
        (fill_gradient fuel startpos startcolor endpos endcolor dir).writes[j]?
          = some (startpos + j, cj) ∧
        ci.hue = startcolor.hue ∧ cj.hue = startcolor.hue ∧
        cj.sat ≤ ci.sat ∧ cj.val ≤ ci.val) ∧
    (endpos < 65535 → endpos - startpos + 1 < fuel → ∀ targetArray : Nat → CHSV,
      ∃ a, (fill_gradient fuel startpos startcolor endpos endcolor dir).result targetArray
          = some a ∧
        ∀ i j : Nat, startpos ≤ i → i ≤ j → j ≤ endpos →
          (a i).hue = startcolor.hue ∧ (a j).hue = startcolor.hue ∧
          (a j).sat ≤ (a i).sat ∧ (a j).val ≤ (a i).val) := by
  have hfe : forceEndHue startcolor endcolor = ⟨startcolor.hue, 0, 0⟩ := by
    unfold forceEndHue
    rw [if_pos (Or.inl hval), hsat, hval]
  have hfs : (forceStartHue startcolor (forceEndHue startcolor endcolor)).hue
      = startcolor.hue := by
    rw [hfe]
    unfold forceStartHue
    split <;> rfl
  have hd : huedelta8 (forceStartHue startcolor (forceEndHue startcolor endcolor))
      (forceEndHue startcolor endcolor) = 0 := by
    unfold huedelta8 toUInt8
    rw [hfs, hfe]
    simp
  have hpos : 0 < max 1 (endpos - startpos) := by omega
  -- the hue of every stored pixel
  have hue_eq : ∀ k, (orderedEntry startpos startcolor endpos endcolor dir k).hue
      = startcolor.hue := by
    intro k
    have h3 := orderedEntry_hue startpos endpos k startcolor endcolor dir hle hN
    rw [hd, huedistance87_zero, hfs, specHue_const _ _ _ hs.1] at h3
    exact_mod_cast h3
  -- saturation and value do not increase
  have mono : ∀ i j, i ≤ j → j ≤ endpos - startpos →
      (orderedEntry startpos startcolor endpos endcolor dir j).sat
        ≤ (orderedEntry startpos startcolor endpos endcolor dir i).sat ∧
      (orderedEntry startpos startcolor endpos endcolor dir j).val
        ≤ (orderedEntry startpos startcolor endpos endcolor dir i).val := by
    intro i j hij hj
    have s1 := orderedEntry_sat startpos endpos i startcolor endcolor dir hs he hle hN
      (by omega)
    have s2 := orderedEntry_sat startpos endpos j startcolor endcolor dir hs he hle hN hj
    have v1 := orderedEntry_val startpos endpos i startcolor endcolor dir hs he hle hN
      (by omega)
    have v2 := orderedEntry_val startpos endpos j startcolor endcolor dir hs he hle hN hj
    have ms := specChannel_antitone startcolor.sat endcolor.sat _ i j hpos (by omega) hij
    have mv := specChannel_antitone startcolor.val endcolor.val _ i j hpos (by omega) hij
    rw [← s1, ← s2] at ms
    rw [← v1, ← v2] at mv
    exact ⟨by exact_mod_cast ms, by exact_mod_cast mv⟩
  rw [fill_gradient_of_le _ _ _ _ _ _ hle]
  constructor
  · intro i j hij hj hf
    refine ⟨orderedEntry startpos startcolor endpos endcolor dir i,
      orderedEntry startpos startcolor endpos endcolor dir j,
      ordered_nth fuel startpos endpos i startcolor endcolor dir hend (by omega) (by omega),
      ordered_nth fuel startpos endpos j startcolor endcolor dir hend (by omega) hf,
      hue_eq i, hue_eq j, mono i j hij hj⟩
  · intro h5 hfuel targetArray
    rw [ordered_result fuel startpos endpos startcolor endcolor dir h5 hle hfuel targetArray]
    refine ⟨_, rfl, ?_⟩
    intro i j h1 h2 h3
    have c1 : startpos ≤ i ∧ i ≤ endpos := by omega
    have c2 : startpos ≤ j ∧ j ≤ endpos := by omega
    simp only [c1, c2, and_self, if_true]
    exact ⟨hue_eq _, hue_eq _, mono (i - startpos) (j - startpos) (by omega) (by omega)⟩

theorem fill_gradient_fade_to_black_witness :
    (∀ i j : Nat, i ≤ j → j ≤ 7 - 2 → j < 9 →
      ∃ ci cj : CHSV,
        (fill_gradient 9 2 ⟨96, 200, 255⟩ 7 ⟨33, 0, 0⟩ LONGEST_HUES).writes[i]?
          = some (2 + i, ci) ∧
        (fill_gradient 9 2 ⟨96, 200, 255⟩ 7 ⟨33, 0, 0⟩ LONGEST_HUES).writes[j]?
          = some (2 + j, cj) ∧
        ci.hue = (⟨96, 200, 255⟩ : CHSV).hue ∧ cj.hue = (⟨96, 200, 255⟩ : CHSV).hue ∧
        cj.sat ≤ ci.sat ∧ cj.val ≤ ci.val) ∧
    (7 < 65535 → 7 - 2 + 1 < 9 → ∀ targetArray : Nat → CHSV,
      ∃ a, (fill_gradient 9 2 ⟨96, 200, 255⟩ 7 ⟨33, 0, 0⟩ LONGEST_HUES).result targetArray
          = some a ∧
        ∀ i j : Nat, 2 ≤ i → i ≤ j → j ≤ 7 →
          (a i).hue = (⟨96, 200, 255⟩ : CHSV).hue ∧ (a j).hue = (⟨96, 200, 255⟩ : CHSV).hue ∧
          (a j).sat ≤ (a i).sat ∧ (a j).val ≤ (a i).val) :=
  fill_gradient_fade_to_black 9 2 7 ⟨96, 200, 255⟩ ⟨33, 0, 0⟩ LONGEST_HUES
    (by decide) (by decide) rfl rfl (by decide) (by decide) (by decide)

/-! ## Hue direction -/

theorem huedistance87_shortest (d : Nat) :
    huedistance87 SHORTEST_HUES d
      = huedistance87 (if d ≤ 127 then FORWARD_HUES else BACKWARD_HUES) d := by
  unfold huedistance87 resolveDirection
  by_cases h : d ≤ 127
  · have h2 : ¬ d > 127 := by omega
    simp [h, h2]
  · have h2 : d > 127 := by omega
    simp [h, h2]

theorem huedistance87_longest (d : Nat) :
    huedistance87 LONGEST_HUES d
      = huedistance87 (if d ≤ 127 then BACKWARD_HUES else FORWARD_HUES) d := by
  unfold huedistance87 resolveDirection
  by_cases h : d ≤ 127
  · have h2 : d < 128 := by omega
    simp [h, h2]
  · have h2 : ¬ d < 128 := by omega
    simp [h, h2]

/-- The direction code enters the computation only through `huedistance87`. -/
theorem ordered_congr_dir (fuel startpos endpos : Nat) (startcolor endcolor : CHSV)
    (d₁ d₂ : TGradientDirectionCode)
    (h : huedistance87 d₁ (huedelta8 (forceStartHue startcolor (forceEndHue startcolor endcolor))
          (forceEndHue startcolor endcolor))
       = huedistance87 d₂ (huedelta8 (forceStartHue startcolor (forceEndHue startcolor endcolor))
          (forceEndHue startcolor endcolor))) :
    fill_gradient_ordered fuel startpos startcolor endpos endcolor d₁
      = fill_gradient_ordered fuel startpos startcolor endpos endcolor d₂ := by
  unfold fill_gradient_ordered
  simp only [h]

theorem ordered_shortest (fuel startpos endpos : Nat) (startcolor endcolor : CHSV) :
    fill_gradient_ordered fuel startpos startcolor endpos endcolor SHORTEST_HUES
      = fill_gradient_ordered fuel startpos startcolor endpos endcolor
          (if huedelta8 (forceStartHue startcolor (forceEndHue startcolor endcolor))
              (forceEndHue startcolor endcolor) ≤ 127
            then FORWARD_HUES else BACKWARD_HUES) :=
  ordered_congr_dir _ _ _ _ _ _ _ (huedistance87_shortest _)

theorem ordered_longest (fuel startpos endpos : Nat) (startcolor endcolor : CHSV) :
    fill_gradient_ordered fuel startpos startcolor endpos endcolor LONGEST_HUES
      = fill_gradient_ordered fuel startpos startcolor endpos endcolor
          (if huedelta8 (forceStartHue startcolor (forceEndHue startcolor endcolor))
              (forceEndHue startcolor endcolor) ≤ 127
            then BACKWARD_HUES else FORWARD_HUES) :=
  ordered_congr_dir _ _ _ _ _ _ _ (huedistance87_longest _)

/-- After the hue forcing the hue delta is either the delta of the hues passed in, or
it is zero. -/
theorem forced_huedelta8 (startcolor endcolor : CHSV) :
    huedelta8 (forceStartHue startcolor (forceEndHue startcolor endcolor))
        (forceEndHue startcolor endcolor) = huedelta8 startcolor endcolor ∨
    huedelta8 (forceStartHue startcolor (forceEndHue startcolor endcolor))
        (forceEndHue startcolor endcolor) = 0 := by
  unfold forceStartHue forceEndHue huedelta8 toUInt8
  split <;> split <;> simp

/-- C3: for all inputs, `fill_gradient` with `SHORTEST_HUES` performs the same stores (and
returns or not alike) as with `FORWARD_HUES` when the forward hue delta `huedelta8`
(end hue minus start hue, modulo 256, as the function computes it) is at most 127, and
as with `BACKWARD_HUES` otherwise; with `LONGEST_HUES` it does the same as the opposite
choice.  For points given in order the same holds with the delta of the two hues that
were passed in. -/
theorem fill_gradient_shortest_longest (fuel startpos endpos : Nat)
    (startcolor endcolor : CHSV) :
    fill_gradient fuel startpos startcolor endpos endcolor SHORTEST_HUES
      = fill_gradient fuel startpos startcolor endpos endcolor
          (if fill_gradient_huedelta8 startpos startcolor endpos endcolor ≤ 127
            then FORWARD_HUES else BACKWARD_HUES) ∧
    fill_gradient fuel startpos startcolor endpos endcolor LONGEST_HUES
      = fill_gradient fuel startpos startcolor endpos endcolor
          (if fill_gradient_huedelta8 startpos startcolor endpos endcolor ≤ 127
            then BACKWARD_HUES else FORWARD_HUES) ∧
    (startpos ≤ endpos →
      fill_gradient fuel startpos startcolor endpos endcolor SHORTEST_HUES
        = fill_gradient fuel startpos startcolor endpos endcolor
            (if toUInt8 ((endcolor.hue : Int) - (startcolor.hue : Int)) ≤ 127
              then FORWARD_HUES else BACKWARD_HUES) ∧
      fill_gradient fuel startpos startcolor endpos endcolor LONGEST_HUES
        = fill_gradient fuel startpos startcolor endpos endcolor
            (if toUInt8 ((endcolor.hue : Int) - (startcolor.hue : Int)) ≤ 127
              then BACKWARD_HUES else FORWARD_HUES)) := by
  refine ⟨?_, ?_, ?_⟩
  · unfold fill_gradient fill_gradient_huedelta8
    split
    · exact ordered_shortest _ _ _ _ _
    · exact ordered_shortest _ _ _ _ _
  · unfold fill_gradient fill_gradient_huedelta8
    split
    · exact ordered_longest _ _ _ _ _
    · exact ordered_longest _ _ _ _ _
  · intro hle
    simp only [fill_gradient_of_le _ _ _ _ _ _ hle]
    rcases forced_huedelta8 startcolor endcolor with h | h
    · have h' : toUInt8 ((endcolor.hue : Int) - (startcolor.hue : Int))
          = huedelta8 (forceStartHue startcolor (forceEndHue startcolor endcolor))
              (forceEndHue startcolor endcolor) := by
        rw [h]; rfl
      rw [h']
      exact ⟨ordered_shortest _ _ _ _ _, ordered_longest _ _ _ _ _⟩
    · constructor
      · apply ordered_congr_dir
        rw [h, huedistance87_zero, huedistance87_zero]
      · apply ordered_congr_dir
        rw [h, huedistance87_zero, huedistance87_zero]

theorem fill_gradient_shortest_longest_witness :
    fill_gradient 9 0 ⟨10, 255, 255⟩ 4 ⟨138, 5, 5⟩ SHORTEST_HUES
      = fill_gradient 9 0 ⟨10, 255, 255⟩ 4 ⟨138, 5, 5⟩
          (if fill_gradient_huedelta8 0 ⟨10, 255, 255⟩ 4 ⟨138, 5, 5⟩ ≤ 127
            then FORWARD_HUES else BACKWARD_HUES) ∧
    fill_gradient 9 0 ⟨10, 255, 255⟩ 4 ⟨138, 5, 5⟩ LONGEST_HUES
      = fill_gradient 9 0 ⟨10, 255, 255⟩ 4 ⟨138, 5, 5⟩
          (if fill_gradient_huedelta8 0 ⟨10, 255, 255⟩ 4 ⟨138, 5, 5⟩ ≤ 127
            then BACKWARD_HUES else FORWARD_HUES) ∧
    (0 ≤ 4 →
      fill_gradient 9 0 ⟨10, 255, 255⟩ 4 ⟨138, 5, 5⟩ SHORTEST_HUES
        = fill_gradient 9 0 ⟨10, 255, 255⟩ 4 ⟨138, 5, 5⟩
            (if toUInt8 (((⟨138, 5, 5⟩ : CHSV).hue : Int) - ((⟨10, 255, 255⟩ : CHSV).hue : Int)) ≤ 127
              then FORWARD_HUES else BACKWARD_HUES) ∧
      fill_gradient 9 0 ⟨10, 255, 255⟩ 4 ⟨138, 5, 5⟩ LONGEST_HUES
        = fill_gradient 9 0 ⟨10, 255, 255⟩ 4 ⟨138, 5, 5⟩
            (if toUInt8 (((⟨138, 5, 5⟩ : CHSV).hue : Int) - ((⟨10, 255, 255⟩ : CHSV).hue : Int)) ≤ 127
              then BACKWARD_HUES else FORWARD_HUES)) :=
  fill_gradient_shortest_longest 9 0 4 ⟨10, 255, 255⟩ ⟨138, 5, 5⟩

/-- C4: for every two hues (the hues of any two pixels), the signed hue distance that
`fill_gradient` travels with `SHORTEST_HUES`, `huedistance87 / 128`, has magnitude at
most 128 hue steps; `huedistance87` is a whole number of hue steps (a multiple of 128). -/
theorem shortest_hue_distance_le (startcolor endcolor : CHSV) :
    (huedistance87 SHORTEST_HUES (huedelta8 startcolor endcolor)) % 128 = 0 ∧
    (huedistance87 SHORTEST_HUES (huedelta8 startcolor endcolor) / 128).natAbs ≤ 128 := by
  have hd := huedelta8_lt startcolor endcolor
  rw [huedistance87_eq _ _ hd]
  generalize huedelta8 startcolor endcolor = d at *
  unfold resolveDirection
  by_cases h : d > 127
  · simp only [h, if_true, if_false, reduceCtorEq]
    omega
  · simp only [h, if_true, if_false, reduceCtorEq]
    omega

/-- C5 (as stated, refuted): between two equal hues the distance travelled with
`LONGEST_HUES` is 0 hue steps, not a path of at least 128 steps, and a gradient between two
pixels of hue 7 stores hue 7 at every position. -/
theorem longest_hue_distance_equal_hues :
    huedistance87 LONGEST_HUES (huedelta8 ⟨7, 255, 255⟩ ⟨7, 255, 255⟩) = 0 ∧
    ¬ (128 ≤ (huedistance87 LONGEST_HUES (huedelta8 ⟨7, 255, 255⟩ ⟨7, 255, 255⟩) / 128).natAbs) ∧
    (fill_gradient 9 0 ⟨7, 255, 255⟩ 4 ⟨7, 255, 255⟩ LONGEST_HUES).writes.map
      (fun w => w.2.hue) = [7, 7, 7, 7, 7] := by
  decide

/-- C5 (amended): for every two hues that differ modulo 256, the signed hue distance that
`fill_gradient` travels with `LONGEST_HUES`, `huedistance87 / 128`, has magnitude at least
128 hue steps and is the complementary path of the `SHORTEST_HUES` one: it runs in the
opposite direction and the two magnitudes add up to 256 (when the forward delta is exactly
128 the two paths are the half circle backwards and the half circle forwards). -/
theorem longest_hue_distance_ge (startcolor endcolor : CHSV)
    (hne : huedelta8 startcolor endcolor ≠ 0) :
    (huedistance87 LONGEST_HUES (huedelta8 startcolor endcolor)) % 128 = 0 ∧
    128 ≤ (huedistance87 LONGEST_HUES (huedelta8 startcolor endcolor) / 128).natAbs ∧
    (huedistance87 LONGEST_HUES (huedelta8 startcolor endcolor) / 128).natAbs
      + (huedistance87 SHORTEST_HUES (huedelta8 startcolor endcolor) / 128).natAbs = 256 ∧
    (0 < huedistance87 LONGEST_HUES (huedelta8 startcolor endcolor) ↔
      huedistance87 SHORTEST_HUES (huedelta8 startcolor endcolor) < 0) := by
  have hd := huedelta8_lt startcolor endcolor
  rw [huedistance87_eq _ _ hd, huedistance87_eq _ _ hd]
  generalize huedelta8 startcolor endcolor = d at *
  unfold resolveDirection
  by_cases h : d > 127
  · have h2 : ¬ d < 128 := by omega
    simp only [h, h2, if_true, if_false, reduceCtorEq]
    omega
  · have h2 : d < 128 := by omega
    simp only [h, h2, if_true, if_false, reduceCtorEq]
    omega

theorem longest_hue_distance_ge_witness :
    (huedistance87 LONGEST_HUES (huedelta8 ⟨10, 255, 255⟩ ⟨74, 255, 255⟩)) % 128 = 0 ∧
    128 ≤ (huedistance87 LONGEST_HUES (huedelta8 ⟨10, 255, 255⟩ ⟨74, 255, 255⟩) / 128).natAbs ∧
    (huedistance87 LONGEST_HUES (huedelta8 ⟨10, 255, 255⟩ ⟨74, 255, 255⟩) / 128).natAbs
      + (huedistance87 SHORTEST_HUES (huedelta8 ⟨10, 255, 255⟩ ⟨74, 255, 255⟩) / 128).natAbs
        = 256 ∧
    (0 < huedistance87 LONGEST_HUES (huedelta8 ⟨10, 255, 255⟩ ⟨74, 255, 255⟩) ↔
      huedistance87 SHORTEST_HUES (huedelta8 ⟨10, 255, 255⟩ ⟨74, 255, 255⟩) < 0) :=
  longest_hue_distance_ge ⟨10, 255, 255⟩ ⟨74, 255, 255⟩ (by decide)

/-! ## Which entries are stored to -/

theorem store_not_mem (ws : List (Nat × CHSV)) :
    ∀ (targetArray : Nat → CHSV) (j : Nat), j ∉ ws.map Prod.fst →
      store targetArray ws j = targetArray j := by
  induction ws with
  | nil => intro targetArray j _; rfl
  | cons w ws ih =>
    intro targetArray j hj
    simp only [List.map_cons, List.mem_cons, not_or] at hj
    have h := ih (Function.update targetArray w.1 w.2) j hj.2
    simp only [store, List.foldl_cons] at h ⊢
    rw [h, Function.update_noteq hj.1]

theorem run_frame (r : Run) (h : r.exited = true) (targetArray : Nat → CHSV) :
    ∃ a, r.result targetArray = some a ∧ ∀ j, j ∉ r.indices → a j = targetArray j := by
  refine ⟨store targetArray r.writes, ?_, ?_⟩
  · unfold Run.result
    rw [h]
    rfl
  · intro j hj
    exact store_not_mem r.writes targetArray j hj

theorem andThen_exited (r₁ r₂ : Run) (h₁ : r₁.exited = true) (h₂ : r₂.exited = true) :
    (r₁.andThen r₂).exited = true ∧ (r₁.andThen r₂).indices = r₁.indices ++ r₂.indices := by
  unfold Run.andThen Run.indices
  rw [h₁]
  simp [h₂]

theorem ordered_indices (fuel startpos endpos : Nat) (startcolor endcolor : CHSV)
    (dir : TGradientDirectionCode) (hend : endpos < 65535) (hle : startpos ≤ endpos)
    (hf : endpos - startpos + 1 < fuel) (j : Nat) :
    j ∈ (fill_gradient_ordered fuel startpos startcolor endpos endcolor dir).indices
      ↔ startpos ≤ j ∧ j ≤ endpos := by
  unfold Run.indices
  rw [ordered_writes fuel startpos endpos startcolor endcolor dir hend hle hf]
  simp only [List.map_map, List.mem_map, List.mem_range, Function.comp]
  constructor
  · rintro ⟨k, hk, rfl⟩
    omega
  · intro h
    exact ⟨j - startpos, by omega, by omega⟩

/-- A call whose two positions are below 65535 returns, and the indices it stores to are
those between the two positions. -/
theorem fill_gradient_span (fuel startpos endpos : Nat) (startcolor endcolor : CHSV)
    (dir : TGradientDirectionCode) (hs : startpos < 65535) (he : endpos < 65535)
    (hf : max startpos endpos - min startpos endpos + 1 < fuel) :
    (fill_gradient fuel startpos startcolor endpos endcolor dir).exited = true ∧
    ∀ j, j ∈ (fill_gradient fuel startpos startcolor endpos endcolor dir).indices
      ↔ min startpos endpos ≤ j ∧ j ≤ max startpos endpos := by
  rcases Nat.lt_or_ge endpos startpos with h | h
  · rw [fill_gradient_of_lt _ _ _ _ _ _ h]
    have h1 : min startpos endpos = endpos := min_eq_right (le_of_lt h)
    have h2 : max startpos endpos = startpos := max_eq_left (le_of_lt h)
    rw [h1, h2] at hf ⊢
    exact ⟨(ordered_exit fuel endpos startpos endcolor startcolor dir hs (le_of_lt h) hf).1,
      ordered_indices fuel endpos startpos endcolor startcolor dir hs (le_of_lt h) hf⟩
  · rw [fill_gradient_of_le _ _ _ _ _ _ h]
    have h1 : min startpos endpos = startpos := min_eq_left h
    have h2 : max startpos endpos = endpos := max_eq_right h
    rw [h1, h2] at hf ⊢
    exact ⟨(ordered_exit fuel startpos endpos startcolor endcolor dir he h hf).1,
      ordered_indices fuel startpos endpos startcolor endcolor dir he h hf⟩

/-- C7: for every `startpos` and `endpos` with `max(startpos, endpos) < 65535`,
`fill_gradient` returns, the indices it stores to are exactly those between
`min(startpos, endpos)` and `max(startpos, endpos)` inclusive, and in the array it leaves
every entry outside that range is unchanged. -/
theorem fill_gradient_frame (fuel startpos endpos : Nat) (startcolor endcolor : CHSV)
    (dir : TGradientDirectionCode) (hmax : max startpos endpos < 65535)
    (hf : max startpos endpos - min startpos endpos + 1 < fuel) :
    (fill_gradient fuel startpos startcolor endpos endcolor dir).exited = true ∧
    (∀ j, j ∈ (fill_gradient fuel startpos startcolor endpos endcolor dir).indices
      ↔ min startpos endpos ≤ j ∧ j ≤ max startpos endpos) ∧
    ∀ targetArray : Nat → CHSV,
      ∃ a, (fill_gradient fuel startpos startcolor endpos endcolor dir).result targetArray
          = some a ∧
        ∀ j, ¬ (min startpos endpos ≤ j ∧ j ≤ max startpos endpos) → a j = targetArray j := by
  have hs : startpos < 65535 := lt_of_le_of_lt (le_max_left _ _) hmax
  have he : endpos < 65535 := lt_of_le_of_lt (le_max_right _ _) hmax
  obtain ⟨h1, h2⟩ := fill_gradient_span fuel startpos endpos startcolor endcolor dir hs he hf
  refine ⟨h1, h2, ?_⟩
  intro targetArray
  obtain ⟨a, ha, hfr⟩ := run_frame _ h1 targetArray
  exact ⟨a, ha, fun j hj => hfr j (fun hmem => hj ((h2 j).mp hmem))⟩

theorem fill_gradient_frame_witness :
    (fill_gradient 9 6 ⟨0, 255, 255⟩ 2 ⟨64, 255, 255⟩ FORWARD_HUES).exited = true ∧
    (∀ j, j ∈ (fill_gradient 9 6 ⟨0, 255, 255⟩ 2 ⟨64, 255, 255⟩ FORWARD_HUES).indices
      ↔ min 6 2 ≤ j ∧ j ≤ max 6 2) ∧
    ∀ targetArray : Nat → CHSV,
      ∃ a, (fill_gradient 9 6 ⟨0, 255, 255⟩ 2 ⟨64, 255, 255⟩ FORWARD_HUES).result targetArray
          = some a ∧
        ∀ j, ¬ (min 6 2 ≤ j ∧ j ≤ max 6 2) → a j = targetArray j :=
  fill_gradient_frame 9 6 2 ⟨0, 255, 255⟩ ⟨64, 255, 255⟩ FORWARD_HUES (by decide) (by decide)

/-- C8: for all colours `ca`, `cb`, every direction code and positions `a > b`, the call
`fill_gradient(buf, a, ca, b, cb, dir)` performs exactly the stores of
`fill_gradient(buf, b, cb, a, ca, dir)` and returns exactly when that call returns: the
reversed positions are swapped together with their colours.  When `a < 65535` both calls
return, and they leave the same array for every array `buf` they are started on. -/
theorem fill_gradient_reversed (fuel a b : Nat) (ca cb : CHSV) (dir : TGradientDirectionCode)
    (hab : b < a) :
    fill_gradient fuel a ca b cb dir = fill_gradient fuel b cb a ca dir ∧
    (a < 65535 → a - b + 1 < fuel → ∀ buf : Nat → CHSV,
      ∃ r, (fill_gradient fuel a ca b cb dir).result buf = some r ∧
        (fill_gradient fuel b cb a ca dir).result buf = some r) := by
  have e : fill_gradient fuel a ca b cb dir = fill_gradient fuel b cb a ca dir := by
    rw [fill_gradient_of_lt _ _ _ _ _ _ hab, fill_gradient_of_le _ _ _ _ _ _ (le_of_lt hab)]
  refine ⟨e, ?_⟩
  intro ha hf buf
  rw [e, fill_gradient_of_le _ _ _ _ _ _ (le_of_lt hab),
    ordered_result fuel b a cb ca dir ha (le_of_lt hab) hf buf]
  exact ⟨_, rfl, rfl⟩

theorem fill_gradient_reversed_witness :
    fill_gradient 9 6 ⟨0, 255, 255⟩ 2 ⟨64, 200, 100⟩ SHORTEST_HUES
      = fill_gradient 9 2 ⟨64, 200, 100⟩ 6 ⟨0, 255, 255⟩ SHORTEST_HUES ∧
    (6 < 65535 → 6 - 2 + 1 < 9 → ∀ buf : Nat → CHSV,
      ∃ r, (fill_gradient 9 6 ⟨0, 255, 255⟩ 2 ⟨64, 200, 100⟩ SHORTEST_HUES).result buf = some r ∧
        (fill_gradient 9 2 ⟨64, 200, 100⟩ 6 ⟨0, 255, 255⟩ SHORTEST_HUES).result buf = some r) :=
  fill_gradient_reversed 9 6 2 ⟨0, 255, 255⟩ ⟨64, 200, 100⟩ SHORTEST_HUES (by decide)

theorem divisor_self (p : Nat) : divisor p p = 1 := by
  unfold divisor toUInt16
  simp only [sub_self]
  decide

/-- C9: for every position `p < 65535`, every pair of colours and every direction code,
`fill_gradient` with `startpos = endpos = p` divides by the divisor 1 (no division by
zero), performs exactly one store, to index `p` (of the start colour after hue forcing),
and returns; the array it leaves differs from the one it was started on at index `p`
only. -/
theorem fill_gradient_single (fuel p : Nat) (startcolor endcolor : CHSV)
    (dir : TGradientDirectionCode) (hs : startcolor.wf) (he : endcolor.wf)
    (hp : p < 65535) (hf : 1 < fuel) :
    divisor p p = 1 ∧
    fill_gradient fuel p startcolor p endcolor dir
      = ⟨[(p, forceStartHue startcolor (forceEndHue startcolor endcolor))], true⟩ ∧
    ∀ targetArray : Nat → CHSV,
      (fill_gradient fuel p startcolor p endcolor dir).result targetArray
        = some (Function.update targetArray p
            (forceStartHue startcolor (forceEndHue startcolor endcolor))) := by
  have hrun : fill_gradient fuel p startcolor p endcolor dir
      = ⟨[(p, forceStartHue startcolor (forceEndHue startcolor endcolor))], true⟩ := by
    rw [fill_gradient_of_le _ _ _ _ _ _ (le_refl p)]
    have hx := (ordered_exit fuel p p startcolor endcolor dir hp (le_refl p) (by omega)).1
    have hw := ordered_writes fuel p p startcolor endcolor dir hp (le_refl p) (by omega)
    have hr1 : List.range (p - p + 1) = [0] := by
      rw [Nat.sub_self]
      rfl
    rw [hr1] at hw
    simp only [List.map_cons, List.map_nil, Nat.add_zero,
      orderedEntry_zero p p startcolor endcolor dir hs he] at hw
    cases hr : fill_gradient_ordered fuel p startcolor p endcolor dir with
    | mk ws ex =>
      rw [hr] at hx hw
      simp only at hx hw
      rw [hx, hw]
  refine ⟨divisor_self p, hrun, ?_⟩
  intro targetArray
  rw [hrun]
  rfl

theorem fill_gradient_single_witness :
    divisor 5 5 = 1 ∧
    fill_gradient 2 5 ⟨0, 0, 255⟩ 5 ⟨64, 255, 255⟩ BACKWARD_HUES
      = ⟨[(5, forceStartHue ⟨0, 0, 255⟩ (forceEndHue ⟨0, 0, 255⟩ ⟨64, 255, 255⟩))], true⟩ ∧
    ∀ targetArray : Nat → CHSV,
      (fill_gradient 2 5 ⟨0, 0, 255⟩ 5 ⟨64, 255, 255⟩ BACKWARD_HUES).result targetArray
        = some (Function.update targetArray 5
            (forceStartHue ⟨0, 0, 255⟩ (forceEndHue ⟨0, 0, 255⟩ ⟨64, 255, 255⟩))) :=
  fill_gradient_single 2 5 ⟨0, 0, 255⟩ ⟨64, 255, 255⟩ BACKWARD_HUES (by decide) (by decide)
    (by decide) (by decide)

/-! ## The multi-stop overloads -/

theorem toUInt16_pred (numLeds : Nat) (h1 : 1 ≤ numLeds) (h2 : numLeds < 65536) :
    toUInt16 ((numLeds : Int) - 1) = numLeds - 1 := by
  unfold toUInt16; omega

/-- C10: for every `numLeds >= 1` (a `uint16_t`), the span boundaries of the 2-, 3- and
4-stop overloads are non-decreasing (`0 <= numLeds/2 <= numLeds-1`,
`0 <= numLeds/3 <= 2*numLeds/3 <= numLeds-1`), each overload returns, and the indices it
stores to are exactly `0..numLeds-1`: every one of them is stored to and no index
`>= numLeds` is. -/
theorem fill_gradient_multi_stop (fuel numLeds : Nat) (c1 c2 c3 c4 : CHSV)
    (dir : TGradientDirectionCode) (h1 : 1 ≤ numLeds) (h2 : numLeds < 65536)
    (hf : numLeds < fuel) :
    (0 ≤ numLeds / 2 ∧ numLeds / 2 ≤ numLeds - 1 ∧
      0 ≤ numLeds / 3 ∧ numLeds / 3 ≤ numLeds * 2 / 3 ∧ numLeds * 2 / 3 ≤ numLeds - 1) ∧
    ((fill_gradient2 fuel numLeds c1 c2 dir).exited = true ∧
      ∀ j, j ∈ (fill_gradient2 fuel numLeds c1 c2 dir).indices ↔ j < numLeds) ∧
    ((fill_gradient3 fuel numLeds c1 c2 c3 dir).exited = true ∧
      ∀ j, j ∈ (fill_gradient3 fuel numLeds c1 c2 c3 dir).indices ↔ j < numLeds) ∧
    ((fill_gradient4 fuel numLeds c1 c2 c3 c4 dir).exited = true ∧
      ∀ j, j ∈ (fill_gradient4 fuel numLeds c1 c2 c3 c4 dir).indices ↔ j < numLeds) := by
  have hlast := toUInt16_pred numLeds h1 h2
  have hhalf : toUInt16 ((numLeds / 2 : Nat) : Int) = numLeds / 2 :=
    toUInt16_of_nat _ (by omega)
  have hthird : toUInt16 ((numLeds / 3 : Nat) : Int) = numLeds / 3 :=
    toUInt16_of_nat _ (by omega)
  have htwo : toUInt16 ((numLeds * 2 / 3 : Nat) : Int) = numLeds * 2 / 3 :=
    toUInt16_of_nat _ (by omega)
  refine ⟨by omega, ?_, ?_, ?_⟩
  · unfold fill_gradient2
    simp only [hlast]
    obtain ⟨hx, hi⟩ := fill_gradient_span fuel 0 (numLeds - 1) c1 c2 dir (by omega) (by omega)
      (by rw [Nat.zero_max, Nat.zero_min]; omega)
    refine ⟨hx, fun j => ?_⟩
    rw [hi j, Nat.zero_max, Nat.zero_min]
    omega
  · unfold fill_gradient3
    simp only [hlast, hhalf]
    obtain ⟨hx1, hi1⟩ := fill_gradient_span fuel 0 (numLeds / 2) c1 c2 dir (by omega)
      (by omega) (by rw [Nat.zero_max, Nat.zero_min]; omega)
    obtain ⟨hx2, hi2⟩ := fill_gradient_span fuel (numLeds / 2) (numLeds - 1) c2 c3 dir
      (by omega) (by omega) (by omega)
    obtain ⟨hx, hi⟩ := andThen_exited _ _ hx1 hx2
    refine ⟨hx, fun j => ?_⟩
    rw [hi, List.mem_append, hi1 j, hi2 j]
    omega
  · unfold fill_gradient4
    simp only [hlast, hthird, htwo]
    obtain ⟨hx1, hi1⟩ := fill_gradient_span fuel 0 (numLeds / 3) c1 c2 dir (by omega)
      (by omega) (by rw [Nat.zero_max, Nat.zero_min]; omega)
    obtain ⟨hx2, hi2⟩ := fill_gradient_span fuel (numLeds / 3) (numLeds * 2 / 3) c2 c3 dir
      (by omega) (by omega) (by omega)
    obtain ⟨hx3, hi3⟩ := fill_gradient_span fuel (numLeds * 2 / 3) (numLeds - 1) c3 c4 dir
      (by omega) (by omega) (by omega)
    obtain ⟨hx12, hi12⟩ := andThen_exited _ _ hx1 hx2
    obtain ⟨hx, hi⟩ := andThen_exited _ _ hx12 hx3
    refine ⟨hx, fun j => ?_⟩
    rw [hi, hi12, List.mem_append, List.mem_append, hi1 j, hi2 j, hi3 j]
    omega

theorem fill_gradient_multi_stop_witness :
    (0 ≤ 5 / 2 ∧ 5 / 2 ≤ 5 - 1 ∧ 0 ≤ 5 / 3 ∧ 5 / 3 ≤ 5 * 2 / 3 ∧ 5 * 2 / 3 ≤ 5 - 1) ∧
    ((fill_gradient2 6 5 ⟨0, 255, 255⟩ ⟨64, 255, 255⟩ SHORTEST_HUES).exited = true ∧
      ∀ j, j ∈ (fill_gradient2 6 5 ⟨0, 255, 255⟩ ⟨64, 255, 255⟩ SHORTEST_HUES).indices
        ↔ j < 5) ∧
    ((fill_gradient3 6 5 ⟨0, 255, 255⟩ ⟨64, 255, 255⟩ ⟨128, 255, 255⟩ SHORTEST_HUES).exited
        = true ∧
      ∀ j, j ∈ (fill_gradient3 6 5 ⟨0, 255, 255⟩ ⟨64, 255, 255⟩ ⟨128, 255, 255⟩
        SHORTEST_HUES).indices ↔ j < 5) ∧
    ((fill_gradient4 6 5 ⟨0, 255, 255⟩ ⟨64, 255, 255⟩ ⟨128, 255, 255⟩ ⟨192, 255, 255⟩
        SHORTEST_HUES).exited = true ∧
      ∀ j, j ∈ (fill_gradient4 6 5 ⟨0, 255, 255⟩ ⟨64, 255, 255⟩ ⟨128, 255, 255⟩
        ⟨192, 255, 255⟩ SHORTEST_HUES).indices ↔ j < 5) :=
  fill_gradient_multi_stop 6 5 ⟨0, 255, 255⟩ ⟨64, 255, 255⟩ ⟨128, 255, 255⟩ ⟨192, 255, 255⟩
    SHORTEST_HUES (by decide) (by decide) (by decide)

/-! ## Colour codes, parity and video scaling of `CRGBW` -/

/-- C17 (the code at the failing input): the named colour `Red = 0xFF0000`, a 24-bit
`0xRRGGBB` code with `RR = 0xFF`, is decoded by the constructor, by the assignment and by
`setColorCode` into red 0, green 255, blue 0, white 0: the code is read as `0xRRGGBBWW`. -/
theorem colorcode_red_is_decoded_as_green :
    CRGBW.CRGBW_colorcode HTMLColorCode.Red = ⟨0, 255, 0, 0⟩ ∧
    CRGBW.operator_assign_colorcode ⟨1, 2, 3, 4⟩ HTMLColorCode.Red = ⟨0, 255, 0, 0⟩ ∧
    CRGBW.setColorCode ⟨1, 2, 3, 4⟩ HTMLColorCode.Red = ⟨0, 255, 0, 0⟩ ∧
    (CRGBW.CRGBW_colorcode HTMLColorCode.Red).r ≠ 0xFF ∧
    CRGBW.CRGBW_colorcode HTMLColorCode.AliceBlue = ⟨0, 0xF0, 0xF8, 0xFF⟩ := by
  decide

theorem and_one_eq_mod (x : Nat) : x &&& 1 = x % 2 := Nat.and_one_is_mod x

theorem getParity_eq (c : CRGBW) : c.getParity = (c.r + c.g + c.b + c.w) % 2 := by
  unfold CRGBW.getParity toUInt8
  simp only [and_one_eq_mod]
  omega

theorem toUInt8_succ (x : Nat) (h : x < 255) : toUInt8 ((x : Int) + 1) = x + 1 := by
  unfold toUInt8; omega

theorem toUInt8_pred (x : Nat) (h0 : 0 < x) (h : x < 256) : toUInt8 ((x : Int) - 1) = x - 1 := by
  unfold toUInt8; omega

set_option maxRecDepth 100000 in
theorem xor_one_add : ∀ x : Nat, x < 256 → (x ^^^ 1) + 2 * (x % 2) = x + 1 := by
  decide

/-- C20: for every `CRGBW` colour and every requested parity `p` in {0, 1}, after
`setParity(p)` the colour's `getParity()` (the lowest bit of `r + g + b + w`) equals `p`. -/
theorem setParity_getParity (c : CRGBW) (p : Nat) (hc : c.wf) (hp : p = 0 ∨ p = 1) :
    (c.setParity p).getParity = p := by
  obtain ⟨r, g, b, w⟩ := c
  simp only [CRGBW.wf] at hc
  obtain ⟨hr, hg, hb, hw⟩ := hc
  have xr := xor_one_add r hr
  have xg := xor_one_add g hg
  have xb := xor_one_add b hb
  unfold CRGBW.setParity
  simp only [getParity_eq]
  rcases hp with rfl | rfl
  · split_ifs
    all_goals simp only [getParity_eq, toUInt8]
    all_goals omega
  · split_ifs
    all_goals simp only [getParity_eq, toUInt8]
    all_goals omega

theorem setParity_getParity_witness :
    ((⟨255, 255, 255, 7⟩ : CRGBW).setParity 1).getParity = 1 :=
  setParity_getParity ⟨255, 255, 255, 7⟩ 1 (by decide) (by decide)

/-- C19 (as stated, refuted): with fade amount 255 the scale passed on is
`255 - 255 = 0`, and `fadeLightBy` turns the lit pixel `(10, 20, 30, 40)` into
`(0, 0, 0, 0)`. -/
theorem fadeLightBy_255_is_black :
    (⟨10, 20, 30, 40⟩ : CRGBW).fadeLightBy 255 = ⟨0, 0, 0, 0⟩ := by
  decide

/-- C19 (amended): for every fade amount 0..254 and every pixel, `CRGBW::fadeLightBy`
never fades a lit channel all the way to zero: each channel that was non-zero before the
call is non-zero after it (the scale `255 - fadefactor` is then at least 1).  With fade
amount 255 the scale is 0 and every channel becomes 0. -/
theorem fadeLightBy_keeps_lit (c : CRGBW) (fadefactor : Nat) (hf : fadefactor ≤ 254) :
    (c.r ≠ 0 → (c.fadeLightBy fadefactor).r ≠ 0) ∧
    (c.g ≠ 0 → (c.fadeLightBy fadefactor).g ≠ 0) ∧
    (c.b ≠ 0 → (c.fadeLightBy fadefactor).b ≠ 0) ∧
    (c.w ≠ 0 → (c.fadeLightBy fadefactor).w ≠ 0) ∧
    c.fadeLightBy 255 = ⟨0, 0, 0, 0⟩ := by
  have hs : 0 < toUInt8 (255 - (fadefactor : Int)) := by
    unfold toUInt8; omega
  have key : ∀ a s : Nat, 0 < s → a ≠ 0 → scale8_video a s ≠ 0 := by
    intro a s hs ha
    unfold scale8_video
    rw [if_pos ⟨Nat.pos_of_ne_zero ha, hs⟩]
    have := le_max_left 1 (a * s / 256)
    omega
  refine ⟨key _ _ hs, key _ _ hs, key _ _ hs, key _ _ hs, ?_⟩
  simp [CRGBW.fadeLightBy, nscale8x3_video, scale8_video, toUInt8]

theorem fadeLightBy_keeps_lit_witness :
    ((⟨1, 0, 255, 3⟩ : CRGBW).r ≠ 0 → ((⟨1, 0, 255, 3⟩ : CRGBW).fadeLightBy 254).r ≠ 0) ∧
    ((⟨1, 0, 255, 3⟩ : CRGBW).g ≠ 0 → ((⟨1, 0, 255, 3⟩ : CRGBW).fadeLightBy 254).g ≠ 0) ∧
    ((⟨1, 0, 255, 3⟩ : CRGBW).b ≠ 0 → ((⟨1, 0, 255, 3⟩ : CRGBW).fadeLightBy 254).b ≠ 0) ∧
    ((⟨1, 0, 255, 3⟩ : CRGBW).w ≠ 0 → ((⟨1, 0, 255, 3⟩ : CRGBW).fadeLightBy 254).w ≠ 0) ∧
    (⟨1, 0, 255, 3⟩ : CRGBW).fadeLightBy 255 = ⟨0, 0, 0, 0⟩ :=
  fadeLightBy_keeps_lit ⟨1, 0, 255, 3⟩ 254 (by decide)

/-! ## Palette comparison and indexing -/

theorem palette_compare_spec (wrap size : Nat) (p q : Nat → Nat) (hw : size < wrap) :
    ∀ (fuel i : Nat), i ≤ size → size - i < fuel →
      ∃ b, palette_compare wrap size p q fuel i = some b ∧
        (b = true ↔ ∀ n, i ≤ n → n < size → p n = q n) := by
  intro fuel
  induction fuel with
  | zero => intro i _ hf; omega
  | succ fuel ih =>
    intro i hi hf
    unfold palette_compare
    by_cases h1 : i < size
    · rw [if_pos h1]
      by_cases h2 : p i ≠ q i
      · rw [if_pos h2]
        refine ⟨false, rfl, ?_⟩
        constructor
        · intro h; cases h
        · intro h; exact absurd (h i (le_refl i) h1) h2
      · rw [if_neg h2]
        have h2' : p i = q i := not_not.mp h2
        have hmod : (i + 1) % wrap = i + 1 := Nat.mod_eq_of_lt (by omega)
        rw [hmod]
        obtain ⟨b, hb, hiff⟩ := ih (i + 1) (by omega) (by omega)
        refine ⟨b, hb, ?_⟩
        rw [hiff]
        constructor
        · intro h n hn1 hn2
          rcases Nat.eq_or_lt_of_le hn1 with e | e
          · rw [← e]; exact h2'
          · exact h n e hn2
        · intro h n hn1 hn2
          exact h n (by omega) hn2
    · rw [if_neg h1]
      refine ⟨true, rfl, ?_⟩
      constructor
      · intro _ n hn1 hn2; omega
      · intro _; rfl

theorem bytesCRGBW_eq_iff (entries rhs : Nat → CRGBW) (N : Nat) :
    (∀ n, 0 ≤ n → n < 4 * N → bytesCRGBW entries n = bytesCRGBW rhs n)
      ↔ ∀ k, k < N → entries k = rhs k := by
  constructor
  · intro h k hk
    have h0 := h (4 * k) (Nat.zero_le _) (by omega)
    have h1 := h (4 * k + 1) (Nat.zero_le _) (by omega)
    have h2 := h (4 * k + 2) (Nat.zero_le _) (by omega)
    have h3 := h (4 * k + 3) (Nat.zero_le _) (by omega)
    unfold bytesCRGBW at h0 h1 h2 h3
    have e0 : 4 * k / 4 = k := by omega
    have e1 : (4 * k + 1) / 4 = k := by omega
    have e2 : (4 * k + 2) / 4 = k := by omega
    have e3 : (4 * k + 3) / 4 = k := by omega
    have m0 : 4 * k % 4 = 0 := by omega
    have m1 : (4 * k + 1) % 4 = 1 := by omega
    have m2 : (4 * k + 2) % 4 = 2 := by omega
    have m3 : (4 * k + 3) % 4 = 3 := by omega
    rw [e0, m0] at h0
    rw [e1, m1] at h1
    rw [e2, m2] at h2
    rw [e3, m3] at h3
    cases he : entries k with
    | mk a b c d =>
      cases hr : rhs k with
      | mk a2 b2 c2 d2 =>
        rw [he, hr] at h0 h1 h2 h3
        simp only [CRGBW.raw] at h0 h1 h2 h3
        rw [h0, h1, h2, h3]
  · intro h n _ hn
    unfold bytesCRGBW
    rw [h (n / 4) (by omega)]

theorem bytesCHSV_eq_iff (entries rhs : Nat → CHSV) (N : Nat) :
    (∀ n, 0 ≤ n → n < 3 * N → bytesCHSV entries n = bytesCHSV rhs n)
      ↔ ∀ k, k < N → entries k = rhs k := by
  constructor
  · intro h k hk
    have h0 := h (3 * k) (Nat.zero_le _) (by omega)
    have h1 := h (3 * k + 1) (Nat.zero_le _) (by omega)
    have h2 := h (3 * k + 2) (Nat.zero_le _) (by omega)
    unfold bytesCHSV at h0 h1 h2
    have e0 : 3 * k / 3 = k := by omega
    have e1 : (3 * k + 1) / 3 = k := by omega
    have e2 : (3 * k + 2) / 3 = k := by omega
    have m0 : 3 * k % 3 = 0 := by omega
    have m1 : (3 * k + 1) % 3 = 1 := by omega
    have m2 : (3 * k + 2) % 3 = 2 := by omega
    rw [e0, m0] at h0
    rw [e1, m1] at h1
    rw [e2, m2] at h2
    cases he : entries k with
    | mk a b c =>
      cases hr : rhs k with
      | mk a2 b2 c2 =>
        rw [he, hr] at h0 h1 h2
        simp only [CHSV.raw] at h0 h1 h2
        rw [h0, h1, h2]
  · intro h n _ hn
    unfold bytesCHSV
    rw [h (n / 3) (by omega)]

/-- Content comparison of two `CRGBW` arrays of `N` entries by `palette_compare`. -/
theorem compare_CRGBW (wrap N fuel : Nat) (entries rhs : Nat → CRGBW) (hw : 4 * N < wrap)
    (hf : 4 * N < fuel) :
    ∃ b, palette_compare wrap (4 * N) (bytesCRGBW entries) (bytesCRGBW rhs) fuel 0 = some b ∧
      (b = true ↔ ∀ k, k < N → entries k = rhs k) := by
  obtain ⟨b, hb, hiff⟩ := palette_compare_spec wrap (4 * N) (bytesCRGBW entries)
    (bytesCRGBW rhs) hw fuel 0 (Nat.zero_le _) (by omega)
  exact ⟨b, hb, hiff.trans (bytesCRGBW_eq_iff entries rhs N)⟩

/-- Content comparison of two `CHSV` arrays of `N` entries by `palette_compare`. -/
theorem compare_CHSV (wrap N fuel : Nat) (entries rhs : Nat → CHSV) (hw : 3 * N < wrap)
    (hf : 3 * N < fuel) :
    ∃ b, palette_compare wrap (3 * N) (bytesCHSV entries) (bytesCHSV rhs) fuel 0 = some b ∧
      (b = true ↔ ∀ k, k < N → entries k = rhs k) := by
  obtain ⟨b, hb, hiff⟩ := palette_compare_spec wrap (3 * N) (bytesCHSV entries)
    (bytesCHSV rhs) hw fuel 0 (Nat.zero_le _) (by omega)
  exact ⟨b, hb, hiff.trans (bytesCHSV_eq_iff entries rhs N)⟩

/-- C15: for every two palettes `p`, `q` of the same type (`CRGBWPalette16`,
`CRGBWPalette32`, `CRGBWPalette256`, `CHSVPalette16`, `CHSVPalette32`, `CHSVPalette256`),
`p == q` returns, it returns true if and only if every entry of `p` equals the
corresponding entry of `q` (in every channel), and `p != q` returns the negation of
`p == q`. -/
theorem palette_operator_eq_content (fuel : Nat) (p q : Nat → CRGBW) (p' q' : Nat → CHSV)
    (hf : 1024 < fuel) :
    (∃ b, CRGBWPalette16.operator_eq fuel p q = some b ∧
      (b = true ↔ ∀ k, k < 16 → p k = q k) ∧
      CRGBWPalette16.operator_ne fuel p q = some (!b)) ∧
    (∃ b, CRGBWPalette32.operator_eq fuel p q = some b ∧
      (b = true ↔ ∀ k, k < 32 → p k = q k) ∧
      CRGBWPalette32.operator_ne fuel p q = some (!b)) ∧
    (∃ b, CRGBWPalette256.operator_eq fuel p q = some b ∧
      (b = true ↔ ∀ k, k < 256 → p k = q k) ∧
      CRGBWPalette256.operator_ne fuel p q = some (!b)) ∧
    (∃ b, CHSVPalette16.operator_eq fuel p' q' = some b ∧
      (b = true ↔ ∀ k, k < 16 → p' k = q' k) ∧
      CHSVPalette16.operator_ne fuel p' q' = some (!b)) ∧
    (∃ b, CHSVPalette32.operator_eq fuel p' q' = some b ∧
      (b = true ↔ ∀ k, k < 32 → p' k = q' k) ∧
      CHSVPalette32.operator_ne fuel p' q' = some (!b)) ∧
    (∃ b, CHSVPalette256.operator_eq fuel p' q' = some b ∧
      (b = true ↔ ∀ k, k < 256 → p' k = q' k) ∧
      CHSVPalette256.operator_ne fuel p' q' = some (!b)) := by
  refine ⟨?_, ?_, ?_, ?_, ?_, ?_⟩
  · obtain ⟨b, hb, hiff⟩ := compare_CRGBW 256 16 fuel p q (by omega) (by omega)
    refine ⟨b, hb, hiff, ?_⟩
    unfold CRGBWPalette16.operator_ne CRGBWPalette16.operator_eq
    rw [hb]; rfl
  · obtain ⟨b, hb, hiff⟩ := compare_CRGBW 256 32 fuel p q (by omega) (by omega)
    refine ⟨b, hb, hiff, ?_⟩
    unfold CRGBWPalette32.operator_ne CRGBWPalette32.operator_eq
    rw [hb]; rfl
  · obtain ⟨b, hb, hiff⟩ := compare_CRGBW 65536 256 fuel p q (by omega) (by omega)
    refine ⟨b, hb, hiff, ?_⟩
    unfold CRGBWPalette256.operator_ne CRGBWPalette256.operator_eq
    rw [hb]; rfl
  · obtain ⟨b, hb, hiff⟩ := compare_CHSV 256 16 fuel p' q' (by omega) (by omega)
    refine ⟨b, hb, hiff, ?_⟩
    unfold CHSVPalette16.operator_ne CHSVPalette16.operator_eq
    rw [hb]; rfl
  · obtain ⟨b, hb, hiff⟩ := compare_CHSV 256 32 fuel p' q' (by omega) (by omega)
    refine ⟨b, hb, hiff, ?_⟩
    unfold CHSVPalette32.operator_ne CHSVPalette32.operator_eq
    rw [hb]; rfl
  · obtain ⟨b, hb, hiff⟩ := compare_CHSV 65536 256 fuel p' q' (by omega) (by omega)
    refine ⟨b, hb, hiff, ?_⟩
    unfold CHSVPalette256.operator_ne CHSVPalette256.operator_eq
    rw [hb]; rfl

theorem palette_operator_eq_content_witness :
    (∃ b, CRGBWPalette16.operator_eq 1025 (fun _ => ⟨1, 2, 3, 4⟩) (fun _ => ⟨1, 2, 3, 5⟩) = some b ∧
      (b = true ↔ ∀ k, k < 16 → (fun _ => (⟨1, 2, 3, 4⟩ : CRGBW)) k = (fun _ => ⟨1, 2, 3, 5⟩) k) ∧
      CRGBWPalette16.operator_ne 1025 (fun _ => ⟨1, 2, 3, 4⟩) (fun _ => ⟨1, 2, 3, 5⟩)
        = some (!b)) ∧
    (∃ b, CRGBWPalette32.operator_eq 1025 (fun _ => ⟨1, 2, 3, 4⟩) (fun _ => ⟨1, 2, 3, 5⟩) = some b ∧
      (b = true ↔ ∀ k, k < 32 → (fun _ => (⟨1, 2, 3, 4⟩ : CRGBW)) k = (fun _ => ⟨1, 2, 3, 5⟩) k) ∧
      CRGBWPalette32.operator_ne 1025 (fun _ => ⟨1, 2, 3, 4⟩) (fun _ => ⟨1, 2, 3, 5⟩)
        = some (!b)) ∧
    (∃ b, CRGBWPalette256.operator_eq 1025 (fun _ => ⟨1, 2, 3, 4⟩) (fun _ => ⟨1, 2, 3, 5⟩) = some b ∧
      (b = true ↔ ∀ k, k < 256 → (fun _ => (⟨1, 2, 3, 4⟩ : CRGBW)) k = (fun _ => ⟨1, 2, 3, 5⟩) k) ∧
      CRGBWPalette256.operator_ne 1025 (fun _ => ⟨1, 2, 3, 4⟩) (fun _ => ⟨1, 2, 3, 5⟩)
        = some (!b)) ∧
    (∃ b, CHSVPalette16.operator_eq 1025 (fun _ => ⟨1, 2, 3⟩) (fun _ => ⟨1, 2, 3⟩) = some b ∧
      (b = true ↔ ∀ k, k < 16 → (fun _ => (⟨1, 2, 3⟩ : CHSV)) k = (fun _ => ⟨1, 2, 3⟩) k) ∧
      CHSVPalette16.operator_ne 1025 (fun _ => ⟨1, 2, 3⟩) (fun _ => ⟨1, 2, 3⟩) = some (!b)) ∧
    (∃ b, CHSVPalette32.operator_eq 1025 (fun _ => ⟨1, 2, 3⟩) (fun _ => ⟨1, 2, 3⟩) = some b ∧
      (b = true ↔ ∀ k, k < 32 → (fun _ => (⟨1, 2, 3⟩ : CHSV)) k = (fun _ => ⟨1, 2, 3⟩) k) ∧
      CHSVPalette32.operator_ne 1025 (fun _ => ⟨1, 2, 3⟩) (fun _ => ⟨1, 2, 3⟩) = some (!b)) ∧
    (∃ b, CHSVPalette256.operator_eq 1025 (fun _ => ⟨1, 2, 3⟩) (fun _ => ⟨1, 2, 3⟩) = some b ∧
      (b = true ↔ ∀ k, k < 256 → (fun _ => (⟨1, 2, 3⟩ : CHSV)) k = (fun _ => ⟨1, 2, 3⟩) k) ∧
      CHSVPalette256.operator_ne 1025 (fun _ => ⟨1, 2, 3⟩) (fun _ => ⟨1, 2, 3⟩) = some (!b)) :=
  palette_operator_eq_content 1025 (fun _ => ⟨1, 2, 3, 4⟩) (fun _ => ⟨1, 2, 3, 5⟩)
    (fun _ => ⟨1, 2, 3⟩) (fun _ => ⟨1, 2, 3⟩) (by decide)

/-- C16: for every integer index `x`, indexing a 256-entry palette (`CRGBWPalette256` or
`CHSVPalette256`) with `x` uses the index `x mod 256`, which is below 256, and yields the
entry of that number: no index goes out of bounds. -/
theorem palette256_index_wraps (x : Int) (entries : Nat → CRGBW) (entries' : Nat → CHSV) :
    CRGBWPalette256.index_int x = (x % 256).toNat ∧
    CRGBWPalette256.index_int x < 256 ∧
    CRGBWPalette256.operator_index_int entries x = some (entries ((x % 256).toNat)) ∧
    CRGBWPalette256.operator_index_uint8 entries x = some (entries ((x % 256).toNat)) ∧
    CHSVPalette256.index_int x = (x % 256).toNat ∧
    CHSVPalette256.index_int x < 256 ∧
    CHSVPalette256.operator_index_int entries' x = some (entries' ((x % 256).toNat)) ∧
    CHSVPalette256.operator_index_uint8 entries' x = some (entries' ((x % 256).toNat)) := by
  have h : toUInt8 x < 256 := by unfold toUInt8; omega
  refine ⟨rfl, h, ?_, ?_, rfl, h, ?_, ?_⟩
  · unfold CRGBWPalette256.operator_index_int CRGBWPalette256.index_int
    rw [if_pos h]; rfl
  · unfold CRGBWPalette256.operator_index_uint8
    rw [if_pos h]; rfl
  · unfold CHSVPalette256.operator_index_int CHSVPalette256.index_int
    rw [if_pos h]; rfl
  · unfold CHSVPalette256.operator_index_uint8
    rw [if_pos h]; rfl

/-! ## `map_data_into_colors_through_palette` -/

theorem map_data_loop_spec {PALETTE : Type}
    (ColorFromPalette : PALETTE → Nat → Nat → TBlendType → CRGBW)
    (dataArray : Nat → Nat) (dataCount : Nat) (pal : PALETTE) (brightness opacity : Nat)
    (blendType : TBlendType) (hc : dataCount < 65536) :
    ∀ (fuel i : Nat) (targetColorArray : Nat → CRGBW), i ≤ dataCount → dataCount - i < fuel →
      map_data_loop ColorFromPalette dataArray dataCount pal brightness opacity blendType fuel i
          targetColorArray
        = some (fun j => if i ≤ j ∧ j < dataCount then
            map_data_entry (targetColorArray j)
              (ColorFromPalette pal (dataArray j) brightness blendType) opacity
          else targetColorArray j) := by
  intro fuel
  induction fuel with
  | zero => intro i _ _ hf; omega
  | succ fuel ih =>
    intro i targetColorArray hi hf
    unfold map_data_loop
    by_cases h1 : i < dataCount
    · rw [if_pos h1]
      have hi1 : toUInt16 ((i : Int) + 1) = i + 1 := by
        have := toUInt16_of_nat (i + 1) (by omega)
        simpa using this
      simp only [hi1]
      rw [ih (i + 1) _ (by omega) (by omega)]
      congr 1
      funext j
      by_cases hj : j = i
      · subst hj
        have c1 : ¬ (j + 1 ≤ j ∧ j < dataCount) := by omega
        have c2 : j ≤ j ∧ j < dataCount := ⟨le_refl _, h1⟩
        rw [if_neg c1, if_pos c2, Function.update_same]
      · rw [Function.update_noteq hj]
        by_cases c1 : i + 1 ≤ j ∧ j < dataCount
        · have c2 : i ≤ j ∧ j < dataCount := by omega
          rw [if_pos c1, if_pos c2]
        · have c2 : ¬ (i ≤ j ∧ j < dataCount) := by omega
          rw [if_neg c1, if_neg c2]
    · rw [if_neg h1]
      congr 1
      funext j
      have c2 : ¬ (i ≤ j ∧ j < dataCount) := by omega
      rw [if_neg c2]

/-- C18: for every data array, palette, brightness and blend type,
`map_data_into_colors_through_palette` returns and changes only destination entries with
index `< dataCount`; with opacity 255 entry `i` becomes exactly
`ColorFromPalette(pal, data[i], brightness, blendType)`, and with opacity in 1..254 each
channel of entry `i` becomes
`qadd8(scale8(old channel, 256 - opacity), scale8_video(looked-up channel, opacity))`. -/
theorem map_data_spec {PALETTE : Type}
    (ColorFromPalette : PALETTE → Nat → Nat → TBlendType → CRGBW) (fuel : Nat)
    (dataArray : Nat → Nat) (dataCount : Nat) (targetColorArray : Nat → CRGBW)
    (pal : PALETTE) (brightness opacity : Nat) (blendType : TBlendType)
    (hc : dataCount < 65536) (hf : dataCount < fuel) :
    ∃ a, map_data_into_colors_through_palette ColorFromPalette fuel dataArray dataCount
        targetColorArray pal brightness opacity blendType = some a ∧
      (∀ j, dataCount ≤ j → a j = targetColorArray j) ∧
      (opacity = 255 → ∀ i, i < dataCount →
        a i = ColorFromPalette pal (dataArray i) brightness blendType) ∧
      (1 ≤ opacity → opacity ≤ 254 → ∀ i, i < dataCount →
        (a i).r = qadd8 (scale8 (targetColorArray i).r (256 - opacity))
          (scale8_video (ColorFromPalette pal (dataArray i) brightness blendType).r opacity) ∧
        (a i).g = qadd8 (scale8 (targetColorArray i).g (256 - opacity))
          (scale8_video (ColorFromPalette pal (dataArray i) brightness blendType).g opacity) ∧
        (a i).b = qadd8 (scale8 (targetColorArray i).b (256 - opacity))
          (scale8_video (ColorFromPalette pal (dataArray i) brightness blendType).b opacity) ∧
        (a i).w = qadd8 (scale8 (targetColorArray i).w (256 - opacity))
          (scale8_video (ColorFromPalette pal (dataArray i) brightness blendType).w opacity)) := by
  refine ⟨_, map_data_loop_spec ColorFromPalette dataArray dataCount pal brightness opacity
    blendType hc fuel 0 targetColorArray (Nat.zero_le _) (by omega), ?_, ?_, ?_⟩
  · intro j hj
    have c : ¬ (0 ≤ j ∧ j < dataCount) := by omega
    simp only [if_neg c]
  · intro ho i hi
    have c : 0 ≤ i ∧ i < dataCount := ⟨Nat.zero_le _, hi⟩
    simp only [if_pos c]
    unfold map_data_entry
    rw [if_pos ho]
  · intro h1 h2 i hi
    have c : 0 ≤ i ∧ i < dataCount := ⟨Nat.zero_le _, hi⟩
    have hs : toUInt8 (256 - (opacity : Int)) = 256 - opacity := by
      unfold toUInt8; omega
    simp only [if_pos c]
    unfold map_data_entry
    rw [if_neg (by omega), hs]
    exact ⟨rfl, rfl, rfl, rfl⟩

theorem map_data_spec_witness :
    ∃ a, map_data_into_colors_through_palette
        (fun (pal : Nat → CRGBW) d _ _ => pal d) 4 (fun i => i) 3
        (fun _ => ⟨100, 100, 100, 100⟩) (fun d => ⟨d, 2 * d, 0, 255⟩) 255 128
        TBlendType.LINEARBLEND = some a ∧
      (∀ j, 3 ≤ j → a j = (fun _ => (⟨100, 100, 100, 100⟩ : CRGBW)) j) ∧
      (128 = 255 → ∀ i, i < 3 →
        a i = (fun (pal : Nat → CRGBW) d _ _ => pal d) (fun d => ⟨d, 2 * d, 0, 255⟩)
          ((fun i => i) i) 255 TBlendType.LINEARBLEND) ∧
      (1 ≤ 128 → 128 ≤ 254 → ∀ i, i < 3 →
        (a i).r = qadd8 (scale8 ((fun _ => (⟨100, 100, 100, 100⟩ : CRGBW)) i).r (256 - 128))
          (scale8_video ((fun (pal : Nat → CRGBW) d _ _ => pal d) (fun d => ⟨d, 2 * d, 0, 255⟩)
            ((fun i => i) i) 255 TBlendType.LINEARBLEND).r 128) ∧
        (a i).g = qadd8 (scale8 ((fun _ => (⟨100, 100, 100, 100⟩ : CRGBW)) i).g (256 - 128))
          (scale8_video ((fun (pal : Nat → CRGBW) d _ _ => pal d) (fun d => ⟨d, 2 * d, 0, 255⟩)
            ((fun i => i) i) 255 TBlendType.LINEARBLEND).g 128) ∧
        (a i).b = qadd8 (scale8 ((fun _ => (⟨100, 100, 100, 100⟩ : CRGBW)) i).b (256 - 128))
          (scale8_video ((fun (pal : Nat → CRGBW) d _ _ => pal d) (fun d => ⟨d, 2 * d, 0, 255⟩)
            ((fun i => i) i) 255 TBlendType.LINEARBLEND).b 128) ∧
        (a i).w = qadd8 (scale8 ((fun _ => (⟨100, 100, 100, 100⟩ : CRGBW)) i).w (256 - 128))
          (scale8_video ((fun (pal : Nat → CRGBW) d _ _ => pal d) (fun d => ⟨d, 2 * d, 0, 255⟩)
            ((fun i => i) i) 255 TBlendType.LINEARBLEND).w 128)) :=
  map_data_spec (fun (pal : Nat → CRGBW) d _ _ => pal d) 4 (fun i => i) 3
    (fun _ => ⟨100, 100, 100, 100⟩) (fun d => ⟨d, 2 * d, 0, 255⟩) 255 128
    TBlendType.LINEARBLEND (by decide) (by decide)

/-! ## The boundary entry of the three-stop overload -/

theorem andThen_result (r₁ r₂ : Run) (targetArray : Nat → CHSV) :
    (r₁.andThen r₂).result targetArray
      = (r₁.result targetArray).bind (fun a => r₂.result a) := by
  unfold Run.andThen Run.result
  cases h1 : r₁.exited
  · simp [h1]
  · cases h2 : r₂.exited
    · simp [h2]
    · simp [h2, store, List.foldl_append]

/-- C11: for every `numLeds >= 1` and colours `c1`, `c2`, `c3` where `c2` has saturation
`> 0` and value `> 0`, the three-stop `fill_gradient` returns, and in the array it leaves
the boundary entry at index `numLeds/2` equals `c2` exactly: that index is stored to by
both spans, and the store of the second span (its first store, of its start colour `c2`)
is the one that remains. -/
theorem fill_gradient3_boundary (fuel numLeds : Nat) (c1 c2 c3 : CHSV)
    (dir : TGradientDirectionCode) (h1 : 1 ≤ numLeds) (h2 : numLeds < 65536)
    (hc2 : c2.wf) (hc3 : c3.wf) (hsat : 0 < c2.sat) (hval : 0 < c2.val)
    (hf : numLeds < fuel) :
    numLeds / 2 ∈ (fill_gradient fuel 0 c1 (numLeds / 2) c2 dir).indices ∧
    (fill_gradient fuel (numLeds / 2) c2 (numLeds - 1) c3 dir).writes[0]?
      = some (numLeds / 2, c2) ∧
    fill_gradient3 fuel numLeds c1 c2 c3 dir
      = (fill_gradient fuel 0 c1 (numLeds / 2) c2 dir).andThen
          (fill_gradient fuel (numLeds / 2) c2 (numLeds - 1) c3 dir) ∧
    ∀ targetArray : Nat → CHSV,
      ∃ a, (fill_gradient3 fuel numLeds c1 c2 c3 dir).result targetArray = some a ∧
        a (numLeds / 2) = c2 := by
  have hlast := toUInt16_pred numLeds h1 h2
  have hhalf : toUInt16 ((numLeds / 2 : Nat) : Int) = numLeds / 2 :=
    toUInt16_of_nat _ (by omega)
  have hle : numLeds / 2 ≤ numLeds - 1 := by omega
  have hstart : forceStartHue c2 (forceEndHue c2 c3) = c2 := by
    unfold forceStartHue
    rw [if_neg (by omega)]
  have hdef : fill_gradient3 fuel numLeds c1 c2 c3 dir
      = (fill_gradient fuel 0 c1 (numLeds / 2) c2 dir).andThen
          (fill_gradient fuel (numLeds / 2) c2 (numLeds - 1) c3 dir) := by
    unfold fill_gradient3
    simp only [hlast, hhalf]
  obtain ⟨hx1, hi1⟩ := fill_gradient_span fuel 0 (numLeds / 2) c1 c2 dir (by omega)
    (by omega) (by rw [Nat.zero_max, Nat.zero_min]; omega)
  refine ⟨?_, ?_, hdef, ?_⟩
  · rw [hi1, Nat.zero_max, Nat.zero_min]
    omega
  · rw [fill_gradient_of_le _ _ _ _ _ _ hle,
      ordered_nth fuel (numLeds / 2) (numLeds - 1) 0 c2 c3 dir (by omega) (by omega) (by omega),
      orderedEntry_zero _ _ _ _ _ hc2 hc3, hstart]
    rfl
  · intro targetArray
    obtain ⟨a1, ha1, -⟩ := run_frame _ hx1 targetArray
    rw [hdef, andThen_result, ha1]
    simp only [Option.some_bind]
    rw [fill_gradient_of_le _ _ _ _ _ _ hle,
      ordered_result fuel (numLeds / 2) (numLeds - 1) c2 c3 dir (by omega) hle (by omega) a1]
    refine ⟨_, rfl, ?_⟩
    have c : numLeds / 2 ≤ numLeds / 2 ∧ numLeds / 2 ≤ numLeds - 1 := ⟨le_refl _, hle⟩
    simp only [if_pos c, Nat.sub_self]
    rw [orderedEntry_zero _ _ _ _ _ hc2 hc3, hstart]

theorem fill_gradient3_boundary_witness :
    5 / 2 ∈ (fill_gradient 6 0 ⟨0, 255, 255⟩ (5 / 2) ⟨64, 200, 100⟩ SHORTEST_HUES).indices ∧
    (fill_gradient 6 (5 / 2) ⟨64, 200, 100⟩ (5 - 1) ⟨128, 0, 0⟩ SHORTEST_HUES).writes[0]?
      = some (5 / 2, ⟨64, 200, 100⟩) ∧
    fill_gradient3 6 5 ⟨0, 255, 255⟩ ⟨64, 200, 100⟩ ⟨128, 0, 0⟩ SHORTEST_HUES
      = (fill_gradient 6 0 ⟨0, 255, 255⟩ (5 / 2) ⟨64, 200, 100⟩ SHORTEST_HUES).andThen
          (fill_gradient 6 (5 / 2) ⟨64, 200, 100⟩ (5 - 1) ⟨128, 0, 0⟩ SHORTEST_HUES) ∧
    ∀ targetArray : Nat → CHSV,
      ∃ a, (fill_gradient3 6 5 ⟨0, 255, 255⟩ ⟨64, 200, 100⟩ ⟨128, 0, 0⟩ SHORTEST_HUES).result
          targetArray = some a ∧
        a (5 / 2) = ⟨64, 200, 100⟩ :=
  fill_gradient3_boundary 6 5 ⟨0, 255, 255⟩ ⟨64, 200, 100⟩ ⟨128, 0, 0⟩ SHORTEST_HUES
    (by decide) (by decide) (by decide) (by decide) (by decide) (by decide) (by decide)

/-! ## Loading compact gradient descriptions -/

theorem fill_gradient_RGB_channel_zero (c0 c1 N : Nat) (h : c0 < 256) :
    fill_gradient_RGB_channel c0 c1 N 0 = c0 := by
  unfold fill_gradient_RGB_channel toUInt8 accum88 toUInt16
  simp only [Nat.cast_zero, zero_mul, add_zero]
  omega

theorem fill_gradient_RGB_start (leds : Nat → CRGBW) (startpos endpos : Nat)
    (startcolor endcolor : CRGBW) (hle : startpos ≤ endpos) (hs : startcolor.wf) :
    fill_gradient_RGB leds startpos startcolor endpos endcolor startpos = startcolor := by
  unfold fill_gradient_RGB
  rw [if_neg (by omega)]
  unfold fill_gradient_RGB_ordered
  have c : startpos ≤ startpos ∧ startpos ≤ endpos := ⟨le_refl _, hle⟩
  simp only [if_pos c, Nat.sub_self]
  rw [fill_gradient_RGB_channel_zero _ _ _ hs.1, fill_gradient_RGB_channel_zero _ _ _ hs.2.1,
    fill_gradient_RGB_channel_zero _ _ _ hs.2.2.1, fill_gradient_RGB_channel_zero _ _ _ hs.2.2.2]

theorem fill_gradient_RGB_frame (leds : Nat → CRGBW) (startpos endpos j : Nat)
    (startcolor endcolor : CRGBW) (hle : startpos ≤ endpos) (hj : j < startpos ∨ endpos < j) :
    fill_gradient_RGB leds startpos startcolor endpos endcolor j = leds j := by
  unfold fill_gradient_RGB
  rw [if_neg (by omega)]
  unfold fill_gradient_RGB_ordered
  have c : ¬ (startpos ≤ j ∧ j ≤ endpos) := by omega
  simp only [if_neg c]

theorem applySpans_cons (entries : Nat → CRGBW) (s : GradientSpan) (spans : List GradientSpan) :
    applySpans entries (s :: spans)
      = applySpans (fill_gradient_RGB entries s.istart8 s.rgbstart s.iend8 s.rgbend) spans := by
  unfold applySpans
  rfl

theorem applySpans_frame (spans : List GradientSpan) :
    ∀ (entries : Nat → CRGBW) (j : Nat),
      (∀ s ∈ spans, j < s.istart8 ∧ s.istart8 ≤ s.iend8) → applySpans entries spans j = entries j := by
  induction spans with
  | nil => intro entries j _; rfl
  | cons s spans ih =>
    intro entries j h
    rw [applySpans_cons, ih _ j (fun t ht => h t (List.mem_cons_of_mem _ ht))]
    have hs := h s (List.mem_cons_self _ _)
    exact fill_gradient_RGB_frame entries _ _ j _ _ hs.2 (Or.inl hs.1)

/-- The loop that counts the entries returns the number of entries when the last entry is
the first one at position 255 and there are at most 65536 entries. -/
theorem countEntries_done (init : List TRGBGradientPaletteEntryUnion)
    (last : TRGBGradientPaletteEntryUnion) (h255 : last.index = 255)
    (hne : ∀ u ∈ init, u.index < 255) (hlen : init.length < 65536) :
    ∀ (fuel count : Nat), count ≤ init.length → init.length - count < fuel →
      countEntries (init ++ [last]) fuel count
        = Outcome.done (toUInt16 ((init.length : Int) + 1)) := by
  intro fuel
  induction fuel with
  | zero => intro count _ hf; omega
  | succ fuel ih =>
    intro count hc hf
    unfold countEntries
    rcases Nat.eq_or_lt_of_le hc with e | e
    · subst e
      have hget : (init ++ [last])[init.length]? = some last := by
        rw [List.getElem?_append_right (le_refl _)]
        simp
      rw [hget]
      simp only [h255, ne_eq, not_true_eq_false, if_false]
    · have hget : (init ++ [last])[count]? = some (init.get ⟨count, e⟩) := by
        rw [List.getElem?_append_left e]
        exact List.getElem?_eq_getElem e
      rw [hget]
      have hidx : (init.get ⟨count, e⟩).index < 255 := hne _ (List.get_mem _ _ _)
      have hnot : (init.get ⟨count, e⟩).index ≠ 255 := by omega
      simp only [hnot, ne_eq, not_false_eq_true, if_true]
      have hc1 : toUInt16 ((count : Int) + 1) = count + 1 := by
        have := toUInt16_of_nat (count + 1) (by omega)
        simpa using this
      rw [hc1]
      exact ih (count + 1) (by omega) (by omega)

theorem loadLoop_cons (step lastSlot count : Nat) (u : TRGBGradientPaletteEntryUnion)
    (ent : List TRGBGradientPaletteEntryUnion) (indexstart : Nat) (rgbstart : CRGBW)
    (lastSlotUsed : Int) (hi : indexstart < 255) :
    loadLoop step lastSlot count (u :: ent) indexstart rgbstart lastSlotUsed
      = (loadLoop step lastSlot count ent u.index u.rgbw
          (adjustSlots lastSlot count (toUInt8 ((indexstart / step : Nat) : Int))
            (toUInt8 ((u.index / step : Nat) : Int)) lastSlotUsed).2.2).map
          (fun rest =>
            (⟨(adjustSlots lastSlot count (toUInt8 ((indexstart / step : Nat) : Int))
                (toUInt8 ((u.index / step : Nat) : Int)) lastSlotUsed).1, rgbstart,
              (adjustSlots lastSlot count (toUInt8 ((indexstart / step : Nat) : Int))
                (toUInt8 ((u.index / step : Nat) : Int)) lastSlotUsed).2.1, u.rgbw⟩
              : GradientSpan) :: rest) := by
  rw [loadLoop]
  simp only [if_pos hi]

theorem loadLoop_stop (step lastSlot count : Nat)
    (ent : List TRGBGradientPaletteEntryUnion) (indexstart : Nat) (rgbstart : CRGBW)
    (lastSlotUsed : Int) (hi : ¬ indexstart < 255) :
    loadLoop step lastSlot count ent indexstart rgbstart lastSlotUsed = some [] := by
  cases ent with
  | nil => rw [loadLoop]; simp only [if_neg hi]
  | cons u ent => rw [loadLoop]; simp only [if_neg hi]

theorem loadLoop256_cons (u : TRGBGradientPaletteEntryUnion)
    (ent : List TRGBGradientPaletteEntryUnion) (indexstart : Nat) (rgbstart : CRGBW)
    (hi : indexstart < 255) :
    loadLoop256 (u :: ent) indexstart rgbstart
      = (loadLoop256 ent u.index u.rgbw).map
          (fun rest =>
            (⟨toUInt16 (indexstart : Int), rgbstart, toUInt16 (u.index : Int), u.rgbw⟩
              : GradientSpan) :: rest) := by
  rw [loadLoop256]
  simp only [if_pos hi]

theorem loadLoop256_stop (ent : List TRGBGradientPaletteEntryUnion) (indexstart : Nat)
    (rgbstart : CRGBW) (hi : ¬ indexstart < 255) :
    loadLoop256 ent indexstart rgbstart = some [] := by
  cases ent with
  | nil => rw [loadLoop256]; simp only [if_neg hi]
  | cons u ent => rw [loadLoop256]; simp only [if_neg hi]

/-- The main loop of the 16- and 32-entry loaders reads exactly the entries up to the
first one at position 255. -/
theorem loadLoop_done (step lastSlot count : Nat) (last : TRGBGradientPaletteEntryUnion)
    (h255 : last.index = 255) :
    ∀ (init : List TRGBGradientPaletteEntryUnion) (indexstart : Nat) (rgbstart : CRGBW)
      (lastSlotUsed : Int), (∀ u ∈ init, u.index < 255) → indexstart < 255 →
      ∃ spans, loadLoop step lastSlot count (init ++ [last]) indexstart rgbstart lastSlotUsed
          = some spans ∧ spans.length = init.length + 1 := by
  intro init
  induction init with
  | nil =>
    intro indexstart rgbstart lastSlotUsed _ hi
    rw [List.nil_append, loadLoop_cons _ _ _ _ _ _ _ _ hi,
      loadLoop_stop _ _ _ _ _ _ _ (by omega)]
    exact ⟨_, rfl, rfl⟩
  | cons u init ih =>
    intro indexstart rgbstart lastSlotUsed hne hi
    have hu : u.index < 255 := hne u (List.mem_cons_self _ _)
    obtain ⟨spans, hs, hl⟩ := ih u.index u.rgbw
      (adjustSlots lastSlot count (toUInt8 ((indexstart / step : Nat) : Int))
        (toUInt8 ((u.index / step : Nat) : Int)) lastSlotUsed).2.2
      (fun v hv => hne v (List.mem_cons_of_mem _ hv)) hu
    rw [List.cons_append, loadLoop_cons _ _ _ _ _ _ _ _ hi, hs]
    exact ⟨_, rfl, by simp [hl]⟩

theorem loadLoop256_done (last : TRGBGradientPaletteEntryUnion) (h255 : last.index = 255) :
    ∀ (init : List TRGBGradientPaletteEntryUnion) (indexstart : Nat) (rgbstart : CRGBW),
      (∀ u ∈ init, u.index < 255) → indexstart < 255 →
      ∃ spans, loadLoop256 (init ++ [last]) indexstart rgbstart = some spans ∧
        spans.length = init.length + 1 := by
  intro init
  induction init with
  | nil =>
    intro indexstart rgbstart _ hi
    rw [List.nil_append, loadLoop256_cons _ _ _ _ hi, loadLoop256_stop _ _ _ (by omega)]
    exact ⟨_, rfl, rfl⟩
  | cons u init ih =>
    intro indexstart rgbstart hne hi
    have hu : u.index < 255 := hne u (List.mem_cons_self _ _)
    obtain ⟨spans, hs, hl⟩ := ih u.index u.rgbw
      (fun v hv => hne v (List.mem_cons_of_mem _ hv)) hu
    rw [List.cons_append, loadLoop256_cons _ _ _ _ hi, hs]
    exact ⟨_, rfl, by simp [hl]⟩

theorem loadSpans_done (step lastSlot fuel : Nat) (first last : TRGBGradientPaletteEntryUnion)
    (mid : List TRGBGradientPaletteEntryUnion) (h255 : last.index = 255)
    (hfirst : first.index < 255) (hne : ∀ u ∈ mid, u.index < 255)
    (hlen : mid.length + 1 < 65536) (hf : mid.length + 1 < fuel) :
    ∃ spans, loadSpans step lastSlot fuel (first :: (mid ++ [last])) = Outcome.done spans ∧
      loadLoop step lastSlot (toUInt16 (((mid.length + 1 : Nat) : Int) + 1)) (mid ++ [last]) 0
        first.rgbw (-1) = some spans ∧
      spans.length = mid.length + 1 := by
  have hmem : ∀ u ∈ first :: mid, u.index < 255 := by
    intro u hu
    rcases List.mem_cons.mp hu with e | e
    · rw [e]; exact hfirst
    · exact hne u e
  have hl1 : (first :: mid).length = mid.length + 1 := List.length_cons _ _
  have hc := countEntries_done (first :: mid) last h255 hmem (by omega) fuel 0
    (Nat.zero_le _) (by omega)
  rw [hl1] at hc
  obtain ⟨spans, hs, hl⟩ := loadLoop_done step lastSlot
    (toUInt16 (((mid.length + 1 : Nat) : Int) + 1)) last h255 mid 0 first.rgbw (-1) hne
    (by omega)
  refine ⟨spans, ?_, hs, hl⟩
  unfold loadSpans
  rw [← List.cons_append, hc]
  simp only [List.cons_append, hs]

/-- A description of 65536 entries at position 0 followed by the entry at position 255:
the 16-bit counter of the counting loop wraps to 0 before the last entry is reached. -/
theorem countEntries_wraps (n : Nat) (hn : 65536 ≤ n) (u t : TRGBGradientPaletteEntryUnion)
    (hu : u.index ≠ 255) (fuel : Nat) :
    ∀ count, count < 65536 →
      countEntries (List.replicate n u ++ [t]) fuel count = Outcome.timeout := by
  induction fuel with
  | zero => intro count _; rfl
  | succ fuel ih =>
    intro count hc
    unfold countEntries
    have hlen : count < (List.replicate n u).length := by
      rw [List.length_replicate]; omega
    have hget : (List.replicate n u ++ [t])[count]? = some u := by
      rw [List.getElem?_append_left hlen, List.getElem?_eq_getElem hlen,
        List.getElem_replicate]
    rw [hget]
    simp only [hu, ne_eq, not_false_eq_true, if_true]
    exact ih _ (toUInt16_lt _)

/-- C14 (as stated, refuted): the description that consists of the single entry
`(255, 1, 2, 3, 4)` ends with its first entry at position 255, but each of the three loaders
reads the entry after it (the loop starts from `indexstart = 0` and reads the next entry
before testing anything); and on a description of 65536 entries at position 0 followed by
the entry at position 255 the counting loop of the 16- and 32-entry loaders never ends, as
its `uint16_t` counter wraps to 0. -/
theorem load_single_entry_out_of_bounds :
    (∀ fuel entries, CRGBWPalette16.loadDynamicGradientPalette (fuel + 1) entries
      [⟨255, 1, 2, 3, 4⟩] = Outcome.outOfBounds) ∧
    (∀ fuel entries, CRGBWPalette32.loadDynamicGradientPalette (fuel + 1) entries
      [⟨255, 1, 2, 3, 4⟩] = Outcome.outOfBounds) ∧
    (∀ entries, CRGBWPalette256.loadDynamicGradientPalette entries
      [⟨255, 1, 2, 3, 4⟩] = Outcome.outOfBounds) ∧
    (∀ fuel entries, CRGBWPalette16.loadDynamicGradientPalette fuel entries
      (List.replicate 65536 ⟨0, 0, 0, 0, 0⟩ ++ [⟨255, 0, 0, 0, 0⟩]) = Outcome.timeout) ∧
    (∀ fuel entries, CRGBWPalette32.loadDynamicGradientPalette fuel entries
      (List.replicate 65536 ⟨0, 0, 0, 0, 0⟩ ++ [⟨255, 0, 0, 0, 0⟩]) = Outcome.timeout) := by
  refine ⟨fun _ _ => rfl, fun _ _ => rfl, fun _ => rfl, ?_, ?_⟩
  · intro fuel entries
    unfold CRGBWPalette16.loadDynamicGradientPalette
      CRGBWPalette16.loadDynamicGradientPalette_spans loadSpans
    rw [countEntries_wraps 65536 (le_refl _) _ _ (by decide) fuel 0 (by decide)]
  · intro fuel entries
    unfold CRGBWPalette32.loadDynamicGradientPalette
      CRGBWPalette32.loadDynamicGradientPalette_spans loadSpans
    rw [countEntries_wraps 65536 (le_refl _) _ _ (by decide) fuel 0 (by decide)]

/-- C14 (amended): for every compact gradient description of at least two and at most
65536 entries whose final entry is its first entry at position 255, loading it into a 16-,
32- or 256-entry palette returns, having read only entries of the description (no entry
past the terminator is read). -/
theorem load_terminates (fuel : Nat) (entries : Nat → CRGBW)
    (first last : TRGBGradientPaletteEntryUnion) (mid : List TRGBGradientPaletteEntryUnion)
    (h255 : last.index = 255) (hfirst : first.index < 255)
    (hne : ∀ u ∈ mid, u.index < 255) (hlen : mid.length + 2 ≤ 65536)
    (hf : mid.length + 1 < fuel) :
    (∃ pal, CRGBWPalette16.loadDynamicGradientPalette fuel entries (first :: (mid ++ [last]))
      = Outcome.done pal) ∧
    (∃ pal, CRGBWPalette32.loadDynamicGradientPalette fuel entries (first :: (mid ++ [last]))
      = Outcome.done pal) ∧
    (∃ pal, CRGBWPalette256.loadDynamicGradientPalette entries (first :: (mid ++ [last]))
      = Outcome.done pal) := by
  refine ⟨?_, ?_, ?_⟩
  · obtain ⟨spans, hs, -, -⟩ := loadSpans_done 16 15 fuel first last mid h255 hfirst hne
      (by omega) hf
    refine ⟨applySpans entries spans, ?_⟩
    unfold CRGBWPalette16.loadDynamicGradientPalette
      CRGBWPalette16.loadDynamicGradientPalette_spans
    rw [hs]
  · obtain ⟨spans, hs, -, -⟩ := loadSpans_done 8 31 fuel first last mid h255 hfirst hne
      (by omega) hf
    refine ⟨applySpans entries spans, ?_⟩
    unfold CRGBWPalette32.loadDynamicGradientPalette
      CRGBWPalette32.loadDynamicGradientPalette_spans
    rw [hs]
  · obtain ⟨spans, hs, -⟩ := loadLoop256_done last h255 mid 0 first.rgbw hne (by omega)
    refine ⟨applySpans entries spans, ?_⟩
    unfold CRGBWPalette256.loadDynamicGradientPalette
      CRGBWPalette256.loadDynamicGradientPalette_spans
    simp only [hs]

theorem load_terminates_witness :
    (∃ pal, CRGBWPalette16.loadDynamicGradientPalette 4 (fun _ => ⟨0, 0, 0, 0⟩)
      (⟨0, 0, 0, 0, 0⟩ :: ([⟨192, 255, 0, 0, 0⟩] ++ [⟨255, 255, 255, 255, 0⟩]))
      = Outcome.done pal) ∧
    (∃ pal, CRGBWPalette32.loadDynamicGradientPalette 4 (fun _ => ⟨0, 0, 0, 0⟩)
      (⟨0, 0, 0, 0, 0⟩ :: ([⟨192, 255, 0, 0, 0⟩] ++ [⟨255, 255, 255, 255, 0⟩]))
      = Outcome.done pal) ∧
    (∃ pal, CRGBWPalette256.loadDynamicGradientPalette (fun _ => ⟨0, 0, 0, 0⟩)
      (⟨0, 0, 0, 0, 0⟩ :: ([⟨192, 255, 0, 0, 0⟩] ++ [⟨255, 255, 255, 255, 0⟩]))
      = Outcome.done pal) :=
  load_terminates 4 (fun _ => ⟨0, 0, 0, 0⟩) ⟨0, 0, 0, 0, 0⟩ ⟨255, 255, 255, 255, 0⟩
    [⟨192, 255, 0, 0, 0⟩] (by decide) (by decide) (by decide) (by decide) (by decide)

/-- C12: loading the compact gradient description
`[(0,0,0,0,0), (124,0,0,0,0), (125,255,0,0,0), (126,0,0,0,0), (255,0,0,0,0)]` into a
16-entry palette (whatever the palette held before) returns a palette in which at least
one slot has red `> 0`: slot 9 holds the red stop `(255, 0, 0, 0)`. -/
theorem narrow_stripe_kept (entries : Nat → CRGBW) :
    ∃ pal, CRGBWPalette16.loadDynamicGradientPalette 6 entries
        [⟨0, 0, 0, 0, 0⟩, ⟨124, 0, 0, 0, 0⟩, ⟨125, 255, 0, 0, 0⟩, ⟨126, 0, 0, 0, 0⟩,
          ⟨255, 0, 0, 0, 0⟩] = Outcome.done pal ∧
      pal 9 = ⟨255, 0, 0, 0⟩ ∧
      ∃ i, i < 16 ∧ 0 < (pal i).r := by
  have hspans : CRGBWPalette16.loadDynamicGradientPalette_spans 6
      [⟨0, 0, 0, 0, 0⟩, ⟨124, 0, 0, 0, 0⟩, ⟨125, 255, 0, 0, 0⟩, ⟨126, 0, 0, 0, 0⟩,
        ⟨255, 0, 0, 0, 0⟩]
      = Outcome.done [⟨0, ⟨0, 0, 0, 0⟩, 7, ⟨0, 0, 0, 0⟩⟩, ⟨8, ⟨0, 0, 0, 0⟩, 8, ⟨255, 0, 0, 0⟩⟩,
          ⟨9, ⟨255, 0, 0, 0⟩, 9, ⟨0, 0, 0, 0⟩⟩, ⟨10, ⟨0, 0, 0, 0⟩, 15, ⟨0, 0, 0, 0⟩⟩] := by
    decide
  have h9 : applySpans entries [⟨0, ⟨0, 0, 0, 0⟩, 7, ⟨0, 0, 0, 0⟩⟩,
      ⟨8, ⟨0, 0, 0, 0⟩, 8, ⟨255, 0, 0, 0⟩⟩, ⟨9, ⟨255, 0, 0, 0⟩, 9, ⟨0, 0, 0, 0⟩⟩,
      ⟨10, ⟨0, 0, 0, 0⟩, 15, ⟨0, 0, 0, 0⟩⟩] 9 = ⟨255, 0, 0, 0⟩ := by
    rw [applySpans_cons, applySpans_cons, applySpans_cons,
      applySpans_frame _ _ 9 (by decide)]
    exact fill_gradient_RGB_start _ 9 9 _ _ (le_refl _) (by decide)
  refine ⟨_, ?_, h9, 9, by decide, ?_⟩
  · unfold CRGBWPalette16.loadDynamicGradientPalette
    rw [hspans]
  · rw [h9]
    decide

/-! ## Which stops keep a slot of their own -/

theorem toUInt8_of_nat (n : Nat) (h : n < 256) : toUInt8 (n : Int) = n := by
  unfold toUInt8; omega

theorem adjustSlots_chain (lastSlot count istart8 iend8 : Nat) (L : Int) (hc : count < 16)
    (hls : lastSlot ≤ 127) (hL1 : -1 ≤ L) (hL2 : L < lastSlot)
    (hJ : (L = -1 ∧ istart8 = 0) ∨ (0 ≤ L ∧ (istart8 : Int) ≤ L)) (hiend : iend8 ≤ lastSlot) :
    ((adjustSlots lastSlot count istart8 iend8 L).1 : Int) = L + 1 ∧
    (adjustSlots lastSlot count istart8 iend8 L).1 ≤ (adjustSlots lastSlot count istart8 iend8 L).2.1 ∧
    (adjustSlots lastSlot count istart8 iend8 L).2.1 ≤ lastSlot ∧
    (adjustSlots lastSlot count istart8 iend8 L).2.2
      = ((adjustSlots lastSlot count istart8 iend8 L).2.1 : Int) ∧
    iend8 ≤ (adjustSlots lastSlot count istart8 iend8 L).2.1 := by
  unfold adjustSlots
  rw [if_pos hc]
  by_cases h1 : (istart8 : Int) ≤ L ∧ L < (lastSlot : Int)
  · rw [if_pos h1]
    have e : toUInt8 (L + 1) = (L + 1).toNat := by unfold toUInt8; omega
    simp only [e]
    by_cases h2 : iend8 < (L + 1).toNat
    · simp only [if_pos h2]
      unfold toInt8
      omega
    · simp only [if_neg h2]
      unfold toInt8
      omega
  · rw [if_neg h1]
    simp only
    unfold toInt8
    omega

theorem loadLoop_colours (step lastSlot count : Nat) :
    ∀ (ent : List TRGBGradientPaletteEntryUnion) (indexstart : Nat) (rgbstart : CRGBW)
      (L : Int) (spans : List GradientSpan),
      loadLoop step lastSlot count ent indexstart rgbstart L = some spans →
      ∀ (k : Nat) (s : GradientSpan), spans[k]? = some s →
        (rgbstart :: ent.map TRGBGradientPaletteEntryUnion.rgbw)[k]? = some s.rgbstart := by
  intro ent
  induction ent with
  | nil =>
    intro indexstart rgbstart L spans h k s hs
    rw [loadLoop] at h
    split at h
    · cases h
    · cases h
      simp at hs
  | cons u rest ih =>
    intro indexstart rgbstart L spans h k s hs
    by_cases hi : indexstart < 255
    · rw [loadLoop_cons _ _ _ _ _ _ _ _ hi] at h
      obtain ⟨spans', h', rfl⟩ := Option.map_eq_some'.mp h
      cases k with
      | zero =>
        simp only [List.getElem?_cons_zero, Option.some.injEq] at hs
        rw [← hs]
        rfl
      | succ k =>
        simp only [List.getElem?_cons_succ] at hs
        have := ih _ _ _ _ h' k s hs
        simpa using this
    · rw [loadLoop_stop _ _ _ _ _ _ _ hi] at h
      cases h
      simp at hs

theorem loadLoop_chain (step lastSlot count : Nat)
    (hls : 255 / step ≤ lastSlot) (hls2 : lastSlot ≤ 127) (hc : count < 16) :
    ∀ (ent : List TRGBGradientPaletteEntryUnion) (indexstart : Nat) (rgbstart : CRGBW)
      (L : Int) (spans : List GradientSpan),
      loadLoop step lastSlot count ent indexstart rgbstart L = some spans →
      ((L = -1 ∧ indexstart = 0) ∨ (0 ≤ L ∧ ((indexstart / step : Nat) : Int) ≤ L)) →
      -1 ≤ L → L < lastSlot → indexstart < 256 → (∀ u ∈ ent, u.wf) → rgbstart.wf →
      (∀ (k : Nat) (s : GradientSpan), k + 1 < spans.length → spans[k]? = some s →
        s.iend8 < lastSlot) →
      (∀ s ∈ spans, L < (s.istart8 : Int) ∧ s.istart8 ≤ s.iend8 ∧ s.iend8 ≤ lastSlot) ∧
      (∀ (entries : Nat → CRGBW) (k : Nat) (s : GradientSpan), spans[k]? = some s →
        applySpans entries spans s.istart8 = s.rgbstart) := by
  intro ent
  induction ent with
  | nil =>
    intro indexstart rgbstart L spans h _ _ _ _ _ _ _
    have hnil : spans = [] := by
      rw [loadLoop] at h
      split at h
      · cases h
      · cases h; rfl
    subst hnil
    constructor
    · intro s hs; cases hs
    · intro _ k s hs; simp at hs
  | cons u rest ih =>
    intro indexstart rgbstart L spans h hJ hL1 hL2 hidx hwf hrgb hH
    by_cases hi : indexstart < 255
    · have huwf : u.wf := hwf u (List.mem_cons_self _ _)
      have hu : u.index < 256 := huwf.1
      have hdiv1 : indexstart / step ≤ 255 / step := Nat.div_le_div_right (by omega)
      have hdiv2 : u.index / step ≤ 255 / step := Nat.div_le_div_right (by omega)
      have hdiv3 : 255 / step ≤ 255 := Nat.div_le_self _ _
      have e1 : toUInt8 ((indexstart / step : Nat) : Int) = indexstart / step :=
        toUInt8_of_nat _ (by omega)
      have e2 : toUInt8 ((u.index / step : Nat) : Int) = u.index / step :=
        toUInt8_of_nat _ (by omega)
      rw [loadLoop_cons _ _ _ _ _ _ _ _ hi, e1, e2] at h
      obtain ⟨spans', h', rfl⟩ := Option.map_eq_some'.mp h
      have hJ' : (L = -1 ∧ indexstart / step = 0) ∨
          (0 ≤ L ∧ ((indexstart / step : Nat) : Int) ≤ L) := by
        rcases hJ with ⟨a, b⟩ | c
        · left; exact ⟨a, by rw [b]; exact Nat.zero_div _⟩
        · right; exact c
      obtain ⟨a1, a2, a3, a4, a5⟩ := adjustSlots_chain lastSlot count (indexstart / step)
        (u.index / step) L hc hls2 hL1 hL2 hJ' (by omega)
      generalize adjustSlots lastSlot count (indexstart / step) (u.index / step) L = r at *
      have hstart : ∀ entries : Nat → CRGBW,
          fill_gradient_RGB entries r.1 rgbstart r.2.1 u.rgbw r.1 = rgbstart :=
        fun entries => fill_gradient_RGB_start entries _ _ _ _ a2 hrgb
      cases spans' with
      | nil =>
        constructor
        · intro s hs
          rw [List.mem_singleton] at hs
          subst hs
          exact ⟨by simp only; omega, a2, a3⟩
        · intro entries k s hs
          cases k with
          | zero =>
            simp only [List.getElem?_cons_zero, Option.some.injEq] at hs
            subst hs
            rw [applySpans_cons]
            exact hstart entries
          | succ k => simp at hs
      | cons s1 rest' =>
        have hlt : r.2.1 < lastSlot :=
          hH 0 ⟨r.1, rgbstart, r.2.1, u.rgbw⟩
            (by simp only [List.length_cons]; omega) (List.getElem?_cons_zero)
        obtain ⟨m1, m2⟩ := ih u.index u.rgbw r.2.2 (s1 :: rest') h'
          (Or.inr ⟨by omega, by omega⟩) (by omega) (by omega) hu
          (fun v hv => hwf v (List.mem_cons_of_mem _ hv))
          ⟨huwf.2.1, huwf.2.2.1, huwf.2.2.2.1, huwf.2.2.2.2⟩
          (fun k s hk hs => hH (k + 1) s (by simpa using hk) (by simpa using hs))
        constructor
        · intro s hs
          rcases List.mem_cons.mp hs with e | e
          · subst e
            exact ⟨by simp only; omega, a2, a3⟩
          · obtain ⟨b1, b2, b3⟩ := m1 s e
            exact ⟨by omega, b2, b3⟩
        · intro entries k s hs
          cases k with
          | zero =>
            simp only [List.getElem?_cons_zero, Option.some.injEq] at hs
            subst hs
            rw [applySpans_cons, applySpans_frame _ _ _ (fun t ht => by
              obtain ⟨b1, b2, -⟩ := m1 t ht
              exact ⟨by simp only; omega, b2⟩)]
            exact hstart entries
          | succ k =>
            simp only [List.getElem?_cons_succ] at hs
            rw [applySpans_cons]
            exact m2 _ k s hs
    · rw [loadLoop_stop _ _ _ _ _ _ _ hi] at h
      cases h
      constructor
      · intro s hs; cases hs
      · intro _ k s hs; simp at hs

/-- C13 (as stated, refuted): the well-formed description
`[(0, black), (250, red), (251, green), (255, blue)]` has four stops, but after loading it
into a 16-entry palette no slot holds its red stop `(255, 0, 0, 0)` and no slot holds its
blue stop `(0, 0, 255, 0)`: slot 15 is written three times and keeps green, and the colour
of the last stop is never the start colour of a span. -/
theorem load16_loses_stops :
    ∃ pal, CRGBWPalette16.loadDynamicGradientPalette 5 (fun _ => ⟨0, 0, 0, 0⟩)
        [⟨0, 0, 0, 0, 0⟩, ⟨250, 255, 0, 0, 0⟩, ⟨251, 0, 255, 0, 0⟩, ⟨255, 0, 0, 255, 0⟩]
        = Outcome.done pal ∧
      (∀ i, i < 16 → pal i ≠ ⟨255, 0, 0, 0⟩) ∧ (∀ i, i < 16 → pal i ≠ ⟨0, 0, 255, 0⟩) ∧
      pal 14 = ⟨238, 0, 0, 0⟩ ∧ pal 15 = ⟨0, 255, 0, 0⟩ := by
  have hspans : CRGBWPalette16.loadDynamicGradientPalette_spans 5
      [⟨0, 0, 0, 0, 0⟩, ⟨250, 255, 0, 0, 0⟩, ⟨251, 0, 255, 0, 0⟩, ⟨255, 0, 0, 255, 0⟩]
      = Outcome.done [⟨0, ⟨0, 0, 0, 0⟩, 15, ⟨255, 0, 0, 0⟩⟩,
          ⟨15, ⟨255, 0, 0, 0⟩, 15, ⟨0, 255, 0, 0⟩⟩, ⟨15, ⟨0, 255, 0, 0⟩, 15, ⟨0, 0, 255, 0⟩⟩] := by
    decide
  refine ⟨applySpans (fun _ => ⟨0, 0, 0, 0⟩) [⟨0, ⟨0, 0, 0, 0⟩, 15, ⟨255, 0, 0, 0⟩⟩,
    ⟨15, ⟨255, 0, 0, 0⟩, 15, ⟨0, 255, 0, 0⟩⟩, ⟨15, ⟨0, 255, 0, 0⟩, 15, ⟨0, 0, 255, 0⟩⟩],
    ?_, by decide, by decide, by decide, by decide⟩
  unfold CRGBWPalette16.loadDynamicGradientPalette
  rw [hspans]

/-- C13 (amended): for every compact gradient description with fewer than 16 stops whose
last stop is its only stop at position 255 (at least two stops), loading it into a 16-entry
palette returns; and when no span before the last one ends at slot 15, the colour of every
stop other than the last is the value of at least one of the 16 slots of the loaded
palette (the start slot of its span). -/
theorem load16_keeps_stops (fuel : Nat) (entries : Nat → CRGBW)
    (first last : TRGBGradientPaletteEntryUnion) (mid : List TRGBGradientPaletteEntryUnion)
    (h255 : last.index = 255) (hfirst : first.index < 255) (hne : ∀ u ∈ mid, u.index < 255)
    (hwf1 : first.wf) (hwf2 : ∀ u ∈ mid, u.wf) (hwf3 : last.wf)
    (hcount : mid.length + 2 < 16) (hf : mid.length + 1 < fuel)
    (hH : ∀ spans, CRGBWPalette16.loadDynamicGradientPalette_spans fuel
        (first :: (mid ++ [last])) = Outcome.done spans →
      ∀ (k : Nat) (s : GradientSpan), k + 1 < spans.length → spans[k]? = some s →
        s.iend8 < 15) :
    ∃ pal,
      CRGBWPalette16.loadDynamicGradientPalette fuel entries (first :: (mid ++ [last]))
        = Outcome.done pal ∧
      ∀ (k : Nat) (u : TRGBGradientPaletteEntryUnion), (first :: mid)[k]? = some u →
        ∃ slot, slot < 16 ∧ pal slot = u.rgbw := by
  obtain ⟨spans, hs, hloop, hlen⟩ := loadSpans_done 16 15 fuel first last mid h255 hfirst hne
    (by omega) hf
  have hcnt : toUInt16 (((mid.length + 1 : Nat) : Int) + 1) = mid.length + 2 := by
    unfold toUInt16; omega
  rw [hcnt] at hloop
  refine ⟨applySpans entries spans, ?_, ?_⟩
  · unfold CRGBWPalette16.loadDynamicGradientPalette
      CRGBWPalette16.loadDynamicGradientPalette_spans
    rw [hs]
  · intro k u hk
    have hwfent : ∀ v ∈ mid ++ [last], v.wf := by
      intro v hv
      rcases List.mem_append.mp hv with e | e
      · exact hwf2 v e
      · rw [List.mem_singleton] at e; rw [e]; exact hwf3
    obtain ⟨m1, m2⟩ := loadLoop_chain 16 15 (mid.length + 2) (by decide) (by decide) hcount
      (mid ++ [last]) 0 first.rgbw (-1) spans hloop (Or.inl ⟨rfl, rfl⟩) (le_refl _)
      (by decide) (by decide) hwfent ⟨hwf1.2.1, hwf1.2.2.1, hwf1.2.2.2.1, hwf1.2.2.2.2⟩
      (hH spans hs)
    have hklt : k < (first :: mid).length := by
      by_contra hcon
      rw [List.getElem?_eq_none (by omega)] at hk
      cases hk
    have hk2 : k < spans.length := by
      rw [hlen]; simpa using hklt
    have hsk : spans[k]? = some (spans.get ⟨k, hk2⟩) := List.getElem?_eq_getElem hk2
    have hcol := loadLoop_colours 16 15 (mid.length + 2) (mid ++ [last]) 0 first.rgbw (-1)
      spans hloop k _ hsk
    have hcol2 : (first.rgbw :: (mid ++ [last]).map TRGBGradientPaletteEntryUnion.rgbw)[k]?
        = some u.rgbw := by
      have e : first.rgbw :: (mid ++ [last]).map TRGBGradientPaletteEntryUnion.rgbw
          = (first :: mid).map TRGBGradientPaletteEntryUnion.rgbw
            ++ [last].map TRGBGradientPaletteEntryUnion.rgbw := by
        simp
      rw [e, List.getElem?_append_left (by simpa using hklt), List.getElem?_map, hk]
      rfl
    rw [hcol2] at hcol
    have hrgb : (spans.get ⟨k, hk2⟩).rgbstart = u.rgbw := (Option.some.inj hcol).symm
    obtain ⟨b1, b2, b3⟩ := m1 _ (List.get_mem spans k hk2)
    refine ⟨(spans.get ⟨k, hk2⟩).istart8, by omega, ?_⟩
    rw [m2 entries k _ hsk, hrgb]

theorem load16_keeps_stops_witness :
    ∃ pal,
      CRGBWPalette16.loadDynamicGradientPalette 6 (fun _ => ⟨7, 7, 7, 7⟩)
        (⟨0, 0, 0, 0, 0⟩ :: ([⟨124, 0, 0, 0, 0⟩, ⟨125, 255, 0, 0, 0⟩, ⟨126, 0, 0, 0, 0⟩]
          ++ [⟨255, 0, 0, 0, 0⟩])) = Outcome.done pal ∧
      ∀ (k : Nat) (u : TRGBGradientPaletteEntryUnion),
        ((⟨0, 0, 0, 0, 0⟩ : TRGBGradientPaletteEntryUnion)
          :: [⟨124, 0, 0, 0, 0⟩, ⟨125, 255, 0, 0, 0⟩, ⟨126, 0, 0, 0, 0⟩])[k]? = some u →
        ∃ slot, slot < 16 ∧ pal slot = u.rgbw :=
  load16_keeps_stops 6 (fun _ => ⟨7, 7, 7, 7⟩) ⟨0, 0, 0, 0, 0⟩ ⟨255, 0, 0, 0, 0⟩
    [⟨124, 0, 0, 0, 0⟩, ⟨125, 255, 0, 0, 0⟩, ⟨126, 0, 0, 0, 0⟩] (by decide) (by decide)
    (by decide) (by decide) (by decide) (by decide) (by decide) (by decide)
    (by
      intro spans h
      have hsp : CRGBWPalette16.loadDynamicGradientPalette_spans 6
          (⟨0, 0, 0, 0, 0⟩ :: ([⟨124, 0, 0, 0, 0⟩, ⟨125, 255, 0, 0, 0⟩, ⟨126, 0, 0, 0, 0⟩]
            ++ [⟨255, 0, 0, 0, 0⟩]))
          = Outcome.done [⟨0, ⟨0, 0, 0, 0⟩, 7, ⟨0, 0, 0, 0⟩⟩,
              ⟨8, ⟨0, 0, 0, 0⟩, 8, ⟨255, 0, 0, 0⟩⟩, ⟨9, ⟨255, 0, 0, 0⟩, 9, ⟨0, 0, 0, 0⟩⟩,
              ⟨10, ⟨0, 0, 0, 0⟩, 15, ⟨0, 0, 0, 0⟩⟩] := by
        decide
      rw [hsp] at h
      injection h with h
      subst h
      intro k s hk hs
      simp only [List.length_cons, List.length_nil] at hk
      have hk3 : k = 0 ∨ k = 1 ∨ k = 2 := by omega
      rcases hk3 with e | e | e
      · subst e
        simp only [List.getElem?_cons_zero, Option.some.injEq] at hs
        subst hs
        decide
      · subst e
        simp only [List.getElem?_cons_succ, List.getElem?_cons_zero, Option.some.injEq] at hs
        subst hs
        decide
      · subst e
        simp only [List.getElem?_cons_succ, List.getElem?_cons_zero, Option.some.injEq] at hs
        subst hs
        decide)

/-! ## The backward hue distance -/

/-- C22 (as stated, refuted): between two equal hues the forward delta is `d = 0`, and the
hue distance that `fill_gradient` uses with `BACKWARD_HUES` is 0, not
`-(256 - 0) * 128 = -32768`: the `uint8_t` cast of `256 - huedelta8` wraps 256 to 0.  A
backward gradient between two pixels of hue 7 stores hue 7 at every position. -/
theorem backward_hue_distance_equal_hues :
    huedelta8 ⟨7, 255, 255⟩ ⟨7, 255, 255⟩ = 0 ∧
    huedistance87 BACKWARD_HUES (huedelta8 ⟨7, 255, 255⟩ ⟨7, 255, 255⟩) = 0 ∧
    huedistance87 BACKWARD_HUES (huedelta8 ⟨7, 255, 255⟩ ⟨7, 255, 255⟩)
      ≠ -((256 - ((huedelta8 ⟨7, 255, 255⟩ ⟨7, 255, 255⟩ : Nat) : Int)) * 128) ∧
    (fill_gradient 9 0 ⟨7, 255, 255⟩ 4 ⟨7, 255, 255⟩ BACKWARD_HUES).writes.map
      (fun w => w.2.hue) = [7, 7, 7, 7, 7] := by
  decide

/-- C22 (amended): for every pair of hues whose forward delta
`d = (end.hue - start.hue) mod 256` is in `1..255`, `fill_gradient` with `BACKWARD_HUES`
uses the signed hue distance `-(256 - d)` hue steps: `huedistance87 = -(256 - d) * 128`,
a whole number of hue steps between `-255` and `-1`. -/
theorem backward_hue_distance (startcolor endcolor : CHSV)
    (hne : huedelta8 startcolor endcolor ≠ 0) :
    huedistance87 BACKWARD_HUES (huedelta8 startcolor endcolor)
      = -((256 - ((huedelta8 startcolor endcolor : Nat) : Int)) * 128) ∧
    huedistance87 BACKWARD_HUES (huedelta8 startcolor endcolor) / 128
      = -(256 - ((huedelta8 startcolor endcolor : Nat) : Int)) ∧
    huedistance87 BACKWARD_HUES (huedelta8 startcolor endcolor) % 128 = 0 := by
  have hd := huedelta8_lt startcolor endcolor
  rw [huedistance87_eq _ _ hd]
  generalize huedelta8 startcolor endcolor = d at *
  unfold resolveDirection
  simp only [if_false, reduceCtorEq]
  omega

theorem backward_hue_distance_witness :
    huedistance87 BACKWARD_HUES (huedelta8 ⟨10, 255, 255⟩ ⟨74, 255, 255⟩)
      = -((256 - ((huedelta8 ⟨10, 255, 255⟩ ⟨74, 255, 255⟩ : Nat) : Int)) * 128) ∧
    huedistance87 BACKWARD_HUES (huedelta8 ⟨10, 255, 255⟩ ⟨74, 255, 255⟩) / 128
      = -(256 - ((huedelta8 ⟨10, 255, 255⟩ ⟨74, 255, 255⟩ : Nat) : Int)) ∧
    huedistance87 BACKWARD_HUES (huedelta8 ⟨10, 255, 255⟩ ⟨74, 255, 255⟩) % 128 = 0 :=
  backward_hue_distance ⟨10, 255, 255⟩ ⟨74, 255, 255⟩ (by decide)

/-! ## The raw fade -/

theorem scale8_lt (a s : Nat) (ha : 0 < a) (hs : s < 256) : scale8 a s < a := by
  unfold scale8
  rw [Nat.div_lt_iff_lt_mul (by norm_num)]
  exact Nat.mul_lt_mul_of_pos_left hs ha

theorem scale8_zero (s : Nat) : scale8 0 s = 0 := by
  unfold scale8
  simp

theorem scale8_iterate (s : Nat) (hs : s < 256) :
    ∀ (n a : Nat), (fun x => scale8 x s)^[n] a ≤ a - n := by
  intro n
  induction n with
  | zero => intro a; simp
  | succ n ih =>
    intro a
    rw [Function.iterate_succ_apply]
    rcases Nat.eq_zero_or_pos a with h | h
    · subst h
      have := ih (scale8 0 s)
      rw [scale8_zero] at this ⊢
      omega
    · have h1 := scale8_lt a s h hs
      have := ih (scale8 a s)
      omega

theorem nscale8x3_iterate (s : Nat) :
    ∀ (n : Nat) (c : CRGBW), (fun p => nscale8x3 p s)^[n] c
      = ⟨(fun x => scale8 x s)^[n] c.r, (fun x => scale8 x s)^[n] c.g,
          (fun x => scale8 x s)^[n] c.b, (fun x => scale8 x s)^[n] c.w⟩ := by
  intro n
  induction n with
  | zero => intro c; rfl
  | succ n ih =>
    intro c
    rw [Function.iterate_succ_apply, ih]
    rfl

theorem toUInt8_lt (x : Int) : toUInt8 x < 256 := by
  unfold toUInt8; omega

/-- C21: for every pixel and every fade amount (with `scale8(a,s) = floor(a*s/256)`), one
`CRGBW::fadeToBlackBy` strictly decreases every channel that is not zero, and applying it
255 times to a pixel (channels in `0..255`) leaves all four channels zero. -/
theorem fadeToBlackBy_reaches_black (c : CRGBW) (fadefactor : Nat) (hc : c.wf) :
    (0 < c.r → (c.fadeToBlackBy fadefactor).r < c.r) ∧
    (0 < c.g → (c.fadeToBlackBy fadefactor).g < c.g) ∧
    (0 < c.b → (c.fadeToBlackBy fadefactor).b < c.b) ∧
    (0 < c.w → (c.fadeToBlackBy fadefactor).w < c.w) ∧
    (fun p => CRGBW.fadeToBlackBy p fadefactor)^[255] c = ⟨0, 0, 0, 0⟩ := by
  have hs := toUInt8_lt (255 - (fadefactor : Int))
  refine ⟨fun h => scale8_lt _ _ h hs, fun h => scale8_lt _ _ h hs, fun h => scale8_lt _ _ h hs,
    fun h => scale8_lt _ _ h hs, ?_⟩
  unfold CRGBW.fadeToBlackBy
  rw [nscale8x3_iterate]
  obtain ⟨h1, h2, h3, h4⟩ := hc
  have e1 := scale8_iterate _ hs 255 c.r
  have e2 := scale8_iterate _ hs 255 c.g
  have e3 := scale8_iterate _ hs 255 c.b
  have e4 := scale8_iterate _ hs 255 c.w
  have z1 : (fun x => scale8 x (toUInt8 (255 - (fadefactor : Int))))^[255] c.r = 0 := by omega
  have z2 : (fun x => scale8 x (toUInt8 (255 - (fadefactor : Int))))^[255] c.g = 0 := by omega
  have z3 : (fun x => scale8 x (toUInt8 (255 - (fadefactor : Int))))^[255] c.b = 0 := by omega
  have z4 : (fun x => scale8 x (toUInt8 (255 - (fadefactor : Int))))^[255] c.w = 0 := by omega
  rw [z1, z2, z3, z4]

theorem fadeToBlackBy_reaches_black_witness :
    (0 < (⟨255, 1, 0, 77⟩ : CRGBW).r →
      ((⟨255, 1, 0, 77⟩ : CRGBW).fadeToBlackBy 0).r < (⟨255, 1, 0, 77⟩ : CRGBW).r) ∧
    (0 < (⟨255, 1, 0, 77⟩ : CRGBW).g →
      ((⟨255, 1, 0, 77⟩ : CRGBW).fadeToBlackBy 0).g < (⟨255, 1, 0, 77⟩ : CRGBW).g) ∧
    (0 < (⟨255, 1, 0, 77⟩ : CRGBW).b →
      ((⟨255, 1, 0, 77⟩ : CRGBW).fadeToBlackBy 0).b < (⟨255, 1, 0, 77⟩ : CRGBW).b) ∧
    (0 < (⟨255, 1, 0, 77⟩ : CRGBW).w →
      ((⟨255, 1, 0, 77⟩ : CRGBW).fadeToBlackBy 0).w < (⟨255, 1, 0, 77⟩ : CRGBW).w) ∧
    (fun p => CRGBW.fadeToBlackBy p 0)^[255] ⟨255, 1, 0, 77⟩ = ⟨0, 0, 0, 0⟩ :=
  fadeToBlackBy_reaches_black ⟨255, 1, 0, 77⟩ 0 (by decide)

/-! ## The saturation and value accumulators -/

/-- The 16-bit accumulator of a saturation or value channel holds the exact value of the
ramp: no addition wraps around. -/
theorem accum88_channel_exact (c0 c1 N k : Nat) (h0 : c0 < 256) (h1 : c1 < 256) (hN : 0 < N)
    (hk : k ≤ N) :
    ((accum88 ((c0 : Int) * 256 + (k : Int) *
        delta87 (toInt16 (((c1 : Int) - (c0 : Int)) * 128)) (N : Int)) : Nat) : Int)
      = 256 * (c0 : Int) + (k : Int) * 2 * Int.tdiv (128 * ((c1 : Int) - (c0 : Int))) (N : Int) := by
  rw [toInt16_of_range _ (by omega) (by omega), accum88_delta87]
  have e : (c0 : Int) * 256 + (k : Int) * (2 * Int.tdiv (((c1 : Int) - (c0 : Int)) * 128) (N : Int))
      = 256 * (c0 : Int) + (k : Int) * 2 * Int.tdiv (128 * ((c1 : Int) - (c0 : Int))) (N : Int) := by
    rw [mul_comm ((c1 : Int) - (c0 : Int)) 128]
    ring
  rw [e]
  obtain ⟨r0, r1⟩ := ramp_range c0 c1 N k hN hk
  have hmax : (max c0 c1 : Nat) < 256 := max_lt h0 h1
  generalize 256 * (c0 : Int) + (k : Int) * 2 * Int.tdiv (128 * ((c1 : Int) - (c0 : Int))) (N : Int)
    = x at *
  unfold accum88 toUInt16
  omega

theorem fill_gradient_sat88_exact (startpos endpos k : Nat) (startcolor endcolor : CHSV)
    (hs : startcolor.wf) (he : endcolor.wf)
    (hle : startpos ≤ endpos) (hN : endpos - startpos ≤ 32767) (hk : k ≤ endpos - startpos) :
    ((fill_gradient_sat88 startpos startcolor endpos endcolor k : Nat) : Int)
      = 256 * (startcolor.sat : Int) + (k : Int) * 2 *
          Int.tdiv (128 * ((endcolor.sat : Int) - (startcolor.sat : Int)))
            ((max 1 (endpos - startpos) : Nat) : Int) := by
  unfold fill_gradient_sat88
  simp only [forceEndHue_sat, forceStartHue_sat, divisor_eq startpos endpos hle hN]
  exact accum88_channel_exact _ _ _ _ hs.2.1 he.2.1 (by omega) (by omega)

theorem fill_gradient_val88_exact (startpos endpos k : Nat) (startcolor endcolor : CHSV)
    (hs : startcolor.wf) (he : endcolor.wf)
    (hle : startpos ≤ endpos) (hN : endpos - startpos ≤ 32767) (hk : k ≤ endpos - startpos) :
    ((fill_gradient_val88 startpos startcolor endpos endcolor k : Nat) : Int)
      = 256 * (startcolor.val : Int) + (k : Int) * 2 *
          Int.tdiv (128 * ((endcolor.val : Int) - (startcolor.val : Int)))
            ((max 1 (endpos - startpos) : Nat) : Int) := by
  unfold fill_gradient_val88
  simp only [forceEndHue_val, forceStartHue_val, divisor_eq startpos endpos hle hN]
  exact accum88_channel_exact _ _ _ _ hs.2.2 he.2.2 (by omega) (by omega)

theorem orderedEntry_sat_eq (startpos endpos k : Nat) (startcolor endcolor : CHSV)
    (dir : TGradientDirectionCode) :
    (orderedEntry startpos startcolor endpos endcolor dir k).sat
      = toUInt8 ((fill_gradient_sat88 startpos startcolor endpos endcolor k / 256 : Nat) : Int) :=
  rfl

theorem orderedEntry_val_eq (startpos endpos k : Nat) (startcolor endcolor : CHSV)
    (dir : TGradientDirectionCode) :
    (orderedEntry startpos startcolor endpos endcolor dir k).val
      = toUInt8 ((fill_gradient_val88 startpos startcolor endpos endcolor k / 256 : Nat) : Int) :=
  rfl

theorem specChannel_range (c0 c1 N k : Nat) (hN : 0 < N) (hk : k ≤ N) :
    ((min c0 c1 : Nat) : Int) ≤ specChannel c0 c1 N k ∧
    specChannel c0 c1 N k ≤ ((max c0 c1 : Nat) : Int) := by
  obtain ⟨r0, r1⟩ := ramp_range c0 c1 N k hN hk
  unfold specChannel
  generalize 256 * (c0 : Int) + (k : Int) * 2 * Int.tdiv (128 * ((c1 : Int) - (c0 : Int))) (N : Int)
    = x at *
  omega

theorem specChannel_end_of_ge (c0 c1 N : Nat) (hN : 0 < N) (hN2 : N ≤ 128) (hc : c1 ≤ c0) :
    specChannel c0 c1 N N = c1 := by
  unfold specChannel
  have hc' : (c1 : Int) ≤ c0 := by exact_mod_cast hc
  obtain ⟨-, q1, q2⟩ := tdiv_nonpos_facts (128 * ((c1 : Int) - (c0 : Int))) N hN (by omega)
  generalize Int.tdiv (128 * ((c1 : Int) - (c0 : Int))) (N : Int) = q at *
  have e1 : (N : Int) * 2 * q = 2 * (q * N) := by ring
  have e2 : (q - 1) * (N : Int) = q * N - N := by ring
  rw [e1]
  rw [e2] at q2
  generalize q * (N : Int) = p at *
  omega

theorem specChannel_end_of_lt (c0 c1 N : Nat) (hN : 0 < N) (hN2 : N ≤ 128) (hc : c0 < c1) :
    specChannel c0 c1 N N = c1 ∨ specChannel c0 c1 N N + 1 = c1 := by
  unfold specChannel
  have hc' : (c0 : Int) < c1 := by exact_mod_cast hc
  obtain ⟨-, q1, q2⟩ := tdiv_nonneg_facts (128 * ((c1 : Int) - (c0 : Int))) N hN (by omega)
  generalize Int.tdiv (128 * ((c1 : Int) - (c0 : Int))) (N : Int) = q at *
  have e1 : (N : Int) * 2 * q = 2 * (q * N) := by ring
  have e2 : (q + 1) * (N : Int) = q * N + N := by ring
  rw [e1]
  rw [e2] at q2
  generalize q * (N : Int) = p at *
  omega

/-- C29: for `startpos <= endpos` with span at most 32767 and all colours, the 16-bit
saturation and value accumulators of `fill_gradient` never wrap: in every iteration `i`
they hold the exact value `256*c0 + i*2*trunc(128*(c1-c0)/N)` of the ramp
(`N = max(1, endpos - startpos)`), the saturation (resp. value) that is written is its
high byte and lies between the start and the end saturation (resp. value) inclusive, and
for `i <= j` the values written at `startpos + i` and `startpos + j` are ordered in the
direction from start to end. -/
theorem fill_gradient_sat_val_monotone (fuel startpos endpos i j : Nat)
    (startcolor endcolor : CHSV) (dir : TGradientDirectionCode)
    (hs : startcolor.wf) (he : endcolor.wf) (hle : startpos ≤ endpos) (hend : endpos < 65536)
    (hN : endpos - startpos ≤ 32767) (hij : i ≤ j) (hj : j ≤ endpos - startpos)
    (hf : j < fuel) :
    ∃ ci cj : CHSV,
      (fill_gradient fuel startpos startcolor endpos endcolor dir).writes[i]?
        = some (startpos + i, ci) ∧
      (fill_gradient fuel startpos startcolor endpos endcolor dir).writes[j]?
        = some (startpos + j, cj) ∧
      ((fill_gradient_sat88 startpos startcolor endpos endcolor i : Nat) : Int)
        = 256 * (startcolor.sat : Int) + (i : Int) * 2 *
            Int.tdiv (128 * ((endcolor.sat : Int) - (startcolor.sat : Int)))
              ((max 1 (endpos - startpos) : Nat) : Int) ∧
      ((fill_gradient_val88 startpos startcolor endpos endcolor i : Nat) : Int)
        = 256 * (startcolor.val : Int) + (i : Int) * 2 *
            Int.tdiv (128 * ((endcolor.val : Int) - (startcolor.val : Int)))
              ((max 1 (endpos - startpos) : Nat) : Int) ∧
      ci.sat = fill_gradient_sat88 startpos startcolor endpos endcolor i / 256 ∧
      ci.val = fill_gradient_val88 startpos startcolor endpos endcolor i / 256 ∧
      min startcolor.sat endcolor.sat ≤ ci.sat ∧ ci.sat ≤ max startcolor.sat endcolor.sat ∧
      min startcolor.val endcolor.val ≤ ci.val ∧ ci.val ≤ max startcolor.val endcolor.val ∧
      (startcolor.sat ≤ endcolor.sat → ci.sat ≤ cj.sat) ∧
      (endcolor.sat ≤ startcolor.sat → cj.sat ≤ ci.sat) ∧
      (startcolor.val ≤ endcolor.val → ci.val ≤ cj.val) ∧
      (endcolor.val ≤ startcolor.val → cj.val ≤ ci.val) := by
  have hi : i ≤ endpos - startpos := le_trans hij hj
  have hmax : 0 < max 1 (endpos - startpos) := by omega
  have hsi := orderedEntry_sat startpos endpos i startcolor endcolor dir hs he hle hN hi
  have hsj := orderedEntry_sat startpos endpos j startcolor endcolor dir hs he hle hN hj
  have hvi := orderedEntry_val startpos endpos i startcolor endcolor dir hs he hle hN hi
  have hvj := orderedEntry_val startpos endpos j startcolor endcolor dir hs he hle hN hj
  have xs := fill_gradient_sat88_exact startpos endpos i startcolor endcolor hs he hle hN hi
  have xv := fill_gradient_val88_exact startpos endpos i startcolor endcolor hs he hle hN hi
  have es := orderedEntry_sat_eq startpos endpos i startcolor endcolor dir
  have ev := orderedEntry_val_eq startpos endpos i startcolor endcolor dir
  obtain ⟨rs0, rs1⟩ := specChannel_range startcolor.sat endcolor.sat _ i hmax (by omega)
  obtain ⟨rv0, rv1⟩ := specChannel_range startcolor.val endcolor.val _ i hmax (by omega)
  have ss := ramp_range startcolor.sat endcolor.sat _ i hmax (by omega)
  have sv := ramp_range startcolor.val endcolor.val _ i hmax (by omega)
  have hmaxs : (max startcolor.sat endcolor.sat : Nat) < 256 := max_lt hs.2.1 he.2.1
  have hmaxv : (max startcolor.val endcolor.val : Nat) < 256 := max_lt hs.2.2 he.2.2
  refine ⟨orderedEntry startpos startcolor endpos endcolor dir i,
    orderedEntry startpos startcolor endpos endcolor dir j, ?_, ?_, xs, xv, ?_, ?_, ?_, ?_, ?_, ?_,
    ?_, ?_, ?_, ?_⟩
  · rw [fill_gradient_of_le _ _ _ _ _ _ hle]
    exact ordered_nth fuel startpos endpos i startcolor endcolor dir hend (by omega) (by omega)
  · rw [fill_gradient_of_le _ _ _ _ _ _ hle]
    exact ordered_nth fuel startpos endpos j startcolor endcolor dir hend (by omega) hf
  · rw [es]
    apply toUInt8_of_nat
    rw [← xs] at ss
    omega
  · rw [ev]
    apply toUInt8_of_nat
    rw [← xv] at sv
    omega
  · rw [← hsi] at rs0; exact_mod_cast rs0
  · rw [← hsi] at rs1; exact_mod_cast rs1
  · rw [← hvi] at rv0; exact_mod_cast rv0
  · rw [← hvi] at rv1; exact_mod_cast rv1
  · intro h
    have := specChannel_monotone startcolor.sat endcolor.sat _ i j hmax h hij
    rw [← hsi, ← hsj] at this
    exact_mod_cast this
  · intro h
    have := specChannel_antitone startcolor.sat endcolor.sat _ i j hmax h hij
    rw [← hsi, ← hsj] at this
    exact_mod_cast this
  · intro h
    have := specChannel_monotone startcolor.val endcolor.val _ i j hmax h hij
    rw [← hvi, ← hvj] at this
    exact_mod_cast this
  · intro h
    have := specChannel_antitone startcolor.val endcolor.val _ i j hmax h hij
    rw [← hvi, ← hvj] at this
    exact_mod_cast this

theorem fill_gradient_sat_val_monotone_witness :
    ∃ ci cj : CHSV,
      (fill_gradient 9 0 ⟨0, 0, 255⟩ 7 ⟨10, 255, 0⟩ FORWARD_HUES).writes[2]?
        = some (0 + 2, ci) ∧
      (fill_gradient 9 0 ⟨0, 0, 255⟩ 7 ⟨10, 255, 0⟩ FORWARD_HUES).writes[5]?
        = some (0 + 5, cj) ∧
      ((fill_gradient_sat88 0 ⟨0, 0, 255⟩ 7 ⟨10, 255, 0⟩ 2 : Nat) : Int)
        = 256 * (((⟨0, 0, 255⟩ : CHSV).sat : Nat) : Int) + ((2 : Nat) : Int) * 2 *
            Int.tdiv (128 * ((((⟨10, 255, 0⟩ : CHSV).sat : Nat) : Int)
              - (((⟨0, 0, 255⟩ : CHSV).sat : Nat) : Int)))
              ((max 1 (7 - 0) : Nat) : Int) ∧
      ((fill_gradient_val88 0 ⟨0, 0, 255⟩ 7 ⟨10, 255, 0⟩ 2 : Nat) : Int)
        = 256 * (((⟨0, 0, 255⟩ : CHSV).val : Nat) : Int) + ((2 : Nat) : Int) * 2 *
            Int.tdiv (128 * ((((⟨10, 255, 0⟩ : CHSV).val : Nat) : Int)
              - (((⟨0, 0, 255⟩ : CHSV).val : Nat) : Int)))
              ((max 1 (7 - 0) : Nat) : Int) ∧
      ci.sat = fill_gradient_sat88 0 ⟨0, 0, 255⟩ 7 ⟨10, 255, 0⟩ 2 / 256 ∧
      ci.val = fill_gradient_val88 0 ⟨0, 0, 255⟩ 7 ⟨10, 255, 0⟩ 2 / 256 ∧
      min (⟨0, 0, 255⟩ : CHSV).sat (⟨10, 255, 0⟩ : CHSV).sat ≤ ci.sat ∧
      ci.sat ≤ max (⟨0, 0, 255⟩ : CHSV).sat (⟨10, 255, 0⟩ : CHSV).sat ∧
      min (⟨0, 0, 255⟩ : CHSV).val (⟨10, 255, 0⟩ : CHSV).val ≤ ci.val ∧
      ci.val ≤ max (⟨0, 0, 255⟩ : CHSV).val (⟨10, 255, 0⟩ : CHSV).val ∧
      ((⟨0, 0, 255⟩ : CHSV).sat ≤ (⟨10, 255, 0⟩ : CHSV).sat → ci.sat ≤ cj.sat) ∧
      ((⟨10, 255, 0⟩ : CHSV).sat ≤ (⟨0, 0, 255⟩ : CHSV).sat → cj.sat ≤ ci.sat) ∧
      ((⟨0, 0, 255⟩ : CHSV).val ≤ (⟨10, 255, 0⟩ : CHSV).val → ci.val ≤ cj.val) ∧
      ((⟨10, 255, 0⟩ : CHSV).val ≤ (⟨0, 0, 255⟩ : CHSV).val → cj.val ≤ ci.val) :=
  fill_gradient_sat_val_monotone 9 0 7 2 5 ⟨0, 0, 255⟩ ⟨10, 255, 0⟩ FORWARD_HUES
    (by decide) (by decide) (by decide) (by decide) (by decide) (by decide) (by decide)
    (by decide)

/-! ## The last pixel of a short gradient -/

/-- C30: for every span length `N = endpos - startpos` with `1 <= N <= 128` and all
colours, the saturation (resp. value) that `fill_gradient` writes at `endpos` equals the end
colour's saturation (resp. value) when that channel does not increase from start to end,
and equals it or is exactly one less when the channel increases.  When `endpos < 65535`
the call returns and the array it leaves holds that pixel at `endpos`. -/
theorem fill_gradient_end_value (fuel startpos endpos : Nat) (startcolor endcolor : CHSV)
    (dir : TGradientDirectionCode) (hs : startcolor.wf) (he : endcolor.wf)
    (hlt : startpos < endpos) (hend : endpos < 65536) (hN : endpos - startpos ≤ 128)
    (hf : endpos - startpos < fuel) :
    ∃ c : CHSV,
      (fill_gradient fuel startpos startcolor endpos endcolor dir).writes[endpos - startpos]?
        = some (endpos, c) ∧
      (endcolor.sat ≤ startcolor.sat → c.sat = endcolor.sat) ∧
      (startcolor.sat < endcolor.sat → c.sat = endcolor.sat ∨ c.sat + 1 = endcolor.sat) ∧
      (endcolor.val ≤ startcolor.val → c.val = endcolor.val) ∧
      (startcolor.val < endcolor.val → c.val = endcolor.val ∨ c.val + 1 = endcolor.val) ∧
      (endpos < 65535 → endpos - startpos + 1 < fuel → ∀ targetArray : Nat → CHSV,
        ∃ a, (fill_gradient fuel startpos startcolor endpos endcolor dir).result targetArray
          = some a ∧ a endpos = c) := by
  have hle : startpos ≤ endpos := le_of_lt hlt
  have hmax : max 1 (endpos - startpos) = endpos - startpos := by omega
  have hsat := orderedEntry_sat startpos endpos (endpos - startpos) startcolor endcolor dir
    hs he hle (by omega) (le_refl _)
  have hval := orderedEntry_val startpos endpos (endpos - startpos) startcolor endcolor dir
    hs he hle (by omega) (le_refl _)
  rw [hmax] at hsat hval
  refine ⟨orderedEntry startpos startcolor endpos endcolor dir (endpos - startpos),
    ?_, ?_, ?_, ?_, ?_, ?_⟩
  · rw [fill_gradient_of_le _ _ _ _ _ _ hle]
    have := ordered_nth fuel startpos endpos (endpos - startpos) startcolor endcolor dir hend
      (by omega) hf
    rw [this]
    congr 2
    omega
  · intro h
    have := specChannel_end_of_ge startcolor.sat endcolor.sat (endpos - startpos) (by omega) hN h
    rw [← hsat] at this
    exact_mod_cast this
  · intro h
    rcases specChannel_end_of_lt startcolor.sat endcolor.sat (endpos - startpos) (by omega) hN h
      with e | e
    · left; rw [← hsat] at e; exact_mod_cast e
    · right; rw [← hsat] at e; exact_mod_cast e
  · intro h
    have := specChannel_end_of_ge startcolor.val endcolor.val (endpos - startpos) (by omega) hN h
    rw [← hval] at this
    exact_mod_cast this
  · intro h
    rcases specChannel_end_of_lt startcolor.val endcolor.val (endpos - startpos) (by omega) hN h
      with e | e
    · left; rw [← hval] at e; exact_mod_cast e
    · right; rw [← hval] at e; exact_mod_cast e
  · intro h5 hfuel targetArray
    rw [fill_gradient_of_le _ _ _ _ _ _ hle,
      ordered_result fuel startpos endpos startcolor endcolor dir h5 hle hfuel targetArray]
    refine ⟨_, rfl, ?_⟩
    have h1 : startpos ≤ endpos ∧ endpos ≤ endpos := ⟨hle, le_refl _⟩
    simp only [h1, and_self, if_true]

theorem fill_gradient_end_value_witness :
    ∃ c : CHSV,
      (fill_gradient 9 0 ⟨0, 0, 255⟩ 7 ⟨10, 255, 0⟩ FORWARD_HUES).writes[7 - 0]?
        = some (7, c) ∧
      ((⟨10, 255, 0⟩ : CHSV).sat ≤ (⟨0, 0, 255⟩ : CHSV).sat → c.sat = (⟨10, 255, 0⟩ : CHSV).sat) ∧
      ((⟨0, 0, 255⟩ : CHSV).sat < (⟨10, 255, 0⟩ : CHSV).sat →
        c.sat = (⟨10, 255, 0⟩ : CHSV).sat ∨ c.sat + 1 = (⟨10, 255, 0⟩ : CHSV).sat) ∧
      ((⟨10, 255, 0⟩ : CHSV).val ≤ (⟨0, 0, 255⟩ : CHSV).val → c.val = (⟨10, 255, 0⟩ : CHSV).val) ∧
      ((⟨0, 0, 255⟩ : CHSV).val < (⟨10, 255, 0⟩ : CHSV).val →
        c.val = (⟨10, 255, 0⟩ : CHSV).val ∨ c.val + 1 = (⟨10, 255, 0⟩ : CHSV).val) ∧
      (7 < 65535 → 7 - 0 + 1 < 9 → ∀ targetArray : Nat → CHSV,
        ∃ a, (fill_gradient 9 0 ⟨0, 0, 255⟩ 7 ⟨10, 255, 0⟩ FORWARD_HUES).result targetArray
          = some a ∧ a 7 = c) :=
  fill_gradient_end_value 9 0 7 ⟨0, 0, 255⟩ ⟨10, 255, 0⟩ FORWARD_HUES
    (by decide) (by decide) (by decide) (by decide) (by decide) (by decide)

/-! ## The narrow red stripe -/

/-- C24: loading the description
`[(0,0,0,0,0), (124,0,0,0,0), (125,255,0,0,0), (126,0,0,0,0), (255,0,0,0,0)]` into a
16-entry palette (whatever the palette held before) returns a palette with a red stripe
one slot wide: slot 9 holds `(255, 0, 0, 0)`, it is the only one of the 16 slots with red
`> 0`, and every other slot is black. -/
theorem narrow_stripe_one_of_16 (entries : Nat → CRGBW) :
    ∃ pal, CRGBWPalette16.loadDynamicGradientPalette 6 entries
        [⟨0, 0, 0, 0, 0⟩, ⟨124, 0, 0, 0, 0⟩, ⟨125, 255, 0, 0, 0⟩, ⟨126, 0, 0, 0, 0⟩,
          ⟨255, 0, 0, 0, 0⟩] = Outcome.done pal ∧
      pal 9 = ⟨255, 0, 0, 0⟩ ∧
      (∀ i, i < 16 → (0 < (pal i).r ↔ i = 9)) ∧
      (∀ i, i < 16 → i ≠ 9 → pal i = ⟨0, 0, 0, 0⟩) := by
  obtain ⟨spans, hspans, hall⟩ : ∃ spans,
      CRGBWPalette16.loadDynamicGradientPalette_spans 6
        [⟨0, 0, 0, 0, 0⟩, ⟨124, 0, 0, 0, 0⟩, ⟨125, 255, 0, 0, 0⟩, ⟨126, 0, 0, 0, 0⟩,
          ⟨255, 0, 0, 0, 0⟩] = Outcome.done spans ∧
      ∀ i, i < 16 → applySpans entries spans i
        = if i = 9 then ⟨255, 0, 0, 0⟩ else ⟨0, 0, 0, 0⟩ :=
    ⟨[⟨0, ⟨0, 0, 0, 0⟩, 7, ⟨0, 0, 0, 0⟩⟩, ⟨8, ⟨0, 0, 0, 0⟩, 8, ⟨255, 0, 0, 0⟩⟩,
        ⟨9, ⟨255, 0, 0, 0⟩, 9, ⟨0, 0, 0, 0⟩⟩, ⟨10, ⟨0, 0, 0, 0⟩, 15, ⟨0, 0, 0, 0⟩⟩],
      by decide, by intro i hi; interval_cases i <;> rfl⟩
  refine ⟨applySpans entries spans, ?_, ?_, ?_, ?_⟩
  · unfold CRGBWPalette16.loadDynamicGradientPalette
    rw [hspans]
  · rw [hall 9 (by decide)]
    rfl
  · intro i hi
    rw [hall i hi]
    by_cases h : i = 9
    · simp [h]
    · simp [h]
  · intro i hi h
    rw [hall i hi, if_neg h]

/-- C25 (as stated, refuted): loading the description
`[(0,0,0,0,0), (124,0,0,0,0), (125,255,0,0,0), (126,0,0,0,0), (255,0,0,0,0)]` into a
32-entry palette makes the four calls `fill_gradient_RGB(0..15)`, `(16..16)`, `(17..17)`,
`(18..31)`; in the palette it returns the red stripe does not occupy two of the 32 slots:
slot 17 holds `(255, 0, 0, 0)` and its two neighbours, like every other slot, are black. -/
theorem narrow_stripe_not_two_of_32 :
    ∃ pal, CRGBWPalette32.loadDynamicGradientPalette 6 (fun _ => ⟨0, 0, 0, 0⟩)
        [⟨0, 0, 0, 0, 0⟩, ⟨124, 0, 0, 0, 0⟩, ⟨125, 255, 0, 0, 0⟩, ⟨126, 0, 0, 0, 0⟩,
          ⟨255, 0, 0, 0, 0⟩] = Outcome.done pal ∧
      CRGBWPalette32.loadDynamicGradientPalette_spans 6
        [⟨0, 0, 0, 0, 0⟩, ⟨124, 0, 0, 0, 0⟩, ⟨125, 255, 0, 0, 0⟩, ⟨126, 0, 0, 0, 0⟩,
          ⟨255, 0, 0, 0, 0⟩]
        = Outcome.done [⟨0, ⟨0, 0, 0, 0⟩, 15, ⟨0, 0, 0, 0⟩⟩, ⟨16, ⟨0, 0, 0, 0⟩, 16, ⟨255, 0, 0, 0⟩⟩,
            ⟨17, ⟨255, 0, 0, 0⟩, 17, ⟨0, 0, 0, 0⟩⟩, ⟨18, ⟨0, 0, 0, 0⟩, 31, ⟨0, 0, 0, 0⟩⟩] ∧
      ((List.range 32).filter (fun i => decide (0 < (pal i).r))) = [17] ∧
      ((List.range 32).filter (fun i => decide (0 < (pal i).r))).length ≠ 2 ∧
      pal 16 = ⟨0, 0, 0, 0⟩ ∧ pal 17 = ⟨255, 0, 0, 0⟩ ∧ pal 18 = ⟨0, 0, 0, 0⟩ := by
  refine ⟨applySpans (fun _ => ⟨0, 0, 0, 0⟩) [⟨0, ⟨0, 0, 0, 0⟩, 15, ⟨0, 0, 0, 0⟩⟩,
    ⟨16, ⟨0, 0, 0, 0⟩, 16, ⟨255, 0, 0, 0⟩⟩, ⟨17, ⟨255, 0, 0, 0⟩, 17, ⟨0, 0, 0, 0⟩⟩,
    ⟨18, ⟨0, 0, 0, 0⟩, 31, ⟨0, 0, 0, 0⟩⟩], ?_, by decide, by decide, by decide, by decide,
    by decide, by decide⟩
  have hspans : CRGBWPalette32.loadDynamicGradientPalette_spans 6
      [⟨0, 0, 0, 0, 0⟩, ⟨124, 0, 0, 0, 0⟩, ⟨125, 255, 0, 0, 0⟩, ⟨126, 0, 0, 0, 0⟩,
        ⟨255, 0, 0, 0, 0⟩]
      = Outcome.done [⟨0, ⟨0, 0, 0, 0⟩, 15, ⟨0, 0, 0, 0⟩⟩, ⟨16, ⟨0, 0, 0, 0⟩, 16, ⟨255, 0, 0, 0⟩⟩,
          ⟨17, ⟨255, 0, 0, 0⟩, 17, ⟨0, 0, 0, 0⟩⟩, ⟨18, ⟨0, 0, 0, 0⟩, 31, ⟨0, 0, 0, 0⟩⟩] := by
    decide
  unfold CRGBWPalette32.loadDynamicGradientPalette
  rw [hspans]

/-- C25 (amended): loading the description
`[(0,0,0,0,0), (124,0,0,0,0), (125,255,0,0,0), (126,0,0,0,0), (255,0,0,0,0)]` into a
32-entry palette (whatever the palette held before) returns a palette with a red stripe
that is 1/32nd of the palette wide, the narrowest possible in a 32-entry palette: slot 17
holds `(255, 0, 0, 0)`, it is the only one of the 32 slots with red `> 0`, and every other
slot is black. -/
theorem narrow_stripe_one_of_32 (entries : Nat → CRGBW) :
    ∃ pal, CRGBWPalette32.loadDynamicGradientPalette 6 entries
        [⟨0, 0, 0, 0, 0⟩, ⟨124, 0, 0, 0, 0⟩, ⟨125, 255, 0, 0, 0⟩, ⟨126, 0, 0, 0, 0⟩,
          ⟨255, 0, 0, 0, 0⟩] = Outcome.done pal ∧
      pal 17 = ⟨255, 0, 0, 0⟩ ∧
      (∀ i, i < 32 → (0 < (pal i).r ↔ i = 17)) ∧
      (∀ i, i < 32 → i ≠ 17 → pal i = ⟨0, 0, 0, 0⟩) := by
  obtain ⟨spans, hspans, hall⟩ : ∃ spans,
      CRGBWPalette32.loadDynamicGradientPalette_spans 6
        [⟨0, 0, 0, 0, 0⟩, ⟨124, 0, 0, 0, 0⟩, ⟨125, 255, 0, 0, 0⟩, ⟨126, 0, 0, 0, 0⟩,
          ⟨255, 0, 0, 0, 0⟩] = Outcome.done spans ∧
      ∀ i, i < 32 → applySpans entries spans i
        = if i = 17 then ⟨255, 0, 0, 0⟩ else ⟨0, 0, 0, 0⟩ :=
    ⟨[⟨0, ⟨0, 0, 0, 0⟩, 15, ⟨0, 0, 0, 0⟩⟩, ⟨16, ⟨0, 0, 0, 0⟩, 16, ⟨255, 0, 0, 0⟩⟩,
        ⟨17, ⟨255, 0, 0, 0⟩, 17, ⟨0, 0, 0, 0⟩⟩, ⟨18, ⟨0, 0, 0, 0⟩, 31, ⟨0, 0, 0, 0⟩⟩],
      by decide, by intro i hi; interval_cases i <;> rfl⟩
  refine ⟨applySpans entries spans, ?_, ?_, ?_, ?_⟩
  · unfold CRGBWPalette32.loadDynamicGradientPalette
    rw [hspans]
  · rw [hall 17 (by decide)]
    rfl
  · intro i hi
    rw [hall i hi]
    by_cases h : i = 17
    · simp [h]
    · simp [h]
  · intro i hi h
    rw [hall i hi, if_neg h]

/-! ## The stop count at which the 32-entry loader tracks the last slot used -/

/-- C23 (the code departs from the claim): the 32-entry loader applies the last-slot-used
rule only when `count < 16`.  The description of 16 stops at positions `0, 1, ..., 14, 255`
(stop `k` of colour `(k+1, 0, 0, 0)`, the last one `(255, 0, 0, 0)`) has fewer stops than
the 32 slots, but the rule is not applied: the first seven spans all are slot `0..0`, the
next is `0..1`, six are `1..1` and the last is `1..31`, so only the colours of the stops
at 7 and 14 are left in the palette (slots 0 and 1) and the other thirteen stops before
the last are overwritten.  With one stop fewer (positions `0, ..., 13, 255`) the rule is
applied and every span starts one slot after the previous one. -/
theorem load32_rule_not_applied_at_16_stops :
    (CRGBWPalette32.loadDynamicGradientPalette_spans 17
        [⟨0, 1, 0, 0, 0⟩, ⟨1, 2, 0, 0, 0⟩, ⟨2, 3, 0, 0, 0⟩, ⟨3, 4, 0, 0, 0⟩, ⟨4, 5, 0, 0, 0⟩,
          ⟨5, 6, 0, 0, 0⟩, ⟨6, 7, 0, 0, 0⟩, ⟨7, 8, 0, 0, 0⟩, ⟨8, 9, 0, 0, 0⟩, ⟨9, 10, 0, 0, 0⟩,
          ⟨10, 11, 0, 0, 0⟩, ⟨11, 12, 0, 0, 0⟩, ⟨12, 13, 0, 0, 0⟩, ⟨13, 14, 0, 0, 0⟩,
          ⟨14, 15, 0, 0, 0⟩, ⟨255, 255, 0, 0, 0⟩]).map
        (fun spans => spans.map (fun s => (s.istart8, s.iend8)))
      = Outcome.done [(0, 0), (0, 0), (0, 0), (0, 0), (0, 0), (0, 0), (0, 0), (0, 1), (1, 1),
          (1, 1), (1, 1), (1, 1), (1, 1), (1, 1), (1, 31)] ∧
    (CRGBWPalette32.loadDynamicGradientPalette 17 (fun _ => ⟨0, 0, 0, 0⟩)
        [⟨0, 1, 0, 0, 0⟩, ⟨1, 2, 0, 0, 0⟩, ⟨2, 3, 0, 0, 0⟩, ⟨3, 4, 0, 0, 0⟩, ⟨4, 5, 0, 0, 0⟩,
          ⟨5, 6, 0, 0, 0⟩, ⟨6, 7, 0, 0, 0⟩, ⟨7, 8, 0, 0, 0⟩, ⟨8, 9, 0, 0, 0⟩, ⟨9, 10, 0, 0, 0⟩,
          ⟨10, 11, 0, 0, 0⟩, ⟨11, 12, 0, 0, 0⟩, ⟨12, 13, 0, 0, 0⟩, ⟨13, 14, 0, 0, 0⟩,
          ⟨14, 15, 0, 0, 0⟩, ⟨255, 255, 0, 0, 0⟩]).map
        (fun pal => (List.range 32).map (fun i => (pal i).r))
      = Outcome.done [8, 15, 23, 31, 39, 47, 55, 63, 71, 79, 87, 95, 103, 111, 119, 127, 135,
          143, 151, 159, 167, 175, 183, 191, 199, 207, 215, 223, 231, 239, 247, 255] ∧
    (CRGBWPalette32.loadDynamicGradientPalette_spans 16
        [⟨0, 1, 0, 0, 0⟩, ⟨1, 2, 0, 0, 0⟩, ⟨2, 3, 0, 0, 0⟩, ⟨3, 4, 0, 0, 0⟩, ⟨4, 5, 0, 0, 0⟩,
          ⟨5, 6, 0, 0, 0⟩, ⟨6, 7, 0, 0, 0⟩, ⟨7, 8, 0, 0, 0⟩, ⟨8, 9, 0, 0, 0⟩, ⟨9, 10, 0, 0, 0⟩,
          ⟨10, 11, 0, 0, 0⟩, ⟨11, 12, 0, 0, 0⟩, ⟨12, 13, 0, 0, 0⟩, ⟨13, 14, 0, 0, 0⟩,
          ⟨255, 255, 0, 0, 0⟩]).map
        (fun spans => spans.map (fun s => (s.istart8, s.iend8)))
      = Outcome.done [(0, 0), (1, 1), (2, 2), (3, 3), (4, 4), (5, 5), (6, 6), (7, 7), (8, 8),
          (9, 9), (10, 10), (11, 11), (12, 12), (13, 31)] ∧
    (CRGBWPalette32.loadDynamicGradientPalette 16 (fun _ => ⟨0, 0, 0, 0⟩)
        [⟨0, 1, 0, 0, 0⟩, ⟨1, 2, 0, 0, 0⟩, ⟨2, 3, 0, 0, 0⟩, ⟨3, 4, 0, 0, 0⟩, ⟨4, 5, 0, 0, 0⟩,
          ⟨5, 6, 0, 0, 0⟩, ⟨6, 7, 0, 0, 0⟩, ⟨7, 8, 0, 0, 0⟩, ⟨8, 9, 0, 0, 0⟩, ⟨9, 10, 0, 0, 0⟩,
          ⟨10, 11, 0, 0, 0⟩, ⟨11, 12, 0, 0, 0⟩, ⟨12, 13, 0, 0, 0⟩, ⟨13, 14, 0, 0, 0⟩,
          ⟨255, 255, 0, 0, 0⟩]).map
        (fun pal => (List.range 32).map (fun i => (pal i).r))
      = Outcome.done [1, 2, 3, 4, 5, 6, 7, 8, 9, 10, 11, 12, 13, 14, 27, 40, 54, 67, 80, 94,
          107, 121, 134, 147, 161, 174, 187, 201, 214, 228, 241, 254] := by
  refine ⟨?_, ?_, ?_, ?_⟩ <;> decide

/-! ## The spans of a loader cover the palette -/

theorem adjustSlots_cover (lastSlot count istart8 iend8 : Nat) (L M : Int)
    (hls : lastSlot ≤ 127) (hse : istart8 ≤ iend8) (hiend : iend8 ≤ lastSlot)
    (hM : (istart8 : Int) ≤ M + 1) (hL : count < 16 → -1 ≤ L ∧ L ≤ M) :
    (adjustSlots lastSlot count istart8 iend8 L).1
      ≤ (adjustSlots lastSlot count istart8 iend8 L).2.1 ∧
    (adjustSlots lastSlot count istart8 iend8 L).2.1 ≤ lastSlot ∧
    ((adjustSlots lastSlot count istart8 iend8 L).1 : Int) ≤ M + 1 ∧
    iend8 ≤ (adjustSlots lastSlot count istart8 iend8 L).2.1 ∧
    (count < 16 → (adjustSlots lastSlot count istart8 iend8 L).2.2
      = ((adjustSlots lastSlot count istart8 iend8 L).2.1 : Int)) := by
  unfold adjustSlots
  by_cases hc : count < 16
  · obtain ⟨hL1, hL2⟩ := hL hc
    rw [if_pos hc]
    by_cases h1 : (istart8 : Int) ≤ L ∧ L < (lastSlot : Int)
    · rw [if_pos h1]
      have e : toUInt8 (L + 1) = (L + 1).toNat := by unfold toUInt8; omega
      simp only [e]
      by_cases h2 : iend8 < (L + 1).toNat
      · simp only [if_pos h2]
        unfold toInt8
        omega
      · simp only [if_neg h2]
        unfold toInt8
        omega
    · rw [if_neg h1]
      simp only
      unfold toInt8
      omega
  · rw [if_neg hc]
    simp only
    omega

theorem loadLoop_cover (step lastSlot count : Nat) (hls : 255 / step = lastSlot)
    (hls2 : lastSlot ≤ 127) :
    ∀ (ent : List TRGBGradientPaletteEntryUnion) (indexstart : Nat) (rgbstart : CRGBW)
      (L : Int) (spans : List GradientSpan) (M : Int),
      loadLoop step lastSlot count ent indexstart rgbstart L = some spans →
      (∀ u ∈ ent, indexstart ≤ u.index) →
      List.Pairwise (fun a b : TRGBGradientPaletteEntryUnion => a.index ≤ b.index) ent →
      (∀ u ∈ ent, u.index < 256) → indexstart < 256 →
      -1 ≤ M → M ≤ lastSlot → ((indexstart / step : Nat) : Int) ≤ M + 1 →
      (255 ≤ indexstart → (lastSlot : Int) ≤ M) →
      (count < 16 → -1 ≤ L ∧ L ≤ M) →
      (∀ s ∈ spans, s.istart8 ≤ s.iend8 ∧ s.iend8 ≤ lastSlot) ∧
      (∀ j : Nat, j ≤ lastSlot →
        (j : Int) ≤ M ∨ ∃ s ∈ spans, s.istart8 ≤ j ∧ j ≤ s.iend8) := by
  intro ent
  induction ent with
  | nil =>
    intro indexstart rgbstart L spans M h _ _ _ _ _ _ _ h255 _
    rw [loadLoop] at h
    split at h
    · cases h
    · cases h
      constructor
      · intro s hs; cases hs
      · intro j hj
        left
        have := h255 (by omega)
        omega
  | cons u rest ih =>
    intro indexstart rgbstart L spans M h hge hpw hidx hi256 hM1 hM2 hMs h255 hL
    by_cases hi : indexstart < 255
    · have hu : u.index < 256 := hidx u (List.mem_cons_self _ _)
      have hsu : indexstart ≤ u.index := hge u (List.mem_cons_self _ _)
      have hdiv0 : indexstart / step ≤ u.index / step := Nat.div_le_div_right hsu
      have hdiv2 : u.index / step ≤ 255 / step := Nat.div_le_div_right (by omega)
      have hdiv3 : 255 / step ≤ 255 := Nat.div_le_self _ _
      have e1 : toUInt8 ((indexstart / step : Nat) : Int) = indexstart / step :=
        toUInt8_of_nat _ (by omega)
      have e2 : toUInt8 ((u.index / step : Nat) : Int) = u.index / step :=
        toUInt8_of_nat _ (by omega)
      rw [loadLoop_cons _ _ _ _ _ _ _ _ hi, e1, e2] at h
      obtain ⟨spans', h', rfl⟩ := Option.map_eq_some'.mp h
      obtain ⟨a1, a2, a3, a4, a5⟩ := adjustSlots_cover lastSlot count (indexstart / step)
        (u.index / step) L M hls2 hdiv0 (by omega) hMs hL
      generalize adjustSlots lastSlot count (indexstart / step) (u.index / step) L = r at *
      obtain ⟨hpw1, hpw2⟩ := List.pairwise_cons.mp hpw
      obtain ⟨m1, m2⟩ := ih u.index u.rgbw r.2.2 spans' (max M (r.2.1 : Int)) h'
        hpw1 hpw2 (fun v hv => hidx v (List.mem_cons_of_mem _ hv)) hu
        (le_trans hM1 (le_max_left _ _)) (max_le hM2 (by exact_mod_cast a2))
        (by
          have : ((u.index / step : Nat) : Int) ≤ (r.2.1 : Int) := by exact_mod_cast a4
          have := le_max_right M (r.2.1 : Int)
          omega)
        (by
          intro h5
          have e : u.index = 255 := by omega
          rw [e, hls] at a4
          have : (lastSlot : Int) ≤ (r.2.1 : Int) := by exact_mod_cast a4
          exact le_trans this (le_max_right _ _))
        (by
          intro hc
          rw [a5 hc]
          exact ⟨by omega, le_max_right _ _⟩)
      constructor
      · intro s hs
        rcases List.mem_cons.mp hs with e | e
        · subst e
          exact ⟨a1, a2⟩
        · exact m1 s e
      · intro j hj
        rcases m2 j hj with e | ⟨s, hs, hs2⟩
        · by_cases hjM : (j : Int) ≤ M
          · left; exact hjM
          · right
            refine ⟨⟨r.1, rgbstart, r.2.1, u.rgbw⟩, List.mem_cons_self _ _, ?_, ?_⟩
            · simp only
              omega
            · simp only
              rcases le_max_iff.mp e with e' | e'
              · omega
              · exact_mod_cast e'
        · right
          exact ⟨s, List.mem_cons_of_mem _ hs, hs2⟩
    · rw [loadLoop_stop _ _ _ _ _ _ _ hi] at h
      cases h
      constructor
      · intro s hs; cases hs
      · intro j hj
        left
        have := h255 (by omega)
        omega

theorem fill_gradient_RGB_inside (leds leds2 : Nat → CRGBW) (startpos endpos j : Nat)
    (startcolor endcolor : CRGBW) (hle : startpos ≤ endpos) (hj : startpos ≤ j ∧ j ≤ endpos) :
    fill_gradient_RGB leds startpos startcolor endpos endcolor j
      = fill_gradient_RGB leds2 startpos startcolor endpos endcolor j := by
  unfold fill_gradient_RGB
  rw [if_neg (by omega), if_neg (by omega)]
  unfold fill_gradient_RGB_ordered
  simp only [if_pos hj]

theorem applySpans_outside (spans : List GradientSpan) :
    ∀ (entries : Nat → CRGBW) (j : Nat),
      (∀ s ∈ spans, s.istart8 ≤ s.iend8 ∧ ¬ (s.istart8 ≤ j ∧ j ≤ s.iend8)) →
      applySpans entries spans j = entries j := by
  induction spans with
  | nil => intro entries j _; rfl
  | cons s spans ih =>
    intro entries j h
    rw [applySpans_cons, ih _ j (fun t ht => h t (List.mem_cons_of_mem _ ht))]
    have hs := h s (List.mem_cons_self _ _)
    exact fill_gradient_RGB_frame entries _ _ j _ _ hs.1 (by omega)

/-- A slot that lies in one of the spans is written: its value after the calls does not
depend on what the palette held before. -/
theorem applySpans_covered (spans : List GradientSpan) :
    (∀ s ∈ spans, s.istart8 ≤ s.iend8) →
    ∀ (entries entries2 : Nat → CRGBW) (j : Nat),
      (∃ s ∈ spans, s.istart8 ≤ j ∧ j ≤ s.iend8) →
      applySpans entries spans j = applySpans entries2 spans j := by
  induction spans with
  | nil =>
    intro _ entries entries2 j h
    obtain ⟨s, hs, -⟩ := h
    cases hs
  | cons s spans ih =>
    intro hle entries entries2 j h
    rw [applySpans_cons, applySpans_cons]
    by_cases hc : ∃ t ∈ spans, t.istart8 ≤ j ∧ j ≤ t.iend8
    · exact ih (fun t ht => hle t (List.mem_cons_of_mem _ ht)) _ _ j hc
    · have hout : ∀ t ∈ spans, t.istart8 ≤ t.iend8 ∧ ¬ (t.istart8 ≤ j ∧ j ≤ t.iend8) :=
        fun t ht => ⟨hle t (List.mem_cons_of_mem _ ht), fun hcov => hc ⟨t, ht, hcov⟩⟩
      rw [applySpans_outside spans _ j hout, applySpans_outside spans _ j hout]
      obtain ⟨t, ht, hcov⟩ := h
      rcases List.mem_cons.mp ht with e | e
      · subst e
        exact fill_gradient_RGB_inside _ _ _ _ j _ _ (hle t (List.mem_cons_self _ _)) hcov
      · exact absurd ⟨t, e, hcov⟩ hc

theorem loadLoop_spansCover (step lastSlot count : Nat) (hls : 255 / step = lastSlot)
    (hls2 : lastSlot ≤ 127) (first last : TRGBGradientPaletteEntryUnion)
    (mid : List TRGBGradientPaletteEntryUnion) (h255 : last.index = 255)
    (hne : ∀ u ∈ mid, u.index < 255)
    (hsorted : List.Pairwise (fun a b : TRGBGradientPaletteEntryUnion => a.index ≤ b.index)
      (first :: (mid ++ [last]))) :
    ∃ spans, loadLoop step lastSlot count (mid ++ [last]) 0 first.rgbw (-1) = some spans ∧
      SpansCover lastSlot spans := by
  obtain ⟨spans, hs, -⟩ := loadLoop_done step lastSlot count last h255 mid 0 first.rgbw (-1)
    hne (by omega)
  have hidx : ∀ u ∈ mid ++ [last], u.index < 256 := by
    intro u hu
    rcases List.mem_append.mp hu with e | e
    · have := hne u e; omega
    · rw [List.mem_singleton] at e; rw [e, h255]; omega
  obtain ⟨m1, m2⟩ := loadLoop_cover step lastSlot count hls hls2 (mid ++ [last]) 0 first.rgbw
    (-1) spans (-1) hs (fun u _ => Nat.zero_le _) (List.pairwise_cons.mp hsorted).2 hidx
    (by omega) (le_refl _) (by omega) (by simp) (by omega) (fun _ => ⟨le_refl _, le_refl _⟩)
  refine ⟨spans, hs, m1, ?_⟩
  intro j hj
  rcases m2 j hj with e | e
  · omega
  · exact e

/-- C26: for every compact gradient description with at least two entries, non-decreasing
positions and 255 occurring only as the last position, the main loop of the 16-entry
(resp. 32-entry) loader, whatever the count of entries it is given, returns spans
`(istart8, iend8)` that all satisfy `0 <= istart8 <= iend8 <= 15` (resp. `31`) and that
together cover every slot `0..15` (resp. `0..31`).  When the description has at most
65536 entries the loader returns with these spans, and no palette entry is left
unwritten: the value of every slot after the load does not depend on what the palette
held before. -/
theorem load_spans_cover (first last : TRGBGradientPaletteEntryUnion)
    (mid : List TRGBGradientPaletteEntryUnion) (h255 : last.index = 255)
    (hfirst : first.index < 255) (hne : ∀ u ∈ mid, u.index < 255)
    (hsorted : List.Pairwise (fun a b : TRGBGradientPaletteEntryUnion => a.index ≤ b.index)
      (first :: (mid ++ [last]))) :
    (∀ count, ∃ spans, loadLoop 16 15 count (mid ++ [last]) 0 first.rgbw (-1) = some spans ∧
      SpansCover 15 spans) ∧
    (∀ count, ∃ spans, loadLoop 8 31 count (mid ++ [last]) 0 first.rgbw (-1) = some spans ∧
      SpansCover 31 spans) ∧
    (∀ fuel, mid.length + 2 ≤ 65536 → mid.length + 1 < fuel →
      (∃ spans, CRGBWPalette16.loadDynamicGradientPalette_spans fuel
          (first :: (mid ++ [last])) = Outcome.done spans ∧ SpansCover 15 spans ∧
        ∀ (entries entries2 : Nat → CRGBW) (j : Nat), j ≤ 15 →
          applySpans entries spans j = applySpans entries2 spans j) ∧
      (∃ spans, CRGBWPalette32.loadDynamicGradientPalette_spans fuel
          (first :: (mid ++ [last])) = Outcome.done spans ∧ SpansCover 31 spans ∧
        ∀ (entries entries2 : Nat → CRGBW) (j : Nat), j ≤ 31 →
          applySpans entries spans j = applySpans entries2 spans j)) := by
  refine ⟨fun count => loadLoop_spansCover 16 15 count (by decide) (by decide) first last mid
      h255 hne hsorted,
    fun count => loadLoop_spansCover 8 31 count (by decide) (by decide) first last mid
      h255 hne hsorted, ?_⟩
  intro fuel hlen hf
  constructor
  · obtain ⟨spans, hs, hloop, -⟩ := loadSpans_done 16 15 fuel first last mid h255 hfirst hne
      (by omega) hf
    obtain ⟨spans2, hloop2, hcover⟩ := loadLoop_spansCover 16 15
      (toUInt16 (((mid.length + 1 : Nat) : Int) + 1)) (by decide) (by decide) first last mid
      h255 hne hsorted
    rw [hloop] at hloop2
    cases hloop2
    refine ⟨spans, hs, hcover, ?_⟩
    intro entries entries2 j hj
    exact applySpans_covered spans (fun s hs => (hcover.1 s hs).1) entries entries2 j
      (hcover.2 j hj)
  · obtain ⟨spans, hs, hloop, -⟩ := loadSpans_done 8 31 fuel first last mid h255 hfirst hne
      (by omega) hf
    obtain ⟨spans2, hloop2, hcover⟩ := loadLoop_spansCover 8 31
      (toUInt16 (((mid.length + 1 : Nat) : Int) + 1)) (by decide) (by decide) first last mid
      h255 hne hsorted
    rw [hloop] at hloop2
    cases hloop2
    refine ⟨spans, hs, hcover, ?_⟩
    intro entries entries2 j hj
    exact applySpans_covered spans (fun s hs => (hcover.1 s hs).1) entries entries2 j
      (hcover.2 j hj)

theorem load_spans_cover_witness :
    (∀ count, ∃ spans, loadLoop 16 15 count
        ([⟨230, 255, 0, 0, 0⟩, ⟨231, 0, 255, 0, 0⟩, ⟨232, 0, 0, 255, 0⟩] ++ [⟨255, 0, 0, 0, 255⟩]) 0
        (⟨0, 1, 2, 3, 4⟩ : TRGBGradientPaletteEntryUnion).rgbw (-1) = some spans ∧
      SpansCover 15 spans) ∧
    (∀ count, ∃ spans, loadLoop 8 31 count
        ([⟨230, 255, 0, 0, 0⟩, ⟨231, 0, 255, 0, 0⟩, ⟨232, 0, 0, 255, 0⟩] ++ [⟨255, 0, 0, 0, 255⟩]) 0
        (⟨0, 1, 2, 3, 4⟩ : TRGBGradientPaletteEntryUnion).rgbw (-1) = some spans ∧
      SpansCover 31 spans) ∧
    (∀ fuel,
      ([⟨230, 255, 0, 0, 0⟩, ⟨231, 0, 255, 0, 0⟩, ⟨232, 0, 0, 255, 0⟩]
        : List TRGBGradientPaletteEntryUnion).length + 2 ≤ 65536 →
      ([⟨230, 255, 0, 0, 0⟩, ⟨231, 0, 255, 0, 0⟩, ⟨232, 0, 0, 255, 0⟩]
        : List TRGBGradientPaletteEntryUnion).length + 1 < fuel →
      (∃ spans, CRGBWPalette16.loadDynamicGradientPalette_spans fuel
          (⟨0, 1, 2, 3, 4⟩ :: ([⟨230, 255, 0, 0, 0⟩, ⟨231, 0, 255, 0, 0⟩, ⟨232, 0, 0, 255, 0⟩]
            ++ [⟨255, 0, 0, 0, 255⟩])) = Outcome.done spans ∧ SpansCover 15 spans ∧
        ∀ (entries entries2 : Nat → CRGBW) (j : Nat), j ≤ 15 →
          applySpans entries spans j = applySpans entries2 spans j) ∧
      (∃ spans, CRGBWPalette32.loadDynamicGradientPalette_spans fuel
          (⟨0, 1, 2, 3, 4⟩ :: ([⟨230, 255, 0, 0, 0⟩, ⟨231, 0, 255, 0, 0⟩, ⟨232, 0, 0, 255, 0⟩]
            ++ [⟨255, 0, 0, 0, 255⟩])) = Outcome.done spans ∧ SpansCover 31 spans ∧
        ∀ (entries entries2 : Nat → CRGBW) (j : Nat), j ≤ 31 →
          applySpans entries spans j = applySpans entries2 spans j)) :=
  load_spans_cover ⟨0, 1, 2, 3, 4⟩ ⟨255, 0, 0, 0, 255⟩
    [⟨230, 255, 0, 0, 0⟩, ⟨231, 0, 255, 0, 0⟩, ⟨232, 0, 0, 255, 0⟩]
    (by decide) (by decide) (by decide) (by decide)

/-! ## Each span starts one slot after the previous one -/

/-- The loop that counts the entries stops at the first entry at position 255, whatever
follows it. -/
theorem countEntries_done_append (init : List TRGBGradientPaletteEntryUnion)
    (last : TRGBGradientPaletteEntryUnion) (extra : List TRGBGradientPaletteEntryUnion)
    (h255 : last.index = 255) (hne : ∀ u ∈ init, u.index < 255) (hlen : init.length < 65536) :
    ∀ (fuel count : Nat), count ≤ init.length → init.length - count < fuel →
      countEntries (init ++ last :: extra) fuel count
        = Outcome.done (toUInt16 ((init.length : Int) + 1)) := by
  intro fuel
  induction fuel with
  | zero => intro count _ hf; omega
  | succ fuel ih =>
    intro count hc hf
    unfold countEntries
    rcases Nat.eq_or_lt_of_le hc with e | e
    · subst e
      have hget : (init ++ last :: extra)[init.length]? = some last := by
        rw [List.getElem?_append_right (le_refl _)]
        simp
      rw [hget]
      simp only [h255, ne_eq, not_true_eq_false, if_false]
    · have hget : (init ++ last :: extra)[count]? = some (init.get ⟨count, e⟩) := by
        rw [List.getElem?_append_left e]
        exact List.getElem?_eq_getElem e
      rw [hget]
      have hidx : (init.get ⟨count, e⟩).index < 255 := hne _ (List.get_mem _ _ _)
      have hnot : (init.get ⟨count, e⟩).index ≠ 255 := by omega
      simp only [hnot, ne_eq, not_false_eq_true, if_true]
      have hc1 : toUInt16 ((count : Int) + 1) = count + 1 := by
        have := toUInt16_of_nat (count + 1) (by omega)
        simpa using this
      rw [hc1]
      exact ih (count + 1) (by omega) (by omega)

/-- The main loop of the 16- and 32-entry loaders stops after the first entry at position
255, whatever follows it. -/
theorem loadLoop_done_append (step lastSlot count : Nat) (last : TRGBGradientPaletteEntryUnion)
    (extra : List TRGBGradientPaletteEntryUnion) (h255 : last.index = 255) :
    ∀ (init : List TRGBGradientPaletteEntryUnion) (indexstart : Nat) (rgbstart : CRGBW)
      (lastSlotUsed : Int), (∀ u ∈ init, u.index < 255) → indexstart < 255 →
      ∃ spans, loadLoop step lastSlot count (init ++ last :: extra) indexstart rgbstart
          lastSlotUsed = some spans ∧ spans.length = init.length + 1 := by
  intro init
  induction init with
  | nil =>
    intro indexstart rgbstart lastSlotUsed _ hi
    rw [List.nil_append, loadLoop_cons _ _ _ _ _ _ _ _ hi,
      loadLoop_stop _ _ _ _ _ _ _ (by omega)]
    exact ⟨_, rfl, rfl⟩
  | cons u init ih =>
    intro indexstart rgbstart lastSlotUsed hne hi
    have hu : u.index < 255 := hne u (List.mem_cons_self _ _)
    obtain ⟨spans, hs, hl⟩ := ih u.index u.rgbw
      (adjustSlots lastSlot count (toUInt8 ((indexstart / step : Nat) : Int))
        (toUInt8 ((u.index / step : Nat) : Int)) lastSlotUsed).2.2
      (fun v hv => hne v (List.mem_cons_of_mem _ hv)) hu
    rw [List.cons_append, loadLoop_cons _ _ _ _ _ _ _ _ hi, hs]
    exact ⟨_, rfl, by simp [hl]⟩

theorem adjustSlots_next (lastSlot count istart8 iend8 : Nat) (L : Int) (hc : count < 16)
    (hls : lastSlot ≤ 127) (hL1 : -1 ≤ L)
    (hJ : (L = -1 ∧ istart8 = 0) ∨ (0 ≤ L ∧ (istart8 : Int) ≤ L)) (hiend : iend8 ≤ lastSlot) :
    (adjustSlots lastSlot count istart8 iend8 L).2.1 ≤ lastSlot ∧
    (adjustSlots lastSlot count istart8 iend8 L).2.2
      = ((adjustSlots lastSlot count istart8 iend8 L).2.1 : Int) ∧
    iend8 ≤ (adjustSlots lastSlot count istart8 iend8 L).2.1 ∧
    (L < lastSlot → ((adjustSlots lastSlot count istart8 iend8 L).1 : Int) = L + 1 ∧
      (adjustSlots lastSlot count istart8 iend8 L).1
        ≤ (adjustSlots lastSlot count istart8 iend8 L).2.1) := by
  unfold adjustSlots
  rw [if_pos hc]
  by_cases h1 : (istart8 : Int) ≤ L ∧ L < (lastSlot : Int)
  · rw [if_pos h1]
    have e : toUInt8 (L + 1) = (L + 1).toNat := by unfold toUInt8; omega
    simp only [e]
    by_cases h2 : iend8 < (L + 1).toNat
    · simp only [if_pos h2]
      unfold toInt8
      omega
    · simp only [if_neg h2]
      unfold toInt8
      omega
  · rw [if_neg h1]
    simp only
    unfold toInt8
    omega

theorem loadLoop_next_slot (step lastSlot count : Nat)
    (hls : 255 / step ≤ lastSlot) (hls2 : lastSlot ≤ 127) (hc : count < 16) :
    ∀ (ent : List TRGBGradientPaletteEntryUnion) (indexstart : Nat) (rgbstart : CRGBW)
      (L : Int) (spans : List GradientSpan),
      loadLoop step lastSlot count ent indexstart rgbstart L = some spans →
      ((L = -1 ∧ indexstart = 0) ∨ (0 ≤ L ∧ ((indexstart / step : Nat) : Int) ≤ L)) →
      -1 ≤ L → L ≤ lastSlot → indexstart < 256 → (∀ u ∈ ent, u.index < 256) →
      (∀ (s : GradientSpan), spans[0]? = some s → L < lastSlot →
        (s.istart8 : Int) = L + 1 ∧ s.istart8 ≤ s.iend8) ∧
      (∀ (k : Nat) (s t : GradientSpan), spans[k]? = some s → spans[k + 1]? = some t →
        s.iend8 < lastSlot → t.istart8 = s.iend8 + 1 ∧ t.istart8 ≤ t.iend8) := by
  intro ent
  induction ent with
  | nil =>
    intro indexstart rgbstart L spans h _ _ _ _ _
    have hnil : spans = [] := by
      rw [loadLoop] at h
      split at h
      · cases h
      · cases h; rfl
    subst hnil
    constructor
    · intro s hs; simp at hs
    · intro k s t hs; simp at hs
  | cons u rest ih =>
    intro indexstart rgbstart L spans h hJ hL1 hL2 hidx hwf
    by_cases hi : indexstart < 255
    · have hu : u.index < 256 := hwf u (List.mem_cons_self _ _)
      have hdiv1 : indexstart / step ≤ 255 / step := Nat.div_le_div_right (by omega)
      have hdiv2 : u.index / step ≤ 255 / step := Nat.div_le_div_right (by omega)
      have hdiv3 : 255 / step ≤ 255 := Nat.div_le_self _ _
      have e1 : toUInt8 ((indexstart / step : Nat) : Int) = indexstart / step :=
        toUInt8_of_nat _ (by omega)
      have e2 : toUInt8 ((u.index / step : Nat) : Int) = u.index / step :=
        toUInt8_of_nat _ (by omega)
      rw [loadLoop_cons _ _ _ _ _ _ _ _ hi, e1, e2] at h
      obtain ⟨spans', h', rfl⟩ := Option.map_eq_some'.mp h
      have hJ' : (L = -1 ∧ indexstart / step = 0) ∨
          (0 ≤ L ∧ ((indexstart / step : Nat) : Int) ≤ L) := by
        rcases hJ with ⟨a, b⟩ | c
        · left; exact ⟨a, by rw [b]; exact Nat.zero_div _⟩
        · right; exact c
      obtain ⟨a1, a2, a3, a4⟩ := adjustSlots_next lastSlot count (indexstart / step)
        (u.index / step) L hc hls2 hL1 hJ' (by omega)
      generalize adjustSlots lastSlot count (indexstart / step) (u.index / step) L = r at *
      obtain ⟨m1, m2⟩ := ih u.index u.rgbw r.2.2 spans' h'
        (Or.inr ⟨by omega, by omega⟩) (by omega) (by omega) hu
        (fun v hv => hwf v (List.mem_cons_of_mem _ hv))
      constructor
      · intro s hs hlt
        simp only [List.getElem?_cons_zero, Option.some.injEq] at hs
        subst hs
        exact a4 hlt
      · intro k s t hs ht hlt
        cases k with
        | zero =>
          simp only [List.getElem?_cons_zero, Option.some.injEq] at hs
          subst hs
          simp only [zero_add, List.getElem?_cons_succ] at ht
          simp only at hlt
          obtain ⟨b1, b2⟩ := m1 t ht (by omega)
          refine ⟨?_, b2⟩
          simp only
          omega
        | succ k =>
          simp only [List.getElem?_cons_succ] at hs ht
          exact m2 k s t hs ht hlt
    · rw [loadLoop_stop _ _ _ _ _ _ _ hi] at h
      cases h
      constructor
      · intro s hs; simp at hs
      · intro k s t hs; simp at hs

/-- Spans that each start one slot after the previous one do not overlap. -/
theorem chained_disjoint (lastSlot : Nat) (spans : List GradientSpan)
    (hch : ∀ (k : Nat) (s t : GradientSpan), spans[k]? = some s → spans[k + 1]? = some t →
      s.iend8 < lastSlot → t.istart8 = s.iend8 + 1 ∧ t.istart8 ≤ t.iend8) :
    ∀ (d i : Nat) (s t : GradientSpan), spans[i]? = some s → spans[i + d + 1]? = some t →
      (∀ (m : Nat) (u : GradientSpan), m < i + d + 1 → spans[m]? = some u →
        u.iend8 < lastSlot) →
      s.iend8 < t.istart8 ∧ t.istart8 ≤ t.iend8 := by
  intro d
  induction d with
  | zero =>
    intro i s t hs ht hall
    obtain ⟨b1, b2⟩ := hch i s t hs ht (hall i s (by omega) hs)
    exact ⟨by omega, b2⟩
  | succ d ih =>
    intro i s t hs ht hall
    have hlen : i + (d + 1) + 1 < spans.length := by
      by_contra hcon
      rw [List.getElem?_eq_none (by omega)] at ht
      cases ht
    have hu : spans[i + d + 1]? = some (spans.get ⟨i + d + 1, by omega⟩) :=
      List.getElem?_eq_getElem (by omega)
    obtain ⟨c1, c2⟩ := ih i s _ hs hu (fun m u hm hmu => hall m u (by omega) hmu)
    obtain ⟨b1, b2⟩ := hch (i + d + 1) _ t hu ht (hall (i + d + 1) _ (by omega) hu)
    exact ⟨by omega, b2⟩

theorem countEntries_first (first : TRGBGradientPaletteEntryUnion)
    (rest : List TRGBGradientPaletteEntryUnion) (h : first.index = 255) (fuel : Nat) :
    countEntries (first :: rest) (fuel + 1) 0 = Outcome.done 1 := by
  unfold countEntries
  simp only [List.getElem?_cons_zero, h, ne_eq, not_true_eq_false, if_false]
  rfl

/-- C27: for every compact gradient description with between 2 and 15 entries whose
positions end in 255 (the main loop stops at the first entry after the first one that is at
position 255), the 16-entry loader returns, and each span after the first starts exactly
one slot after the previous span's end slot whenever the previous span ended before slot
15; hence two different spans have no slot in common as long as every span before the
later one ended before slot 15. -/
theorem load16_spans_chain (fuel : Nat) (first last : TRGBGradientPaletteEntryUnion)
    (mid extra : List TRGBGradientPaletteEntryUnion) (h255 : last.index = 255)
    (hfirst : first.index < 256) (hne : ∀ u ∈ mid, u.index < 255)
    (hextra : ∀ u ∈ extra, u.index < 256)
    (hcount : mid.length + extra.length + 2 ≤ 15) (hf : mid.length + 1 < fuel) :
    ∃ spans, CRGBWPalette16.loadDynamicGradientPalette_spans fuel
        (first :: (mid ++ last :: extra)) = Outcome.done spans ∧
      spans.length = mid.length + 1 ∧
      (∀ (k : Nat) (s t : GradientSpan), spans[k]? = some s → spans[k + 1]? = some t →
        s.iend8 < 15 → t.istart8 = s.iend8 + 1) ∧
      (∀ (i j : Nat) (s t : GradientSpan), i < j → spans[i]? = some s → spans[j]? = some t →
        (∀ (m : Nat) (u : GradientSpan), m < j → spans[m]? = some u → u.iend8 < 15) →
        s.istart8 ≤ s.iend8 ∧ s.iend8 < t.istart8 ∧ t.istart8 ≤ t.iend8) := by
  obtain ⟨count, hcnt, hc⟩ : ∃ count, countEntries (first :: (mid ++ last :: extra)) fuel 0
      = Outcome.done count ∧ count < 16 := by
    by_cases h : first.index = 255
    · obtain ⟨f, rfl⟩ : ∃ f, fuel = f + 1 := ⟨fuel - 1, by omega⟩
      exact ⟨1, countEntries_first first _ h f, by decide⟩
    · have hmem : ∀ u ∈ first :: mid, u.index < 255 := by
        intro u hu
        rcases List.mem_cons.mp hu with e | e
        · rw [e]; omega
        · exact hne u e
      have hl1 : (first :: mid).length = mid.length + 1 := List.length_cons _ _
      have := countEntries_done_append (first :: mid) last extra h255 hmem (by omega) fuel 0
        (Nat.zero_le _) (by omega)
      rw [hl1] at this
      refine ⟨_, this, ?_⟩
      unfold toUInt16
      omega
  obtain ⟨spans, hs, hl⟩ := loadLoop_done_append 16 15 count last extra h255 mid 0 first.rgbw
    (-1) hne (by omega)
  have hidx : ∀ u ∈ mid ++ last :: extra, u.index < 256 := by
    intro u hu
    rcases List.mem_append.mp hu with e | e
    · have := hne u e; omega
    · rcases List.mem_cons.mp e with e' | e'
      · rw [e', h255]; omega
      · exact hextra u e'
  obtain ⟨m1, m2⟩ := loadLoop_next_slot 16 15 count (by decide) (by decide) hc
    (mid ++ last :: extra) 0 first.rgbw (-1) spans hs (Or.inl ⟨rfl, rfl⟩) (le_refl _)
    (by decide) (by decide) hidx
  refine ⟨spans, ?_, hl, fun k s t hk ht hlt => (m2 k s t hk ht hlt).1, ?_⟩
  · unfold CRGBWPalette16.loadDynamicGradientPalette_spans loadSpans
    rw [hcnt]
    simp only [hs]
  · intro i j s t hij hsi htj hall
    obtain ⟨d, rfl⟩ : ∃ d, j = i + d + 1 := ⟨j - i - 1, by omega⟩
    obtain ⟨c1, c2⟩ := chained_disjoint 15 spans m2 d i s t hsi htj hall
    refine ⟨?_, c1, c2⟩
    cases i with
    | zero => exact (m1 s hsi (by decide)).2
    | succ i =>
      have hlen : i + 1 < spans.length := by
        by_contra hcon
        rw [List.getElem?_eq_none (by omega)] at hsi
        cases hsi
      have hv : spans[i]? = some (spans.get ⟨i, by omega⟩) :=
        List.getElem?_eq_getElem (by omega)
      exact (m2 i _ s hv hsi (hall i _ (by omega) hv)).2

theorem load16_spans_chain_witness :
    ∃ spans, CRGBWPalette16.loadDynamicGradientPalette_spans 6
        (⟨0, 1, 2, 3, 4⟩ :: ([⟨10, 255, 0, 0, 0⟩, ⟨20, 0, 255, 0, 0⟩, ⟨240, 0, 0, 255, 0⟩]
          ++ ⟨255, 0, 0, 0, 255⟩ :: [⟨255, 9, 9, 9, 9⟩])) = Outcome.done spans ∧
      spans.length = ([⟨10, 255, 0, 0, 0⟩, ⟨20, 0, 255, 0, 0⟩, ⟨240, 0, 0, 255, 0⟩]
        : List TRGBGradientPaletteEntryUnion).length + 1 ∧
      (∀ (k : Nat) (s t : GradientSpan), spans[k]? = some s → spans[k + 1]? = some t →
        s.iend8 < 15 → t.istart8 = s.iend8 + 1) ∧
      (∀ (i j : Nat) (s t : GradientSpan), i < j → spans[i]? = some s → spans[j]? = some t →
        (∀ (m : Nat) (u : GradientSpan), m < j → spans[m]? = some u → u.iend8 < 15) →
        s.istart8 ≤ s.iend8 ∧ s.iend8 < t.istart8 ∧ t.istart8 ≤ t.iend8) :=
  load16_spans_chain 6 ⟨0, 1, 2, 3, 4⟩ ⟨255, 0, 0, 0, 255⟩
    [⟨10, 255, 0, 0, 0⟩, ⟨20, 0, 255, 0, 0⟩, ⟨240, 0, 0, 255, 0⟩] [⟨255, 9, 9, 9, 9⟩]
    (by decide) (by decide) (by decide) (by decide) (by decide) (by decide)

/-! ## The stops of a description in a 256-entry palette -/

theorem loadLoop256_stops :
    ∀ (ent : List TRGBGradientPaletteEntryUnion) (indexstart : Nat) (rgbstart : CRGBW)
      (spans : List GradientSpan),
      loadLoop256 ent indexstart rgbstart = some spans →
      (∀ u ∈ ent, indexstart < u.index) →
      List.Pairwise (fun a b : TRGBGradientPaletteEntryUnion => a.index < b.index) ent →
      (∀ u ∈ ent, u.wf) → rgbstart.wf → indexstart < 256 →
      (∀ s ∈ spans, indexstart ≤ s.istart8 ∧ s.istart8 < s.iend8) ∧
      (∀ (entries : Nat → CRGBW) (k : Nat) (s : GradientSpan), spans[k]? = some s →
        applySpans entries spans s.istart8 = s.rgbstart) ∧
      (∀ (k : Nat) (s : GradientSpan), spans[k]? = some s →
        ((indexstart, rgbstart) :: ent.map (fun u => (u.index, u.rgbw)))[k]?
          = some (s.istart8, s.rgbstart)) := by
  intro ent
  induction ent with
  | nil =>
    intro indexstart rgbstart spans h _ _ _ _ _
    have hnil : spans = [] := by
      rw [loadLoop256] at h
      split at h
      · cases h
      · cases h; rfl
    subst hnil
    refine ⟨?_, ?_, ?_⟩
    · intro s hs; cases hs
    · intro _ k s hs; simp at hs
    · intro k s hs; simp at hs
  | cons u rest ih =>
    intro indexstart rgbstart spans h hgt hpw hwf hrgb hidx
    by_cases hi : indexstart < 255
    · have huwf : u.wf := hwf u (List.mem_cons_self _ _)
      have hu : u.index < 256 := huwf.1
      have hsu : indexstart < u.index := hgt u (List.mem_cons_self _ _)
      have e1 : toUInt16 (indexstart : Int) = indexstart := toUInt16_of_nat _ (by omega)
      have e2 : toUInt16 (u.index : Int) = u.index := toUInt16_of_nat _ (by omega)
      rw [loadLoop256_cons _ _ _ _ hi, e1, e2] at h
      obtain ⟨spans', h', rfl⟩ := Option.map_eq_some'.mp h
      obtain ⟨hpw1, hpw2⟩ := List.pairwise_cons.mp hpw
      obtain ⟨m1, m2, m3⟩ := ih u.index u.rgbw spans' h' hpw1 hpw2
        (fun v hv => hwf v (List.mem_cons_of_mem _ hv))
        ⟨huwf.2.1, huwf.2.2.1, huwf.2.2.2.1, huwf.2.2.2.2⟩ hu
      refine ⟨?_, ?_, ?_⟩
      · intro s hs
        rcases List.mem_cons.mp hs with e | e
        · subst e
          exact ⟨le_refl _, hsu⟩
        · obtain ⟨b1, b2⟩ := m1 s e
          exact ⟨by omega, b2⟩
      · intro entries k s hs
        cases k with
        | zero =>
          simp only [List.getElem?_cons_zero, Option.some.injEq] at hs
          subst hs
          rw [applySpans_cons, applySpans_frame _ _ _ (fun t ht => by
            obtain ⟨b1, b2⟩ := m1 t ht
            exact ⟨by simp only; omega, by omega⟩)]
          exact fill_gradient_RGB_start entries _ _ _ _ (by simp only; omega) hrgb
        | succ k =>
          simp only [List.getElem?_cons_succ] at hs
          rw [applySpans_cons]
          exact m2 _ k s hs
      · intro k s hs
        cases k with
        | zero =>
          simp only [List.getElem?_cons_zero, Option.some.injEq] at hs
          subst hs
          rfl
        | succ k =>
          simp only [List.getElem?_cons_succ] at hs
          have := m3 k s hs
          simpa using this
    · rw [loadLoop256_stop _ _ _ hi] at h
      cases h
      refine ⟨?_, ?_, ?_⟩
      · intro s hs; cases hs
      · intro _ k s hs; simp at hs
      · intro k s hs; simp at hs

/-- The path `CRGBWPalette256::loadDynamicGradientPalette`, which copies each entry whole
(`u = *ent`): for every compact gradient description with strictly increasing positions
that start at 0 and end at 255 it returns, and in the loaded palette each stop other than
the last appears verbatim (all four channels) at the entry indexed by its position
(`fill_gradient_RGB` being the per-channel ramp that writes the start colour at the start
index). -/
theorem load256_keeps_stops (entries : Nat → CRGBW)
    (first last : TRGBGradientPaletteEntryUnion) (mid : List TRGBGradientPaletteEntryUnion)
    (h0 : first.index = 0) (h255 : last.index = 255)
    (hsorted : List.Pairwise (fun a b : TRGBGradientPaletteEntryUnion => a.index < b.index)
      (first :: (mid ++ [last])))
    (hwf : ∀ u ∈ first :: (mid ++ [last]), u.wf) :
    ∃ pal,
      CRGBWPalette256.loadDynamicGradientPalette entries (first :: (mid ++ [last]))
        = Outcome.done pal ∧
      ∀ (k : Nat) (u : TRGBGradientPaletteEntryUnion), (first :: mid)[k]? = some u →
        pal u.index = u.rgbw := by
  obtain ⟨hpw1, hpw2⟩ := List.pairwise_cons.mp hsorted
  have hne : ∀ u ∈ mid, u.index < 255 := by
    intro u hu
    have := (List.pairwise_append.mp hpw2).2.2 u hu last (List.mem_singleton_self _)
    omega
  obtain ⟨spans, hs, hlen⟩ := loadLoop256_done last h255 mid 0 first.rgbw hne (by omega)
  have hwf1 : first.wf := hwf first (List.mem_cons_self _ _)
  obtain ⟨-, m2, m3⟩ := loadLoop256_stops (mid ++ [last]) 0 first.rgbw spans hs
    (fun u hu => by have := hpw1 u hu; omega) hpw2
    (fun u hu => hwf u (List.mem_cons_of_mem _ hu))
    ⟨hwf1.2.1, hwf1.2.2.1, hwf1.2.2.2.1, hwf1.2.2.2.2⟩ (by omega)
  refine ⟨applySpans entries spans, ?_, ?_⟩
  · unfold CRGBWPalette256.loadDynamicGradientPalette
      CRGBWPalette256.loadDynamicGradientPalette_spans
    simp only [hs]
  · intro k u hk
    have hklt : k < (first :: mid).length := by
      by_contra hcon
      rw [List.getElem?_eq_none (by omega)] at hk
      cases hk
    have hk2 : k < spans.length := by
      rw [hlen]; simpa using hklt
    have hsk : spans[k]? = some (spans.get ⟨k, hk2⟩) := List.getElem?_eq_getElem hk2
    have hcol := m3 k _ hsk
    have hcol2 : ((0, first.rgbw) :: (mid ++ [last]).map (fun u => (u.index, u.rgbw)))[k]?
        = some (u.index, u.rgbw) := by
      have e : ((0, first.rgbw) :: (mid ++ [last]).map (fun u => (u.index, u.rgbw)))
          = (first :: mid).map (fun u => (u.index, u.rgbw))
            ++ [last].map (fun u => (u.index, u.rgbw)) := by
        simp [h0]
      rw [e, List.getElem?_append_left (by simpa using hklt), List.getElem?_map, hk]
      rfl
    rw [hcol2] at hcol
    have hpair := Option.some.inj hcol
    have hidx : (spans.get ⟨k, hk2⟩).istart8 = u.index := (congrArg Prod.fst hpair).symm
    have hrgb : (spans.get ⟨k, hk2⟩).rgbstart = u.rgbw := (congrArg Prod.snd hpair).symm
    rw [← hidx, m2 entries k _ hsk, hrgb]

theorem load256_keeps_stops_witness :
    ∃ pal,
      CRGBWPalette256.loadDynamicGradientPalette (fun _ => ⟨7, 7, 7, 7⟩)
        (⟨0, 1, 2, 3, 4⟩ :: ([⟨124, 0, 0, 0, 0⟩, ⟨125, 255, 0, 0, 0⟩, ⟨126, 0, 0, 0, 0⟩]
          ++ [⟨255, 0, 0, 0, 255⟩])) = Outcome.done pal ∧
      ∀ (k : Nat) (u : TRGBGradientPaletteEntryUnion),
        ((⟨0, 1, 2, 3, 4⟩ : TRGBGradientPaletteEntryUnion)
          :: [⟨124, 0, 0, 0, 0⟩, ⟨125, 255, 0, 0, 0⟩, ⟨126, 0, 0, 0, 0⟩])[k]? = some u →
        pal u.index = u.rgbw :=
  load256_keeps_stops (fun _ => ⟨7, 7, 7, 7⟩) ⟨0, 1, 2, 3, 4⟩ ⟨255, 0, 0, 0, 255⟩
    [⟨124, 0, 0, 0, 0⟩, ⟨125, 255, 0, 0, 0⟩, ⟨126, 0, 0, 0, 0⟩] (by decide) (by decide)
    (by decide) (by decide)

/-! ## When the write loop exits -/

/-- With `endpos = 65535` the test `i <= endpos` of the write loop holds for every 16-bit
`i`: the loop stores a pixel for every unit of fuel and never exits. -/
theorem loop_never_exits (dh ds dv : Int) :
    ∀ (fuel i h s v : Nat), i < 65536 →
      (fill_gradient_loop 65535 dh ds dv fuel i h s v).exited = false ∧
      (fill_gradient_loop 65535 dh ds dv fuel i h s v).writes.length = fuel := by
  intro fuel
  induction fuel with
  | zero =>
    intro i h s v _
    exact ⟨rfl, rfl⟩
  | succ fuel ih =>
    intro i h s v hi
    have hi' : i ≤ 65535 := by omega
    simp only [fill_gradient_loop, hi', if_true, List.length_cons]
    have := ih (toUInt16 ((i : Int) + 1)) (accum88 (↑h + dh)) (accum88 (↑s + ds))
      (accum88 (↑v + dv)) (toUInt16_lt _)
    exact ⟨this.1, by rw [this.2]⟩

theorem ordered_never_exits (fuel startpos : Nat) (startcolor endcolor : CHSV)
    (dir : TGradientDirectionCode) (hs : startpos < 65536) :
    (fill_gradient_ordered fuel startpos startcolor 65535 endcolor dir).exited = false ∧
    (fill_gradient_ordered fuel startpos startcolor 65535 endcolor dir).writes.length
      = fuel := by
  unfold fill_gradient_ordered
  exact loop_never_exits _ _ _ fuel startpos _ _ _ hs

theorem fill_gradient_never_exits (fuel startpos endpos : Nat) (startcolor endcolor : CHSV)
    (dir : TGradientDirectionCode) (hs : startpos < 65536) (he : endpos < 65536)
    (hmax : max startpos endpos = 65535) :
    (fill_gradient fuel startpos startcolor endpos endcolor dir).exited = false ∧
    (fill_gradient fuel startpos startcolor endpos endcolor dir).writes.length = fuel := by
  rcases Nat.lt_or_ge endpos startpos with h | h
  · rw [fill_gradient_of_lt _ _ _ _ _ _ h]
    have e : startpos = 65535 := by rw [max_eq_left (le_of_lt h)] at hmax; exact hmax
    subst e
    exact ordered_never_exits fuel endpos endcolor startcolor dir he
  · rw [fill_gradient_of_le _ _ _ _ _ _ h]
    have e : endpos = 65535 := by rw [max_eq_right h] at hmax; exact hmax
    subst e
    exact ordered_never_exits fuel startpos startcolor endcolor dir hs

theorem andThen_not_exited (r₁ r₂ : Run) (h : r₂.exited = false) :
    (r₁.andThen r₂).exited = false := by
  unfold Run.andThen
  split
  · exact h
  · rename_i h1
    simpa using h1

theorem fill_gradient_writes_length (fuel startpos endpos : Nat) (startcolor endcolor : CHSV)
    (dir : TGradientDirectionCode) (hmax : max startpos endpos < 65535)
    (hf : ((endpos : Int) - (startpos : Int)).natAbs + 1 < fuel) :
    (fill_gradient fuel startpos startcolor endpos endcolor dir).exited = true ∧
    (fill_gradient fuel startpos startcolor endpos endcolor dir).writes.length
      = ((endpos : Int) - (startpos : Int)).natAbs + 1 := by
  have hs : startpos < 65535 := lt_of_le_of_lt (le_max_left _ _) hmax
  have he : endpos < 65535 := lt_of_le_of_lt (le_max_right _ _) hmax
  rcases Nat.lt_or_ge endpos startpos with h | h
  · rw [fill_gradient_of_lt _ _ _ _ _ _ h]
    have e : ((endpos : Int) - (startpos : Int)).natAbs = startpos - endpos := by omega
    rw [e] at hf ⊢
    exact ordered_exit fuel endpos startpos endcolor startcolor dir hs (le_of_lt h) hf
  · rw [fill_gradient_of_le _ _ _ _ _ _ h]
    have e : ((endpos : Int) - (startpos : Int)).natAbs = endpos - startpos := by omega
    rw [e] at hf ⊢
    exact ordered_exit fuel startpos endpos startcolor endcolor dir he h hf

/-- C31: for 16-bit positions with `max(startpos, endpos) < 65535` the write loop of
`fill_gradient` performs exactly `|endpos - startpos| + 1` writes and exits; when the end
position of the loop, `max(startpos, endpos)`, is 65535 the loop never exits: for every
amount of fuel the call has not returned and has performed one write per unit of fuel.
65535 is `numLeds - 1` in 16 bits for `numLeds = 0`, and called with `numLeds = 0` none of
the 2-, 3- and 4-stop overloads returns. -/
theorem fill_gradient_exits_iff_below_65535 (startpos endpos : Nat)
    (startcolor endcolor c1 c2 c3 c4 : CHSV) (dir : TGradientDirectionCode)
    (hs : startpos < 65536) (he : endpos < 65536) :
    (max startpos endpos < 65535 → ∀ fuel,
      ((endpos : Int) - (startpos : Int)).natAbs + 1 < fuel →
      (fill_gradient fuel startpos startcolor endpos endcolor dir).exited = true ∧
      (fill_gradient fuel startpos startcolor endpos endcolor dir).writes.length
        = ((endpos : Int) - (startpos : Int)).natAbs + 1) ∧
    (max startpos endpos = 65535 → ∀ fuel,
      (fill_gradient fuel startpos startcolor endpos endcolor dir).exited = false ∧
      (fill_gradient fuel startpos startcolor endpos endcolor dir).writes.length = fuel) ∧
    toUInt16 (((0 : Nat) : Int) - 1) = 65535 ∧
    (∀ fuel, (fill_gradient2 fuel 0 c1 c2 dir).exited = false) ∧
    (∀ fuel, (fill_gradient3 fuel 0 c1 c2 c3 dir).exited = false) ∧
    (∀ fuel, (fill_gradient4 fuel 0 c1 c2 c3 c4 dir).exited = false) := by
  have hlast : toUInt16 (((0 : Nat) : Int) - 1) = 65535 := by decide
  refine ⟨fun hmax fuel hf =>
      fill_gradient_writes_length fuel startpos endpos startcolor endcolor dir hmax hf,
    fun hmax fuel =>
      fill_gradient_never_exits fuel startpos endpos startcolor endcolor dir hs he hmax,
    hlast, ?_, ?_, ?_⟩
  · intro fuel
    unfold fill_gradient2
    simp only [hlast]
    exact (fill_gradient_never_exits fuel 0 65535 c1 c2 dir (by decide) (by decide)
      (by decide)).1
  · intro fuel
    unfold fill_gradient3
    simp only [hlast]
    exact andThen_not_exited _ _
      (fill_gradient_never_exits fuel _ 65535 c2 c3 dir (toUInt16_lt _) (by decide)
        (max_eq_right (Nat.le_of_lt_succ (toUInt16_lt _)))).1
  · intro fuel
    unfold fill_gradient4
    simp only [hlast]
    exact andThen_not_exited _ _
      (fill_gradient_never_exits fuel _ 65535 c3 c4 dir (toUInt16_lt _) (by decide)
        (max_eq_right (Nat.le_of_lt_succ (toUInt16_lt _)))).1

theorem fill_gradient_exits_iff_below_65535_witness :
    (max 3 65535 < 65535 → ∀ fuel,
      (((65535 : Nat) : Int) - ((3 : Nat) : Int)).natAbs + 1 < fuel →
      (fill_gradient fuel 3 ⟨0, 0, 255⟩ 65535 ⟨64, 255, 255⟩ SHORTEST_HUES).exited = true ∧
      (fill_gradient fuel 3 ⟨0, 0, 255⟩ 65535 ⟨64, 255, 255⟩ SHORTEST_HUES).writes.length
        = (((65535 : Nat) : Int) - ((3 : Nat) : Int)).natAbs + 1) ∧
    (max 3 65535 = 65535 → ∀ fuel,
      (fill_gradient fuel 3 ⟨0, 0, 255⟩ 65535 ⟨64, 255, 255⟩ SHORTEST_HUES).exited = false ∧
      (fill_gradient fuel 3 ⟨0, 0, 255⟩ 65535 ⟨64, 255, 255⟩ SHORTEST_HUES).writes.length
        = fuel) ∧
    toUInt16 (((0 : Nat) : Int) - 1) = 65535 ∧
    (∀ fuel, (fill_gradient2 fuel 0 ⟨1, 2, 3⟩ ⟨4, 5, 6⟩ SHORTEST_HUES).exited = false) ∧
    (∀ fuel, (fill_gradient3 fuel 0 ⟨1, 2, 3⟩ ⟨4, 5, 6⟩ ⟨7, 8, 9⟩ SHORTEST_HUES).exited
      = false) ∧
    (∀ fuel, (fill_gradient4 fuel 0 ⟨1, 2, 3⟩ ⟨4, 5, 6⟩ ⟨7, 8, 9⟩ ⟨10, 11, 12⟩
      SHORTEST_HUES).exited = false) :=
  fill_gradient_exits_iff_below_65535 3 65535 ⟨0, 0, 255⟩ ⟨64, 255, 255⟩ ⟨1, 2, 3⟩ ⟨4, 5, 6⟩
    ⟨7, 8, 9⟩ ⟨10, 11, 12⟩ SHORTEST_HUES (by decide) (by decide)

/-! ## The ordering comparisons of `CRGBW` -/

theorem operator_lt_iff (a b : CRGBW) (ha : a.wf) (hb : b.wf) :
    a.operator_lt b = true ↔ a.r + a.g + a.b < b.r + b.g + b.b := by
  obtain ⟨h1, h2, h3, h4⟩ := ha
  obtain ⟨k1, k2, k3, k4⟩ := hb
  unfold CRGBW.operator_lt
  simp only [toUInt16_of_nat (a.r + a.g + a.b + a.w) (by omega),
    toUInt16_of_nat (b.r + b.g + b.b + a.w) (by omega), decide_eq_true_eq]
  omega

theorem operator_gt_iff (a b : CRGBW) (ha : a.wf) (hb : b.wf) :
    a.operator_gt b = true ↔ a.r + a.g + a.b > b.r + b.g + b.b := by
  obtain ⟨h1, h2, h3, h4⟩ := ha
  obtain ⟨k1, k2, k3, k4⟩ := hb
  unfold CRGBW.operator_gt
  simp only [toUInt16_of_nat (a.r + a.g + a.b + a.w) (by omega),
    toUInt16_of_nat (b.r + b.g + b.b + a.w) (by omega), decide_eq_true_eq]
  omega

theorem operator_le_iff (a b : CRGBW) (ha : a.wf) (hb : b.wf) :
    a.operator_le b = true ↔ a.r + a.g + a.b ≤ b.r + b.g + b.b := by
  obtain ⟨h1, h2, h3, h4⟩ := ha
  obtain ⟨k1, k2, k3, k4⟩ := hb
  unfold CRGBW.operator_le
  simp only [toUInt16_of_nat (a.r + a.g + a.b + a.w) (by omega),
    toUInt16_of_nat (b.r + b.g + b.b + a.w) (by omega), decide_eq_true_eq]
  omega

theorem operator_ge_iff (a b : CRGBW) (ha : a.wf) (hb : b.wf) :
    a.operator_ge b = true ↔ a.r + a.g + a.b ≥ b.r + b.g + b.b := by
  obtain ⟨h1, h2, h3, h4⟩ := ha
  obtain ⟨k1, k2, k3, k4⟩ := hb
  unfold CRGBW.operator_ge
  simp only [toUInt16_of_nat (a.r + a.g + a.b + a.w) (by omega),
    toUInt16_of_nat (b.r + b.g + b.b + a.w) (by omega), decide_eq_true_eq]
  omega

/-- C32: for all `CRGBW` colours `a` and `b` (channels in `0..255`), `a < b` holds if and
only if `a.r + a.g + a.b < b.r + b.g + b.b`, and likewise for `>`, `<=` and `>=`; the
result of each of the four comparisons is the same whatever the white channels of the two
operands are, and two colours that differ only in white are both `<=` and `>=` each
other. -/
theorem operator_lt_ignores_white (a b : CRGBW) (ha : a.wf) (hb : b.wf) :
    (a.operator_lt b = true ↔ a.r + a.g + a.b < b.r + b.g + b.b) ∧
    (a.operator_gt b = true ↔ a.r + a.g + a.b > b.r + b.g + b.b) ∧
    (a.operator_le b = true ↔ a.r + a.g + a.b ≤ b.r + b.g + b.b) ∧
    (a.operator_ge b = true ↔ a.r + a.g + a.b ≥ b.r + b.g + b.b) ∧
    (∀ w1 w2, w1 < 256 → w2 < 256 →
      CRGBW.operator_lt ⟨a.r, a.g, a.b, w1⟩ ⟨b.r, b.g, b.b, w2⟩ = a.operator_lt b ∧
      CRGBW.operator_gt ⟨a.r, a.g, a.b, w1⟩ ⟨b.r, b.g, b.b, w2⟩ = a.operator_gt b ∧
      CRGBW.operator_le ⟨a.r, a.g, a.b, w1⟩ ⟨b.r, b.g, b.b, w2⟩ = a.operator_le b ∧
      CRGBW.operator_ge ⟨a.r, a.g, a.b, w1⟩ ⟨b.r, b.g, b.b, w2⟩ = a.operator_ge b) ∧
    (a.r = b.r → a.g = b.g → a.b = b.b →
      a.operator_le b = true ∧ a.operator_ge b = true ∧
      b.operator_le a = true ∧ b.operator_ge a = true) := by
  refine ⟨operator_lt_iff a b ha hb, operator_gt_iff a b ha hb, operator_le_iff a b ha hb,
    operator_ge_iff a b ha hb, ?_, ?_⟩
  · intro w1 w2 hw1 hw2
    have ha2 : (⟨a.r, a.g, a.b, w1⟩ : CRGBW).wf := ⟨ha.1, ha.2.1, ha.2.2.1, hw1⟩
    have hb2 : (⟨b.r, b.g, b.b, w2⟩ : CRGBW).wf := ⟨hb.1, hb.2.1, hb.2.2.1, hw2⟩
    refine ⟨?_, ?_, ?_, ?_⟩
    · rw [Bool.eq_iff_iff, operator_lt_iff _ _ ha2 hb2, operator_lt_iff a b ha hb]
    · rw [Bool.eq_iff_iff, operator_gt_iff _ _ ha2 hb2, operator_gt_iff a b ha hb]
    · rw [Bool.eq_iff_iff, operator_le_iff _ _ ha2 hb2, operator_le_iff a b ha hb]
    · rw [Bool.eq_iff_iff, operator_ge_iff _ _ ha2 hb2, operator_ge_iff a b ha hb]
  · intro h1 h2 h3
    refine ⟨(operator_le_iff a b ha hb).mpr (by omega),
      (operator_ge_iff a b ha hb).mpr (by omega),
      (operator_le_iff b a hb ha).mpr (by omega),
      (operator_ge_iff b a hb ha).mpr (by omega)⟩

theorem operator_lt_ignores_white_witness :
    ((⟨10, 20, 30, 255⟩ : CRGBW).operator_lt ⟨10, 20, 30, 0⟩ = true ↔
      (⟨10, 20, 30, 255⟩ : CRGBW).r + (⟨10, 20, 30, 255⟩ : CRGBW).g
          + (⟨10, 20, 30, 255⟩ : CRGBW).b
        < (⟨10, 20, 30, 0⟩ : CRGBW).r + (⟨10, 20, 30, 0⟩ : CRGBW).g
          + (⟨10, 20, 30, 0⟩ : CRGBW).b) ∧
    ((⟨10, 20, 30, 255⟩ : CRGBW).operator_gt ⟨10, 20, 30, 0⟩ = true ↔
      (⟨10, 20, 30, 255⟩ : CRGBW).r + (⟨10, 20, 30, 255⟩ : CRGBW).g
          + (⟨10, 20, 30, 255⟩ : CRGBW).b
        > (⟨10, 20, 30, 0⟩ : CRGBW).r + (⟨10, 20, 30, 0⟩ : CRGBW).g
          + (⟨10, 20, 30, 0⟩ : CRGBW).b) ∧
    ((⟨10, 20, 30, 255⟩ : CRGBW).operator_le ⟨10, 20, 30, 0⟩ = true ↔
      (⟨10, 20, 30, 255⟩ : CRGBW).r + (⟨10, 20, 30, 255⟩ : CRGBW).g
          + (⟨10, 20, 30, 255⟩ : CRGBW).b
        ≤ (⟨10, 20, 30, 0⟩ : CRGBW).r + (⟨10, 20, 30, 0⟩ : CRGBW).g
          + (⟨10, 20, 30, 0⟩ : CRGBW).b) ∧
    ((⟨10, 20, 30, 255⟩ : CRGBW).operator_ge ⟨10, 20, 30, 0⟩ = true ↔
      (⟨10, 20, 30, 255⟩ : CRGBW).r + (⟨10, 20, 30, 255⟩ : CRGBW).g
          + (⟨10, 20, 30, 255⟩ : CRGBW).b
        ≥ (⟨10, 20, 30, 0⟩ : CRGBW).r + (⟨10, 20, 30, 0⟩ : CRGBW).g
          + (⟨10, 20, 30, 0⟩ : CRGBW).b) ∧
    (∀ w1 w2, w1 < 256 → w2 < 256 →
      CRGBW.operator_lt ⟨(⟨10, 20, 30, 255⟩ : CRGBW).r, (⟨10, 20, 30, 255⟩ : CRGBW).g,
          (⟨10, 20, 30, 255⟩ : CRGBW).b, w1⟩
        ⟨(⟨10, 20, 30, 0⟩ : CRGBW).r, (⟨10, 20, 30, 0⟩ : CRGBW).g,
          (⟨10, 20, 30, 0⟩ : CRGBW).b, w2⟩
        = (⟨10, 20, 30, 255⟩ : CRGBW).operator_lt ⟨10, 20, 30, 0⟩ ∧
      CRGBW.operator_gt ⟨(⟨10, 20, 30, 255⟩ : CRGBW).r, (⟨10, 20, 30, 255⟩ : CRGBW).g,
          (⟨10, 20, 30, 255⟩ : CRGBW).b, w1⟩
        ⟨(⟨10, 20, 30, 0⟩ : CRGBW).r, (⟨10, 20, 30, 0⟩ : CRGBW).g,
          (⟨10, 20, 30, 0⟩ : CRGBW).b, w2⟩
        = (⟨10, 20, 30, 255⟩ : CRGBW).operator_gt ⟨10, 20, 30, 0⟩ ∧
      CRGBW.operator_le ⟨(⟨10, 20, 30, 255⟩ : CRGBW).r, (⟨10, 20, 30, 255⟩ : CRGBW).g,
          (⟨10, 20, 30, 255⟩ : CRGBW).b, w1⟩
        ⟨(⟨10, 20, 30, 0⟩ : CRGBW).r, (⟨10, 20, 30, 0⟩ : CRGBW).g,
          (⟨10, 20, 30, 0⟩ : CRGBW).b, w2⟩
        = (⟨10, 20, 30, 255⟩ : CRGBW).operator_le ⟨10, 20, 30, 0⟩ ∧
      CRGBW.operator_ge ⟨(⟨10, 20, 30, 255⟩ : CRGBW).r, (⟨10, 20, 30, 255⟩ : CRGBW).g,
          (⟨10, 20, 30, 255⟩ : CRGBW).b, w1⟩
        ⟨(⟨10, 20, 30, 0⟩ : CRGBW).r, (⟨10, 20, 30, 0⟩ : CRGBW).g,
          (⟨10, 20, 30, 0⟩ : CRGBW).b, w2⟩
        = (⟨10, 20, 30, 255⟩ : CRGBW).operator_ge ⟨10, 20, 30, 0⟩) ∧
    ((⟨10, 20, 30, 255⟩ : CRGBW).r = (⟨10, 20, 30, 0⟩ : CRGBW).r →
      (⟨10, 20, 30, 255⟩ : CRGBW).g = (⟨10, 20, 30, 0⟩ : CRGBW).g →
      (⟨10, 20, 30, 255⟩ : CRGBW).b = (⟨10, 20, 30, 0⟩ : CRGBW).b →
      (⟨10, 20, 30, 255⟩ : CRGBW).operator_le ⟨10, 20, 30, 0⟩ = true ∧
      (⟨10, 20, 30, 255⟩ : CRGBW).operator_ge ⟨10, 20, 30, 0⟩ = true ∧
      (⟨10, 20, 30, 0⟩ : CRGBW).operator_le ⟨10, 20, 30, 255⟩ = true ∧
      (⟨10, 20, 30, 0⟩ : CRGBW).operator_ge ⟨10, 20, 30, 255⟩ = true) :=
  operator_lt_ignores_white ⟨10, 20, 30, 255⟩ ⟨10, 20, 30, 0⟩ (by decide) (by decide)

/-! ## The white channel of a description read from read-only storage -/

theorem applySpans_nil (entries : Nat → CRGBW) : applySpans entries [] = entries := rfl

theorem fill_gradient_RGB_channel_zero_mod (c0 c1 N : Nat) :
    fill_gradient_RGB_channel c0 c1 N 0 = c0 % 256 := by
  unfold fill_gradient_RGB_channel toUInt8 accum88 toUInt16
  simp only [Nat.cast_zero, zero_mul, add_zero]
  omega

theorem fill_gradient_RGB_start_mod (leds : Nat → CRGBW) (startpos endpos : Nat)
    (startcolor endcolor : CRGBW) (hle : startpos ≤ endpos) :
    fill_gradient_RGB leds startpos startcolor endpos endcolor startpos
      = ⟨startcolor.r % 256, startcolor.g % 256, startcolor.b % 256, startcolor.w % 256⟩ := by
  unfold fill_gradient_RGB
  rw [if_neg (by omega)]
  unfold fill_gradient_RGB_ordered
  have c : startpos ≤ startpos ∧ startpos ≤ endpos := ⟨le_refl _, hle⟩
  simp only [if_pos c, Nat.sub_self, fill_gradient_RGB_channel_zero_mod]

/-- C28 (the code departs from the claim): the description
`[(0, 1,2,3,4), (100, 5,6,7,9), (255, 0,0,0,0)]` has strictly increasing positions from 0 to
255.  `CRGBWPalette256::operator=( TProgmemRGBGradientPalette_bytes)` reads each entry with
`u.dword = FL_PGM_READ_DWORD_NEAR( progent)`, which writes `index`, `r`, `g`, `b` of the
local `u` but not its fifth byte `w`, and then builds the colour from `u.w`: whatever the
local held before (`u0`) and whatever the palette held, entry 0 is `(1, 2, 3, u0.w)` and
entry 100 is `(5, 6, 7, u0.w)`, so the two stops are not both stored verbatim (their
whites are 4 and 9).  The sibling `loadDynamicGradientPalette` copies the whole union
(`u = *ent`) and stores both stops verbatim. -/
theorem load256_progmem_white_is_not_read :
    (∀ (u0 : TRGBGradientPaletteEntryUnion) (entries : Nat → CRGBW),
      ∃ pal, CRGBWPalette256.operator_assign_gradient u0 entries
          [⟨0, 1, 2, 3, 4⟩, ⟨100, 5, 6, 7, 9⟩, ⟨255, 0, 0, 0, 0⟩] = Outcome.done pal ∧
        pal 0 = ⟨1, 2, 3, u0.w % 256⟩ ∧ pal 100 = ⟨5, 6, 7, u0.w % 256⟩ ∧
        ¬ (pal 0 = ⟨1, 2, 3, 4⟩ ∧ pal 100 = ⟨5, 6, 7, 9⟩)) ∧
    (∀ (entries : Nat → CRGBW),
      ∃ pal, CRGBWPalette256.loadDynamicGradientPalette entries
          [⟨0, 1, 2, 3, 4⟩, ⟨100, 5, 6, 7, 9⟩, ⟨255, 0, 0, 0, 0⟩] = Outcome.done pal ∧
        pal 0 = ⟨1, 2, 3, 4⟩ ∧ pal 100 = ⟨5, 6, 7, 9⟩) := by
  constructor
  · intro u0 entries
    obtain ⟨spans, hs, h0, h100⟩ : ∃ spans,
        CRGBWPalette256.operator_assign_gradient_spans u0
          [⟨0, 1, 2, 3, 4⟩, ⟨100, 5, 6, 7, 9⟩, ⟨255, 0, 0, 0, 0⟩] = Outcome.done spans ∧
        applySpans entries spans 0 = ⟨1, 2, 3, u0.w % 256⟩ ∧
        applySpans entries spans 100 = ⟨5, 6, 7, u0.w % 256⟩ := by
      refine ⟨[⟨0, ⟨1, 2, 3, u0.w⟩, 100, ⟨5, 6, 7, u0.w⟩⟩,
        ⟨100, ⟨5, 6, 7, u0.w⟩, 255, ⟨0, 0, 0, u0.w⟩⟩], rfl, ?_, ?_⟩
      · rw [applySpans_cons, applySpans_frame _ _ 0 (by
          intro s hs
          rw [List.mem_singleton] at hs
          subst hs
          exact ⟨Nat.lt_of_sub_eq_succ rfl, Nat.le_of_ble_eq_true rfl⟩)]
        exact fill_gradient_RGB_start_mod entries 0 100 _ _ (Nat.zero_le _)
      · rw [applySpans_cons, applySpans_cons, applySpans_nil]
        exact fill_gradient_RGB_start_mod _ 100 255 _ _ (Nat.le_of_ble_eq_true rfl)
    refine ⟨applySpans entries spans, ?_, h0, h100, ?_⟩
    · unfold CRGBWPalette256.operator_assign_gradient
      rw [hs]
    · rw [h0, h100]
      rintro ⟨e1, e2⟩
      have w1 : u0.w % 256 = 4 := congrArg CRGBW.w e1
      have w2 : u0.w % 256 = 9 := congrArg CRGBW.w e2
      omega
  · intro entries
    obtain ⟨spans, hs, h0, h100⟩ : ∃ spans,
        CRGBWPalette256.loadDynamicGradientPalette_spans
          [⟨0, 1, 2, 3, 4⟩, ⟨100, 5, 6, 7, 9⟩, ⟨255, 0, 0, 0, 0⟩] = Outcome.done spans ∧
        applySpans entries spans 0 = ⟨1, 2, 3, 4⟩ ∧
        applySpans entries spans 100 = ⟨5, 6, 7, 9⟩ := by
      refine ⟨[⟨0, ⟨1, 2, 3, 4⟩, 100, ⟨5, 6, 7, 9⟩⟩,
        ⟨100, ⟨5, 6, 7, 9⟩, 255, ⟨0, 0, 0, 0⟩⟩], rfl, ?_, ?_⟩
      · rw [applySpans_cons, applySpans_frame _ _ 0 (by
          intro s hs
          rw [List.mem_singleton] at hs
          subst hs
          exact ⟨by decide, by decide⟩)]
        exact fill_gradient_RGB_start entries 0 100 _ _ (by decide) (by decide)
      · rw [applySpans_cons, applySpans_cons, applySpans_nil]
        exact fill_gradient_RGB_start _ 100 255 _ _ (by decide) (by decide)
    refine ⟨applySpans entries spans, ?_, h0, h100⟩
    unfold CRGBWPalette256.loadDynamicGradientPalette
    rw [hs]

end FastLED
